import Mathlib

/-!
Verification of the tree-walking interpreter in `src/app/main.ts`
(scanner, recursive-descent parser, static resolver, evaluator with a
lexically scoped environment chain).

The TypeScript source is shallowly embedded:
* JavaScript numbers are modelled by `LoxNum` (rationals plus `nan` and the
  two infinities); the JavaScript `===` comparison on numbers is `numEq`,
  which is not reflexive at `nan`.
* The mutable environment chain is a heap of frames (`List Frame`) indexed
  by allocation order; `Environment` objects of the source are frame ids.
* Exceptions (`RuntimeError`, `ReturnException`, parser synchronization)
  are `Except` signals; recursion of the evaluator and parser is fueled.
* `console.error` sinks are lists of recorded diagnostics in each state.
* Runtime and resolver error messages are represented by dedicated
  inductive tags whose constructors correspond one-to-one to the message
  strings of the source (the strings contain quote characters, which we do
  not reproduce inside Lean string literals).
-/

/-- Model of a JavaScript number (IEEE-754 double): `nan`, the two
infinities, or a finite value represented exactly as a rational. -/
inductive LoxNum where
  | nan
  | pinf
  | ninf
  | fin (q : Rat)
deriving DecidableEq, Repr

/-- JavaScript `===` on numbers: `NaN` is not equal to itself; finite
values and infinities compare by value. -/
def numEq : LoxNum → LoxNum → Bool
  | .nan, _ => false
  | _, .nan => false
  | .pinf, .pinf => true
  | .ninf, .ninf => true
  | .fin a, .fin b => a == b
  | _, _ => false

/-- Literal payload carried by tokens and by `Literal` expression nodes
(the source stores `null | boolean | number | string` there). -/
inductive Lit where
  | nilL
  | boolL (b : Bool)
  | numL (n : LoxNum)
  | strL (s : String)
deriving DecidableEq, Repr

/-- Token class of the source: kind tag, verbatim lexeme, literal, line. -/
structure Token where
  type : String
  lexeme : String
  literal : Lit
  line : Nat
deriving DecidableEq, Repr

/-- Expression nodes. `variableE` and `assignE` additionally carry a node
identity `id : Nat`: the source keys the resolver side-table by object
identity of these nodes (`Map<Expr, number>`), which the embedding
represents by the identity number. -/
inductive Expr where
  | literal (value : Lit)
  | unary (operator : Token) (right : Expr)
  | binary (left : Expr) (operator : Token) (right : Expr)
  | grouping (expression : Expr)
  | variableE (id : Nat) (name : Token)
  | assignE (id : Nat) (name : Token) (value : Expr)
  | logical (left : Expr) (operator : Token) (right : Expr)
  | call (callee : Expr) (paren : Token) (args : List Expr)

/-- Statement nodes of the source. -/
inductive Stmt where
  | expression (e : Expr)
  | print (e : Expr)
  | varDecl (name : Token) (initializer : Option Expr)
  | block (statements : List Stmt)
  | ifS (condition : Expr) (thenBranch : Stmt) (elseBranch : Option Stmt)
  | whileS (condition : Expr) (body : Stmt)
  | funDecl (name : Token) (params : List Token) (body : List Stmt)
  | ret (keyword : Token) (value : Option Expr)

/-! ## Scanner (class `Scanner` of `src/app/main.ts`)

The index-based character walk of the source is embedded by structural
consumption of the remaining character list: each `scanToken` call consumes
the characters from `start` to `current`, which the embedding returns
explicitly as the `consumed` chunk. -/

/-- The double-quote character. -/
def quoteChar : Char := Char.ofNat 34

/-- The newline character. -/
def newlineChar : Char := Char.ofNat 10

/-- `Scanner.isDigit`. -/
def isDigitC (c : Char) : Bool := 48 ≤ c.toNat && c.toNat ≤ 57

/-- `Scanner.isAlpha`. -/
def isAlphaC (c : Char) : Bool :=
  (97 ≤ c.toNat && c.toNat ≤ 122) || (65 ≤ c.toNat && c.toNat ≤ 90) || c == '_'

/-- `Scanner.isAlphaNumeric`. -/
def isAlphaNumericC (c : Char) : Bool := isAlphaC c || isDigitC c

/-- The reserved-word table of the scanner. -/
def keywords : List (String × String) :=
  [("and", "AND"), ("class", "CLASS"), ("else", "ELSE"), ("false", "FALSE"),
   ("for", "FOR"), ("fun", "FUN"), ("if", "IF"), ("nil", "NIL"),
   ("or", "OR"), ("print", "PRINT"), ("return", "RETURN"), ("super", "SUPER"),
   ("this", "THIS"), ("true", "TRUE"), ("var", "VAR"), ("while", "WHILE")]

/-- Numeric value of a digit run (most significant first). -/
def digitsToNat (ds : List Char) : Nat :=
  ds.foldl (fun acc c => acc * 10 + (c.toNat - 48)) 0

/-- The `parseFloat` of a numeric lexeme with integer digits `ds` and
fractional digits `fs` (exact, which agrees with IEEE parsing on the
claims considered here). -/
def numLitOf (ds fs : List Char) : Lit :=
  .numL (.fin ((digitsToNat ds : Rat) + (digitsToNat fs : Rat) / (10 : Rat) ^ fs.length))

/-- Result of one `Scanner.scanToken` step: the token produced (if any),
the error recorded (if any), the chunk of characters consumed (the
substring from `start` to `current` of the source), the remaining
characters and the updated line counter. -/
structure ScanRes where
  tok : Option Token
  err : Option (Nat × String)
  consumed : List Char
  rest : List Char
  line : Nat
deriving Repr

/-- Build a token of the given kind from the consumed chunk
(`Scanner.addToken`). -/
def mkTok (type : String) (consumed : List Char) (literal : Lit) (line : Nat) : Token :=
  ⟨type, String.mk consumed, literal, line⟩

/-- One-token result helper with no error. -/
def tokRes (type : String) (consumed rest : List Char) (literal : Lit) (line : Nat) : ScanRes :=
  ⟨some (mkTok type consumed literal line), none, consumed, rest, line⟩

/-- Skip result helper (whitespace, comments): no token, no error. -/
def skipRes (consumed rest : List Char) (line : Nat) : ScanRes :=
  ⟨none, none, consumed, rest, line⟩

/-- `Scanner.scanToken` on first character `c` with remaining characters
`rest` at line `line`. -/
def scanToken (c : Char) (rest : List Char) (line : Nat) : ScanRes :=
  match c, rest with
  | '(', _ => tokRes "LEFT_PAREN" [c] rest .nilL line
  | ')', _ => tokRes "RIGHT_PAREN" [c] rest .nilL line
  | '{', _ => tokRes "LEFT_BRACE" [c] rest .nilL line
  | '}', _ => tokRes "RIGHT_BRACE" [c] rest .nilL line
  | ',', _ => tokRes "COMMA" [c] rest .nilL line
  | '.', _ => tokRes "DOT" [c] rest .nilL line
  | '-', _ => tokRes "MINUS" [c] rest .nilL line
  | '+', _ => tokRes "PLUS" [c] rest .nilL line
  | ';', _ => tokRes "SEMICOLON" [c] rest .nilL line
  | '*', _ => tokRes "STAR" [c] rest .nilL line
  | '!', '=' :: r => tokRes "BANG_EQUAL" [c, '='] r .nilL line
  | '!', _ => tokRes "BANG" [c] rest .nilL line
  | '=', '=' :: r => tokRes "EQUAL_EQUAL" [c, '='] r .nilL line
  | '=', _ => tokRes "EQUAL" [c] rest .nilL line
  | '<', '=' :: r => tokRes "LESS_EQUAL" [c, '='] r .nilL line
  | '<', _ => tokRes "LESS" [c] rest .nilL line
  | '>', '=' :: r => tokRes "GREATER_EQUAL" [c, '='] r .nilL line
  | '>', _ => tokRes "GREATER" [c] rest .nilL line
  | '/', '/' :: r =>
      let body := r.takeWhile (fun x => x != newlineChar)
      skipRes ('/' :: '/' :: body) (r.dropWhile (fun x => x != newlineChar)) line
  | '/', _ => tokRes "SLASH" [c] rest .nilL line
  | ' ', _ => skipRes [c] rest line
  | '\r', _ => skipRes [c] rest line
  | '\t', _ => skipRes [c] rest line
  | '\n', _ => skipRes [c] rest (line + 1)
  | _, _ =>
      if c == quoteChar then
        let contents := rest.takeWhile (fun x => x != quoteChar)
        let line' := line + (contents.filter (fun x => x == newlineChar)).length
        match rest.dropWhile (fun x => x != quoteChar) with
        | [] => ⟨none, some (line', "Unterminated string."), c :: contents, [], line'⟩
        | _ :: r2 =>
            tokRes "STRING" (c :: contents ++ [quoteChar]) r2 (.strL (String.mk contents)) line'
      else if isDigitC c then
        let ds := rest.takeWhile isDigitC
        let r1 := rest.dropWhile isDigitC
        match r1 with
        | '.' :: d :: r2 =>
            if isDigitC d then
              let fs := (d :: r2).takeWhile isDigitC
              let r3 := (d :: r2).dropWhile isDigitC
              tokRes "NUMBER" (c :: ds ++ '.' :: fs) r3 (numLitOf (c :: ds) fs) line
            else
              tokRes "NUMBER" (c :: ds) r1 (numLitOf (c :: ds) []) line
        | _ => tokRes "NUMBER" (c :: ds) r1 (numLitOf (c :: ds) []) line
      else if isAlphaC c then
        let body := rest.takeWhile isAlphaNumericC
        let text := String.mk (c :: body)
        let tokenType := (keywords.lookup text).getD "IDENTIFIER"
        let lit : Lit :=
          if tokenType == "TRUE" then .boolL true
          else if tokenType == "FALSE" then .boolL false
          else .nilL
        tokRes tokenType (c :: body) (rest.dropWhile isAlphaNumericC) lit line
      else
        ⟨none, some (line, "Unexpected character: " ++ String.mk [c]), [c], rest, line⟩

/-- Length bound for `dropWhile`. -/
theorem length_dropWhile_le' {α : Type} (p : α → Bool) (l : List α) :
    (l.dropWhile p).length ≤ l.length := by
  induction l with
  | nil => simp [List.dropWhile]
  | cons c t ih =>
    simp only [List.dropWhile]
    split
    · exact Nat.le_trans ih (Nat.le_succ _)
    · simp

/-- Auxiliary bound used for termination of the scanner loop: one
`scanToken` step never returns more remaining characters than it was
given. -/
theorem scanToken_rest_le (c : Char) (rest : List Char) (line : Nat) :
    (scanToken c rest line).rest.length ≤ rest.length := by
  unfold scanToken
  split
  case h_19 r =>
    simp only [skipRes]
    exact Nat.le_trans (length_dropWhile_le' _ r) (Nat.le_succ _)
  case h_25 =>
    dsimp only
    split
    · split
      case isTrue.h_1 hdrop =>
        simp
      case isTrue.h_2 x hd r2 hdrop =>
        simp only [tokRes]
        have h1 := length_dropWhile_le' (fun x => x != quoteChar) rest
        rw [hdrop] at h1
        simp at h1
        omega
    · split
      · split
        case isTrue.h_1 x d r2 hdrop =>
          split
          · simp only [tokRes]
            have h1 := length_dropWhile_le' isDigitC rest
            rw [hdrop] at h1
            have h2 := length_dropWhile_le' isDigitC (d :: r2)
            simp at h1 h2
            omega
          · simp only [tokRes]
            rw [hdrop]
            have h1 := length_dropWhile_le' isDigitC rest
            rw [hdrop] at h1
            exact h1
        case isTrue.h_2 hdrop =>
          simp only [tokRes]
          exact length_dropWhile_le' isDigitC rest
      · split
        · simp only [tokRes]
          exact length_dropWhile_le' isAlphaNumericC rest
        · simp
  all_goals simp [tokRes, skipRes]

/-- `Scanner.scanTokens` main loop: repeatedly scan one token from the
remaining characters, then append the final `EOF` token. The sticky
`hadError` flag is threaded as an accumulator. The `fuel` argument makes
the recursion structural; by `scanToken_rest_le` each step consumes at
least one character, so fuel `length + 1` (as supplied by `scanTokens`)
never runs out. -/
def scanGo : Nat → List Char → Nat → Bool → (List Token × Bool)
  | _, [], line, hadErr => ([⟨"EOF", "", .nilL, line⟩], hadErr)
  | 0, _ :: _, line, hadErr => ([⟨"EOF", "", .nilL, line⟩], hadErr)
  | fuel + 1, c :: rest, line, hadErr =>
    let r := scanToken c rest line
    let (toks, e) := scanGo fuel r.rest r.line (hadErr || r.err.isSome)
    (match r.tok with | some t => t :: toks | none => toks, e)

/-- `Scanner.scanTokens` on a source string: scan from line 1 with a clear
error flag. Returns the token list and the sticky error flag. -/
def scanTokens (source : String) : List Token × Bool :=
  scanGo (source.data.length + 1) source.data 1 false

/-! ## Parser (class `Parser` of `src/app/main.ts`)

Parser state holds the (fixed) token list, the `current` index, the sticky
error flag and the recorded diagnostics. The source keys AST node identity
by object allocation; the embedding threads a `nextId` counter and stamps
each `Variable` and `Assign` node with a fresh identity, mirroring the
fresh-object allocation of `new Variable(...)` / `new Assign(...)`.
Thrown parse errors (`throw this.error(...)`) are the `thrown` signal;
exhaustion of the structural fuel is the separate `fuelOut` signal. -/

/-- Parser diagnostics. Each constructor stands for one message string of
the source (listed in the comment). -/
inductive PMsg where
  | expectFunctionName        -- "Expect function name."
  | expectLParenAfterFunName  -- "Expect '(' after function name."
  | expectParameterName       -- "Expect parameter name."
  | expectRParenAfterParameters -- "Expect ')' after parameters."
  | expectLBraceBeforeFunBody -- "Expect '{' before function body."
  | expectVariableName        -- "Expect variable name."
  | expectSemicolonAfterVarDecl -- "Expect ';' after variable declaration."
  | expectLParenAfterFor      -- "Expect '(' after 'for'."
  | expectSemicolonAfterLoopCondition -- "Expect ';' after loop condition."
  | expectRParenAfterForClauses -- "Expect ')' after for clauses."
  | expectLParenAfterIf       -- "Expect '(' after 'if'."
  | expectRParenAfterIfCondition -- "Expect ')' after if condition."
  | expectLParenAfterWhile    -- "Expect '(' after 'while'."
  | expectRParenAfterCondition -- "Expect ')' after condition."
  | expectRBrace              -- "Expect '}'."
  | expectSemicolonAfterValue -- "Expect ';' after value."
  | expectSemicolonAfterReturnValue -- "Expect ';' after return value."
  | expectSemicolonAfterExpression -- "Expect ';' after expression."
  | invalidAssignmentTarget   -- "Invalid assignment target."
  | expectRParenAfterArguments -- "Expect ')' after arguments."
  | expectRParenAfterExpression -- "Expect ')' after expression."
  | expectExpression          -- "Expect expression."
deriving DecidableEq, Repr

/-- Out-of-band parser signals: a thrown parse error (the synchronization
signal of the source) or exhaustion of the recursion fuel (an artifact of
the embedding, never produced by the source). -/
inductive PSig where
  | thrown
  | fuelOut
deriving DecidableEq, Repr

/-- Parser state. -/
structure PState where
  tokens : List Token
  current : Nat
  hadError : Bool
  errors : List (Token × PMsg)
  nextId : Nat
deriving Repr

/-- Fallback token for out-of-range indices (unreachable for well-formed
token lists, which always end in `EOF`). -/
def eofFallback : Token := ⟨"EOF", "", .nilL, 0⟩

/-- `Parser.peek`. -/
def peekP (p : PState) : Token := p.tokens.getD p.current eofFallback

/-- `Parser.previous`. -/
def previousP (p : PState) : Token := p.tokens.getD (p.current - 1) eofFallback

/-- `Parser.isAtEnd`. -/
def isAtEndP (p : PState) : Bool := (peekP p).type == "EOF"

/-- `Parser.check`. -/
def checkP (type : String) (p : PState) : Bool :=
  if isAtEndP p then false else (peekP p).type == type

/-- `Parser.advance`: increment `current` unless at end, return the
previous token. -/
def advTok (p : PState) : Token × PState :=
  let p' := if isAtEndP p then p else { p with current := p.current + 1 }
  (previousP p', p')

/-- `Parser.match`: if the next token has one of the given kinds, consume
it and report success. -/
def matchP (types : List String) (p : PState) : Bool × PState :=
  if types.any (fun t => checkP t p) then (true, (advTok p).2) else (false, p)

/-- `Parser.error`: set the sticky flag and record the diagnostic (the
source prints `[line N] Error at 'LEX': MSG`); the returned state is what
the caller may or may not throw with. -/
def errorP (tok : Token) (msg : PMsg) (p : PState) : PState :=
  { p with hadError := true, errors := p.errors ++ [(tok, msg)] }

/-- `Parser.consume`: advance over an expected token kind or record an
error and throw. -/
def consumeP (type : String) (msg : PMsg) (p : PState) : (Except PSig Token) × PState :=
  if checkP type p then
    let (t, p') := advTok p
    (.ok t, p')
  else
    (.error .thrown, errorP (peekP p) msg p)

/-- Fresh node identity (object allocation of a `Variable`/`Assign`). -/
def freshId (p : PState) : Nat × PState :=
  (p.nextId, { p with nextId := p.nextId + 1 })

/-- Sequencing helper for parser results. -/
def pbind {α β : Type} (x : (Except PSig α) × PState)
    (f : α → PState → (Except PSig β) × PState) : (Except PSig β) × PState :=
  match x with
  | (.ok a, p) => f a p
  | (.error e, p) => (.error e, p)

/-- The for-loop desugaring of `Parser.forStatement` (lines 397–409 of
the source): wrap the body with the increment, default the condition to
literal `true`, build the `While`, and prepend the initializer. -/
def forDesugar (initializer : Option Stmt) (condition : Option Expr)
    (increment : Option Expr) (body : Stmt) : Stmt :=
  let body1 := match increment with
    | some inc => Stmt.block [body, Stmt.expression inc]
    | none => body
  let cond := match condition with
    | none => Expr.literal (.boolL true)
    | some c => c
  let body2 := Stmt.whileS cond body1
  match initializer with
  | some ini => Stmt.block [ini, body2]
  | none => body2

mutual

/-- `Parser.expression`. -/
def expressionP : Nat → PState → (Except PSig Expr) × PState
  | 0, p => (.error .fuelOut, p)
  | n + 1, p => assignmentP n p

/-- `Parser.assignment`: parse the LHS as an `or`-expression; on `=`,
parse the RHS right-associatively, then either build an `Assign` (LHS a
`Variable`) or record "Invalid assignment target." without throwing. -/
def assignmentP : Nat → PState → (Except PSig Expr) × PState
  | 0, p => (.error .fuelOut, p)
  | n + 1, p =>
    pbind (orP n p) fun expr p1 =>
      match matchP ["EQUAL"] p1 with
      | (false, p2) => (.ok expr, p2)
      | (true, p2) =>
        let equals := previousP p2
        pbind (assignmentP n p2) fun value p3 =>
          match expr with
          | .variableE _ nameTok =>
            let (idn, p4) := freshId p3
            (.ok (.assignE idn nameTok value), p4)
          | _ => (.ok expr, errorP equals .invalidAssignmentTarget p3)

/-- `Parser.or`. -/
def orP : Nat → PState → (Except PSig Expr) × PState
  | 0, p => (.error .fuelOut, p)
  | n + 1, p => pbind (andP n p) fun e p1 => orLoop n e p1

/-- Loop of `Parser.or`. -/
def orLoop : Nat → Expr → PState → (Except PSig Expr) × PState
  | 0, _, p => (.error .fuelOut, p)
  | n + 1, e, p =>
    match matchP ["OR"] p with
    | (false, p1) => (.ok e, p1)
    | (true, p1) =>
      let operator := previousP p1
      pbind (andP n p1) fun r p2 => orLoop n (.logical e operator r) p2

/-- `Parser.and`. -/
def andP : Nat → PState → (Except PSig Expr) × PState
  | 0, p => (.error .fuelOut, p)
  | n + 1, p => pbind (equalityP n p) fun e p1 => andLoop n e p1

/-- Loop of `Parser.and`. -/
def andLoop : Nat → Expr → PState → (Except PSig Expr) × PState
  | 0, _, p => (.error .fuelOut, p)
  | n + 1, e, p =>
    match matchP ["AND"] p with
    | (false, p1) => (.ok e, p1)
    | (true, p1) =>
      let operator := previousP p1
      pbind (equalityP n p1) fun r p2 => andLoop n (.logical e operator r) p2

/-- `Parser.equality`. -/
def equalityP : Nat → PState → (Except PSig Expr) × PState
  | 0, p => (.error .fuelOut, p)
  | n + 1, p => pbind (comparisonP n p) fun e p1 => equalityLoop n e p1

/-- Loop of `Parser.equality`. -/
def equalityLoop : Nat → Expr → PState → (Except PSig Expr) × PState
  | 0, _, p => (.error .fuelOut, p)
  | n + 1, e, p =>
    match matchP ["BANG_EQUAL", "EQUAL_EQUAL"] p with
    | (false, p1) => (.ok e, p1)
    | (true, p1) =>
      let operator := previousP p1
      pbind (comparisonP n p1) fun r p2 => equalityLoop n (.binary e operator r) p2

/-- `Parser.comparison`. -/
def comparisonP : Nat → PState → (Except PSig Expr) × PState
  | 0, p => (.error .fuelOut, p)
  | n + 1, p => pbind (termP n p) fun e p1 => comparisonLoop n e p1

/-- Loop of `Parser.comparison`. -/
def comparisonLoop : Nat → Expr → PState → (Except PSig Expr) × PState
  | 0, _, p => (.error .fuelOut, p)
  | n + 1, e, p =>
    match matchP ["GREATER", "GREATER_EQUAL", "LESS", "LESS_EQUAL"] p with
    | (false, p1) => (.ok e, p1)
    | (true, p1) =>
      let operator := previousP p1
      pbind (termP n p1) fun r p2 => comparisonLoop n (.binary e operator r) p2

/-- `Parser.term`. -/
def termP : Nat → PState → (Except PSig Expr) × PState
  | 0, p => (.error .fuelOut, p)
  | n + 1, p => pbind (factorP n p) fun e p1 => termLoop n e p1

/-- Loop of `Parser.term`. -/
def termLoop : Nat → Expr → PState → (Except PSig Expr) × PState
  | 0, _, p => (.error .fuelOut, p)
  | n + 1, e, p =>
    match matchP ["PLUS", "MINUS"] p with
    | (false, p1) => (.ok e, p1)
    | (true, p1) =>
      let operator := previousP p1
      pbind (factorP n p1) fun r p2 => termLoop n (.binary e operator r) p2

/-- `Parser.factor`. -/
def factorP : Nat → PState → (Except PSig Expr) × PState
  | 0, p => (.error .fuelOut, p)
  | n + 1, p => pbind (unaryP n p) fun e p1 => factorLoop n e p1

/-- Loop of `Parser.factor`. -/
def factorLoop : Nat → Expr → PState → (Except PSig Expr) × PState
  | 0, _, p => (.error .fuelOut, p)
  | n + 1, e, p =>
    match matchP ["STAR", "SLASH"] p with
    | (false, p1) => (.ok e, p1)
    | (true, p1) =>
      let operator := previousP p1
      pbind (unaryP n p1) fun r p2 => factorLoop n (.binary e operator r) p2

/-- `Parser.unary`. -/
def unaryP : Nat → PState → (Except PSig Expr) × PState
  | 0, p => (.error .fuelOut, p)
  | n + 1, p =>
    match matchP ["BANG", "MINUS"] p with
    | (true, p1) =>
      let operator := previousP p1
      pbind (unaryP n p1) fun r p2 => (.ok (.unary operator r), p2)
    | (false, p1) => callP n p1

/-- `Parser.call`. -/
def callP : Nat → PState → (Except PSig Expr) × PState
  | 0, p => (.error .fuelOut, p)
  | n + 1, p => pbind (primaryP n p) fun e p1 => callLoop n e p1

/-- Loop of `Parser.call`. -/
def callLoop : Nat → Expr → PState → (Except PSig Expr) × PState
  | 0, _, p => (.error .fuelOut, p)
  | n + 1, e, p =>
    match matchP ["LEFT_PAREN"] p with
    | (false, p1) => (.ok e, p1)
    | (true, p1) => pbind (finishCall n e p1) fun e2 p2 => callLoop n e2 p2

/-- `Parser.finishCall`. -/
def finishCall : Nat → Expr → PState → (Except PSig Expr) × PState
  | 0, _, p => (.error .fuelOut, p)
  | n + 1, callee, p =>
    pbind
      (if checkP "RIGHT_PAREN" p then (.ok [], p) else argsLoop n p)
      fun args p1 =>
        pbind (consumeP "RIGHT_PAREN" .expectRParenAfterArguments p1) fun paren p2 =>
          (.ok (.call callee paren args), p2)

/-- The do-while argument loop of `Parser.finishCall`. -/
def argsLoop : Nat → PState → (Except PSig (List Expr)) × PState
  | 0, p => (.error .fuelOut, p)
  | n + 1, p =>
    pbind (expressionP n p) fun a p1 =>
      match matchP ["COMMA"] p1 with
      | (true, p2) => pbind (argsLoop n p2) fun rest p3 => (.ok (a :: rest), p3)
      | (false, p2) => (.ok [a], p2)

/-- `Parser.primary`. -/
def primaryP : Nat → PState → (Except PSig Expr) × PState
  | 0, p => (.error .fuelOut, p)
  | n + 1, p =>
    match matchP ["FALSE"] p with
    | (true, p1) => (.ok (.literal (.boolL false)), p1)
    | (false, p1) =>
    match matchP ["TRUE"] p1 with
    | (true, p2) => (.ok (.literal (.boolL true)), p2)
    | (false, p2) =>
    match matchP ["NIL"] p2 with
    | (true, p3) => (.ok (.literal .nilL), p3)
    | (false, p3) =>
    match matchP ["NUMBER", "STRING"] p3 with
    | (true, p4) => (.ok (.literal (previousP p4).literal), p4)
    | (false, p4) =>
    match matchP ["IDENTIFIER"] p4 with
    | (true, p5) =>
      let (idn, p6) := freshId p5
      (.ok (.variableE idn (previousP p5)), p6)
    | (false, p5) =>
    match matchP ["LEFT_PAREN"] p5 with
    | (true, p6) =>
      pbind (expressionP n p6) fun e p7 =>
        pbind (consumeP "RIGHT_PAREN" .expectRParenAfterExpression p7) fun _ p8 =>
          (.ok (.grouping e), p8)
    | (false, p6) => (.error .thrown, errorP (peekP p6) .expectExpression p6)

/-- `Parser.declaration` (catches the synchronization signal). -/
def declarationP : Nat → PState → (Except PSig (Option Stmt)) × PState
  | 0, p => (.error .fuelOut, p)
  | n + 1, p =>
    let step :=
      match matchP ["FUN"] p with
      | (true, p1) => functionDecl n p1
      | (false, p1) =>
        match matchP ["VAR"] p1 with
        | (true, p2) => varDeclaration n p2
        | (false, p2) => statementP n p2
    match step with
    | (.ok st, p') => (.ok (some st), p')
    | (.error .thrown, p') => (.ok none, synchronizeP n p')
    | (.error .fuelOut, p') => (.error .fuelOut, p')

/-- `Parser.function` with `kind = "function"`. -/
def functionDecl : Nat → PState → (Except PSig Stmt) × PState
  | 0, p => (.error .fuelOut, p)
  | n + 1, p =>
    pbind (consumeP "IDENTIFIER" .expectFunctionName p) fun name p1 =>
    pbind (consumeP "LEFT_PAREN" .expectLParenAfterFunName p1) fun _ p2 =>
    pbind
      (if checkP "RIGHT_PAREN" p2 then (.ok [], p2) else paramsLoop n p2)
      fun params p3 =>
    pbind (consumeP "RIGHT_PAREN" .expectRParenAfterParameters p3) fun _ p4 =>
    pbind (consumeP "LEFT_BRACE" .expectLBraceBeforeFunBody p4) fun _ p5 =>
    pbind (blockP n p5) fun body p6 =>
      (.ok (.funDecl name params body), p6)

/-- The do-while parameter loop of `Parser.function`. -/
def paramsLoop : Nat → PState → (Except PSig (List Token)) × PState
  | 0, p => (.error .fuelOut, p)
  | n + 1, p =>
    pbind (consumeP "IDENTIFIER" .expectParameterName p) fun t p1 =>
      match matchP ["COMMA"] p1 with
      | (true, p2) => pbind (paramsLoop n p2) fun rest p3 => (.ok (t :: rest), p3)
      | (false, p2) => (.ok [t], p2)

/-- `Parser.varDeclaration`. -/
def varDeclaration : Nat → PState → (Except PSig Stmt) × PState
  | 0, p => (.error .fuelOut, p)
  | n + 1, p =>
    pbind (consumeP "IDENTIFIER" .expectVariableName p) fun name p1 =>
      let step :=
        match matchP ["EQUAL"] p1 with
        | (true, p2) => pbind (expressionP n p2) fun e p3 => (.ok (some e), p3)
        | (false, p2) => ((.ok none : Except PSig (Option Expr)), p2)
      pbind step fun ini p3 =>
        pbind (consumeP "SEMICOLON" .expectSemicolonAfterVarDecl p3) fun _ p4 =>
          (.ok (.varDecl name ini), p4)

/-- `Parser.statement`. -/
def statementP : Nat → PState → (Except PSig Stmt) × PState
  | 0, p => (.error .fuelOut, p)
  | n + 1, p =>
    match matchP ["FOR"] p with
    | (true, p1) => forStatement n p1
    | (false, p1) =>
    match matchP ["IF"] p1 with
    | (true, p2) => ifStatement n p2
    | (false, p2) =>
    match matchP ["PRINT"] p2 with
    | (true, p3) => printStatement n p3
    | (false, p3) =>
    match matchP ["RETURN"] p3 with
    | (true, p4) => returnStatement n p4
    | (false, p4) =>
    match matchP ["WHILE"] p4 with
    | (true, p5) => whileStatement n p5
    | (false, p5) =>
    match matchP ["LEFT_BRACE"] p5 with
    | (true, p6) => pbind (blockP n p6) fun sts p7 => (.ok (.block sts), p7)
    | (false, p6) => expressionStatement n p6

/-- `Parser.forStatement`: parse the clauses and body, then emit the
desugared `while` form via `forDesugar`. -/
def forStatement : Nat → PState → (Except PSig Stmt) × PState
  | 0, p => (.error .fuelOut, p)
  | n + 1, p =>
    pbind (consumeP "LEFT_PAREN" .expectLParenAfterFor p) fun _ p1 =>
      let iniStep :=
        match matchP ["SEMICOLON"] p1 with
        | (true, p2) => ((.ok none : Except PSig (Option Stmt)), p2)
        | (false, p2) =>
          match matchP ["VAR"] p2 with
          | (true, p3) => pbind (varDeclaration n p3) fun s p4 => (.ok (some s), p4)
          | (false, p3) => pbind (expressionStatement n p3) fun s p4 => (.ok (some s), p4)
      pbind iniStep fun initializer p2 =>
        let condStep :=
          if checkP "SEMICOLON" p2 then ((.ok none : Except PSig (Option Expr)), p2)
          else pbind (expressionP n p2) fun e p3 => (.ok (some e), p3)
        pbind condStep fun condition p3 =>
        pbind (consumeP "SEMICOLON" .expectSemicolonAfterLoopCondition p3) fun _ p4 =>
          let incStep :=
            if checkP "RIGHT_PAREN" p4 then ((.ok none : Except PSig (Option Expr)), p4)
            else pbind (expressionP n p4) fun e p5 => (.ok (some e), p5)
          pbind incStep fun increment p5 =>
          pbind (consumeP "RIGHT_PAREN" .expectRParenAfterForClauses p5) fun _ p6 =>
          pbind (statementP n p6) fun body p7 =>
            (.ok (forDesugar initializer condition increment body), p7)

/-- `Parser.ifStatement`. -/
def ifStatement : Nat → PState → (Except PSig Stmt) × PState
  | 0, p => (.error .fuelOut, p)
  | n + 1, p =>
    pbind (consumeP "LEFT_PAREN" .expectLParenAfterIf p) fun _ p1 =>
    pbind (expressionP n p1) fun condition p2 =>
    pbind (consumeP "RIGHT_PAREN" .expectRParenAfterIfCondition p2) fun _ p3 =>
    pbind (statementP n p3) fun thenBranch p4 =>
      match matchP ["ELSE"] p4 with
      | (true, p5) =>
        pbind (statementP n p5) fun elseBranch p6 =>
          (.ok (.ifS condition thenBranch (some elseBranch)), p6)
      | (false, p5) => (.ok (.ifS condition thenBranch none), p5)

/-- `Parser.whileStatement`. -/
def whileStatement : Nat → PState → (Except PSig Stmt) × PState
  | 0, p => (.error .fuelOut, p)
  | n + 1, p =>
    pbind (consumeP "LEFT_PAREN" .expectLParenAfterWhile p) fun _ p1 =>
    pbind (expressionP n p1) fun condition p2 =>
    pbind (consumeP "RIGHT_PAREN" .expectRParenAfterCondition p2) fun _ p3 =>
    pbind (statementP n p3) fun body p4 =>
      (.ok (.whileS condition body), p4)

/-- `Parser.block` (after the opening brace has been consumed). -/
def blockP : Nat → PState → (Except PSig (List Stmt)) × PState
  | 0, p => (.error .fuelOut, p)
  | n + 1, p =>
    pbind (blockLoop n p) fun sts p1 =>
      pbind (consumeP "RIGHT_BRACE" .expectRBrace p1) fun _ p2 =>
        (.ok sts, p2)

/-- The declaration loop of `Parser.block`. -/
def blockLoop : Nat → PState → (Except PSig (List Stmt)) × PState
  | 0, p => (.error .fuelOut, p)
  | n + 1, p =>
    if !checkP "RIGHT_BRACE" p && !isAtEndP p then
      pbind (declarationP n p) fun ost p1 =>
        pbind (blockLoop n p1) fun rest p2 =>
          (.ok (match ost with | some s => s :: rest | none => rest), p2)
    else
      (.ok [], p)

/-- `Parser.printStatement`. -/
def printStatement : Nat → PState → (Except PSig Stmt) × PState
  | 0, p => (.error .fuelOut, p)
  | n + 1, p =>
    pbind (expressionP n p) fun value p1 =>
    pbind (consumeP "SEMICOLON" .expectSemicolonAfterValue p1) fun _ p2 =>
      (.ok (.print value), p2)

/-- `Parser.returnStatement`. -/
def returnStatement : Nat → PState → (Except PSig Stmt) × PState
  | 0, p => (.error .fuelOut, p)
  | n + 1, p =>
    let keyword := previousP p
    let valStep :=
      if !checkP "SEMICOLON" p then
        pbind (expressionP n p) fun e p1 => (.ok (some e), p1)
      else ((.ok none : Except PSig (Option Expr)), p)
    pbind valStep fun value p1 =>
    pbind (consumeP "SEMICOLON" .expectSemicolonAfterReturnValue p1) fun _ p2 =>
      (.ok (.ret keyword value), p2)

/-- `Parser.expressionStatement`. -/
def expressionStatement : Nat → PState → (Except PSig Stmt) × PState
  | 0, p => (.error .fuelOut, p)
  | n + 1, p =>
    pbind (expressionP n p) fun e p1 =>
    pbind (consumeP "SEMICOLON" .expectSemicolonAfterExpression p1) fun _ p2 =>
      (.ok (.expression e), p2)

/-- `Parser.synchronize`. -/
def synchronizeP : Nat → PState → PState
  | 0, p => p
  | n + 1, p => syncLoop n (advTok p).2

/-- Loop of `Parser.synchronize`. -/
def syncLoop : Nat → PState → PState
  | 0, p => p
  | n + 1, p =>
    if isAtEndP p then p
    else if (previousP p).type == "SEMICOLON" then p
    else if ["CLASS", "FUN", "VAR", "FOR", "IF", "WHILE", "PRINT", "RETURN"].any
        (fun t => (peekP p).type == t) then p
    else syncLoop n (advTok p).2

/-- `Parser.parseStatements`. -/
def parseStatementsP : Nat → PState → (Except PSig (List Stmt)) × PState
  | 0, p => (.error .fuelOut, p)
  | n + 1, p =>
    if isAtEndP p then (.ok [], p)
    else
      pbind (declarationP n p) fun ost p1 =>
        pbind (parseStatementsP n p1) fun rest p2 =>
          (.ok (match ost with | some s => s :: rest | none => rest), p2)

end

/-- Initial parser state on a token list. -/
def initPState (tokens : List Token) : PState := ⟨tokens, 0, false, [], 0⟩

/-! ## Resolver (class `Resolver` of `src/app/main.ts`)

The scope stack `scopes` is kept innermost-first (the source pushes new
scopes at the *end* of its array; the embedding pushes at the head, so the
distance `scopes.length - 1 - i` of the source is the head-index here).
The side-table writes of `Interpreter.resolve` are collected in `locals`,
keyed by node identity. -/

/-- Resolver diagnostics; each constructor is one message string. -/
inductive RMsg where
  | selfInitializer   -- "Can't read local variable in its own initializer."
  | alreadyDeclared   -- "Already a variable with this name in this scope."
deriving DecidableEq, Repr

/-- One scope: a name-to-state map where `false` is `declared` and `true`
is `defined`. -/
abbrev Scope := List (String × Bool)

/-- Map update with the semantics of JavaScript `Map.set`: replace an
existing binding in place or append a new one. -/
def upsertA {α β : Type} [BEq α] (k : α) (v : β) : List (α × β) → List (α × β)
  | [] => [(k, v)]
  | (k', v') :: t => if k' == k then (k, v) :: t else (k', v') :: upsertA k v t

/-- Resolver state. -/
structure RState where
  scopes : List Scope
  locals : List (Nat × Nat)
  hadError : Bool
  errors : List (Token × RMsg)
  currentFunction : String
deriving Repr

/-- `Resolver.error`. -/
def errorR (tok : Token) (msg : RMsg) (r : RState) : RState :=
  { r with hadError := true, errors := r.errors ++ [(tok, msg)] }

/-- `Resolver.beginScope`. -/
def beginScopeR (r : RState) : RState := { r with scopes := [] :: r.scopes }

/-- `Resolver.endScope`. -/
def endScopeR (r : RState) : RState := { r with scopes := r.scopes.tail }

/-- `Resolver.declare`: no-op on an empty stack; report a duplicate, then
mark the name `declared` in the innermost scope. -/
def declareR (name : Token) (r : RState) : RState :=
  match r.scopes with
  | [] => r
  | sc :: rest =>
    let r1 := if (sc.lookup name.lexeme).isSome then errorR name .alreadyDeclared r else r
    { r1 with scopes := upsertA name.lexeme false sc :: rest }

/-- `Resolver.define`. -/
def defineR (name : Token) (r : RState) : RState :=
  match r.scopes with
  | [] => r
  | sc :: rest => { r with scopes := upsertA name.lexeme true sc :: rest }

/-- The distance computed by `Resolver.resolveLocal`: index of the first
scope (from the innermost) containing the name, `none` when no scope
contains it (global). -/
def resolveLocalDist : List Scope → String → Option Nat
  | [], _ => none
  | sc :: rest, name =>
    if (sc.lookup name).isSome then some 0
    else (resolveLocalDist rest name).map (fun d => d + 1)

/-- `Resolver.resolveLocal` followed by `Interpreter.resolve`: write the
distance for this node identity, or record nothing for a global. -/
def resolveLocalR (idn : Nat) (name : Token) (r : RState) : RState :=
  match resolveLocalDist r.scopes name.lexeme with
  | some d => { r with locals := upsertA idn d r.locals }
  | none => r

mutual

/-- `Resolver`'s expression visitors. -/
def resolveExpr : Expr → RState → RState
  | .literal _, r => r
  | .unary _ right, r => resolveExpr right r
  | .binary l _ rt, r => resolveExpr rt (resolveExpr l r)
  | .grouping e, r => resolveExpr e r
  | .variableE idn name, r =>
    let r1 := match r.scopes with
      | sc :: _ =>
        if sc.lookup name.lexeme == some false then errorR name .selfInitializer r else r
      | [] => r
    resolveLocalR idn name r1
  | .assignE idn name value, r => resolveLocalR idn name (resolveExpr value r)
  | .logical l _ rt, r => resolveExpr rt (resolveExpr l r)
  | .call callee _ args, r => resolveExprs args (resolveExpr callee r)

/-- Resolution of argument lists (in order). -/
def resolveExprs : List Expr → RState → RState
  | [], r => r
  | e :: es, r => resolveExprs es (resolveExpr e r)

/-- `Resolver`'s statement visitors. -/
def resolveStmt : Stmt → RState → RState
  | .expression e, r => resolveExpr e r
  | .print e, r => resolveExpr e r
  | .varDecl name ini, r =>
    let r1 := declareR name r
    let r2 := match ini with
      | some e => resolveExpr e r1
      | none => r1
    defineR name r2
  | .block sts, r => endScopeR (resolveStmts sts (beginScopeR r))
  | .ifS c t e, r =>
    let r1 := resolveStmt t (resolveExpr c r)
    match e with
    | some s => resolveStmt s r1
    | none => r1
  | .whileS c b, r => resolveStmt b (resolveExpr c r)
  | .funDecl name params body, r =>
    let r1 := defineR name (declareR name r)
    -- `Resolver.resolveFunction` with type "function", inlined so that the
    -- mutual block is structurally recursive: save `currentFunction`, push
    -- a scope, declare and define each parameter, resolve the body, pop,
    -- restore `currentFunction`.
    let enclosingFunction := r1.currentFunction
    let r2 := beginScopeR { r1 with currentFunction := "function" }
    let r3 := params.foldl (fun acc p => defineR p (declareR p acc)) r2
    let r4 := resolveStmts body r3
    let r5 := endScopeR r4
    { r5 with currentFunction := enclosingFunction }
  | .ret _ v, r =>
    match v with
    | some e => resolveExpr e r
    | none => r

/-- `Resolver.resolveStatements`. -/
def resolveStmts : List Stmt → RState → RState
  | [], r => r
  | s :: ss, r => resolveStmts ss (resolveStmt s r)

end

/-- Resolution of a whole program from the initial resolver state (empty
scope stack, empty side-table). -/
def resolveProgram (stmts : List Stmt) : RState :=
  resolveStmts stmts ⟨[], [], false, [], "none"⟩

/-! ## Evaluator (class `Interpreter`, `Environment`, `LoxFunction`)

`Environment` objects are frames in a heap (`List Frame`) indexed by
allocation order; `new Environment(e)` appends a frame whose `parent` is
`e`. The one global environment is frame `0`. The state also carries the
resolver side-table (`locals`), the print output, a counter `nextObj`
providing the object identity of each allocated `LoxFunction`, and the
ghost observer `resolvedMiss` — pure instrumentation that records whether
some side-table-resolved variable lookup failed to find its name after
exactly `d` enclosing hops; it never influences any computed value. -/

/-- Runtime values. `closure` is a `LoxFunction` (with its allocation
identity `oid`, declaration name and parameters, body, and captured
environment frame); `nativeClock` is the `ClockNative` singleton; `undef`
is the JavaScript `undefined` (which `Map.get` yields for absent keys). -/
inductive Value where
  | nil
  | boolV (b : Bool)
  | num (n : LoxNum)
  | str (s : String)
  | closure (oid : Nat) (name : Token) (params : List Token) (body : List Stmt) (closEnv : Nat)
  | nativeClock
  | undef

/-- Runtime error messages; each constructor is one message string of the
source (`arityMismatch n m` is "Expected n arguments but got m."). -/
inductive RtMsg where
  | undefinedVariable (name : String)     -- "Undefined variable 'X'."
  | operandMustBeNumber                   -- "Operand must be a number."
  | operandsMustBeNumbers                 -- "Operands must be numbers."
  | twoNumbersOrTwoStrings                -- "Operands must be two numbers or two strings."
  | canOnlyCallFunctionsAndClasses        -- "Can only call functions and classes."
  | arityMismatch (expected got : Nat)    -- "Expected N arguments but got M."
deriving DecidableEq, Repr

/-- Out-of-band evaluator signals: `rte` is a thrown `RuntimeError`,
`retSig` a `ReturnException`, and `out` is exhaustion of the recursion
fuel (an artifact of the embedding, never produced by the source). -/
inductive Sig where
  | rte (token : Token) (msg : RtMsg)
  | retSig (value : Value)
  | out

/-- An `Environment` object: enclosing frame reference and value map. -/
structure Frame where
  parent : Option Nat
  vals : List (String × Value)

/-- Evaluator state. -/
structure IState where
  heap : List Frame
  env : Nat
  locals : List (Nat × Nat)
  output : List String
  nextObj : Nat
  resolvedMiss : Bool

/-- Frame dereference (total, with a vacuous default that is unreachable
for the frame ids the evaluator manipulates). -/
def getFrame (heap : List Frame) (i : Nat) : Frame := heap.getD i ⟨none, []⟩

/-- Enclosing frame of a frame. -/
def parentOf (heap : List Frame) (i : Nat) : Option Nat := (getFrame heap i).parent

/-- In-place update of one frame of the heap. -/
def modifyFrame : List Frame → Nat → (Frame → Frame) → List Frame
  | [], _, _ => []
  | fr :: t, 0, f => f fr :: t
  | fr :: t, i + 1, f => fr :: modifyFrame t i f

/-- `Environment.define` on frame `i`. -/
def defineE (heap : List Frame) (i : Nat) (name : String) (v : Value) : List Frame :=
  modifyFrame heap i (fun fr => { fr with vals := upsertA name v fr.vals })

/-- `Environment.ancestor`: walk `distance` parent hops, but stay put
whenever there is no enclosing frame (the loop of the source silently
stops moving at the end of the chain). -/
def ancestorE (heap : List Frame) : Nat → Nat → Nat
  | 0, e => e
  | d + 1, e =>
    match parentOf heap e with
    | some p => ancestorE heap d p
    | none => e

/-- Exact `d`-hop ancestor: `none` when the chain is shorter than `d`.
Used only by the ghost observer and the agreement statements. -/
def strictAncestor (heap : List Frame) : Nat → Nat → Option Nat
  | 0, e => some e
  | d + 1, e =>
    match parentOf heap e with
    | some p => strictAncestor heap d p
    | none => none

/-- `Environment.getAt`: read the map of the `ancestor` frame directly;
an absent name yields JavaScript `undefined`, never an error. -/
def getAtE (heap : List Frame) (e d : Nat) (name : String) : Value :=
  (((getFrame heap (ancestorE heap d e)).vals.lookup name).getD .undef)

/-- `Environment.assignAt`: write into the map of the `ancestor` frame
directly, with no presence check. -/
def assignAtE (heap : List Frame) (e d : Nat) (name : String) (v : Value) : List Frame :=
  defineE heap (ancestorE heap d e) name v

/-- `Environment.get` called on the globals (`this.globals.get(name)`):
the globals frame has no enclosing frame, so the chain walk of the source
reduces to one map probe, then the `Undefined variable` error. -/
def globalsGet (heap : List Frame) (name : Token) : Except Sig Value :=
  match (getFrame heap 0).vals.lookup name.lexeme with
  | some v => .ok v
  | none => .error (.rte name (.undefinedVariable name.lexeme))

/-- `Environment.assign` called on the globals: set an existing binding
or raise `Undefined variable`. -/
def globalsAssign (heap : List Frame) (name : Token) (v : Value) : Except Sig (List Frame) :=
  if ((getFrame heap 0).vals.lookup name.lexeme).isSome then
    .ok (defineE heap 0 name.lexeme v)
  else
    .error (.rte name (.undefinedVariable name.lexeme))

/-- `Interpreter.isTruthy`: `null` is false, booleans are themselves,
everything else (including `undefined`, `0` and `""`) is true. -/
def isTruthy : Value → Bool
  | .nil => false
  | .boolV b => b
  | _ => true

/-- JavaScript `===` on runtime values: same-variant value equality,
`numEq` on numbers, identity (allocation id) on callables, `false`
across variants. -/
def jsStrictEq : Value → Value → Bool
  | .nil, .nil => true
  | .boolV a, .boolV b => a == b
  | .num a, .num b => numEq a b
  | .str a, .str b => a == b
  | .closure o1 _ _ _ _, .closure o2 _ _ _ _ => o1 == o2
  | .nativeClock, .nativeClock => true
  | .undef, .undef => true
  | _, _ => false

/-- `Interpreter.isEqual`: both `nil` → true, `nil` on the left → false,
otherwise JavaScript `===` (which is also false when only the right
operand is `nil`). -/
def isEqual (a b : Value) : Bool :=
  match a, b with
  | .nil, .nil => true
  | .nil, _ => false
  | _, _ => jsStrictEq a b

/-- JavaScript negation of a double. -/
def numNeg : LoxNum → LoxNum
  | .nan => .nan
  | .pinf => .ninf
  | .ninf => .pinf
  | .fin a => .fin (-a)

/-- JavaScript `-` on doubles. -/
def numSub : LoxNum → LoxNum → LoxNum
  | .nan, _ => .nan
  | _, .nan => .nan
  | .pinf, .pinf => .nan
  | .ninf, .ninf => .nan
  | .pinf, _ => .pinf
  | .ninf, _ => .ninf
  | _, .pinf => .ninf
  | _, .ninf => .pinf
  | .fin a, .fin b => .fin (a - b)

/-- JavaScript `+` on doubles. -/
def numAdd : LoxNum → LoxNum → LoxNum
  | .nan, _ => .nan
  | _, .nan => .nan
  | .pinf, .ninf => .nan
  | .ninf, .pinf => .nan
  | .pinf, _ => .pinf
  | _, .pinf => .pinf
  | .ninf, _ => .ninf
  | _, .ninf => .ninf
  | .fin a, .fin b => .fin (a + b)

/-- JavaScript `*` on doubles. -/
def numMul : LoxNum → LoxNum → LoxNum
  | .nan, _ => .nan
  | _, .nan => .nan
  | .pinf, .pinf => .pinf
  | .pinf, .ninf => .ninf
  | .ninf, .pinf => .ninf
  | .ninf, .ninf => .pinf
  | .pinf, .fin b => if b = 0 then .nan else if 0 < b then .pinf else .ninf
  | .fin a, .pinf => if a = 0 then .nan else if 0 < a then .pinf else .ninf
  | .ninf, .fin b => if b = 0 then .nan else if 0 < b then .ninf else .pinf
  | .fin a, .ninf => if a = 0 then .nan else if 0 < a then .ninf else .pinf
  | .fin a, .fin b => .fin (a * b)

/-- JavaScript `/` on doubles (division by zero gives an infinity, zero
over zero gives `NaN`; the model collapses the two IEEE zeros). -/
def numDiv : LoxNum → LoxNum → LoxNum
  | .nan, _ => .nan
  | _, .nan => .nan
  | .pinf, .pinf => .nan
  | .pinf, .ninf => .nan
  | .ninf, .pinf => .nan
  | .ninf, .ninf => .nan
  | .pinf, .fin b => if 0 ≤ b then .pinf else .ninf
  | .ninf, .fin b => if 0 ≤ b then .ninf else .pinf
  | .fin _, .pinf => .fin 0
  | .fin _, .ninf => .fin 0
  | .fin a, .fin b =>
    if b = 0 then (if a = 0 then .nan else if 0 < a then .pinf else .ninf)
    else .fin (a / b)

/-- JavaScript `<` on doubles (false whenever `NaN` is involved). -/
def numLt : LoxNum → LoxNum → Bool
  | .nan, _ => false
  | _, .nan => false
  | .pinf, _ => false
  | .ninf, .ninf => false
  | .ninf, _ => true
  | .fin _, .pinf => true
  | .fin _, .ninf => false
  | .fin a, .fin b => decide (a < b)

/-- JavaScript `<=` on doubles. -/
def numLe : LoxNum → LoxNum → Bool
  | .nan, _ => false
  | _, .nan => false
  | .pinf, .pinf => true
  | .pinf, _ => false
  | .ninf, _ => true
  | .fin _, .pinf => true
  | .fin _, .ninf => false
  | .fin a, .fin b => decide (a ≤ b)

/-- String of a double (the decimal formatting of JavaScript
`Number.toString` followed by the `.0`-stripping of the source is
abstracted; no claim depends on the digits). -/
def numToString : LoxNum → String
  | .nan => "NaN"
  | .pinf => "Infinity"
  | .ninf => "-Infinity"
  | .fin q => if q.den = 1 then toString q.num else toString q

/-- `Interpreter.stringify`. -/
def stringify : Value → String
  | .nil => "nil"
  | .boolV b => toString b
  | .num n => numToString n
  | .str s => s
  | .closure _ name _ _ _ => "<fn " ++ name.lexeme ++ ">"
  | .nativeClock => "<native fn>"
  | .undef => "undefined"

/-- `Interpreter.isCallable`. -/
def isCallable : Value → Bool
  | .closure _ _ _ _ _ => true
  | .nativeClock => true
  | _ => false

/-- `LoxCallable.arity`. -/
def arityOf : Value → Nat
  | .closure _ _ ps _ _ => ps.length
  | _ => 0

/-- Value of a `Literal` node. -/
def litToValue : Lit → Value
  | .nilL => .nil
  | .boolL b => .boolV b
  | .numL n => .num n
  | .strL s => .str s

/-- `Interpreter.checkNumberOperands` followed by the numeric operation. -/
def withNums (op : Token) (lv rv : Value) (k : LoxNum → LoxNum → Value) : Except Sig Value :=
  match lv, rv with
  | .num a, .num b => .ok (k a b)
  | _, _ => .error (.rte op .operandsMustBeNumbers)

/-- The operator dispatch of `Interpreter.visitBinaryExpr` (both operands
already evaluated); the fall-through of the source switch yields `null`. -/
def binaryOp (op : Token) (lv rv : Value) : Except Sig Value :=
  if op.type == "MINUS" then withNums op lv rv (fun a b => .num (numSub a b))
  else if op.type == "PLUS" then
    match lv, rv with
    | .num a, .num b => .ok (.num (numAdd a b))
    | .str a, .str b => .ok (.str (a ++ b))
    | _, _ => .error (.rte op .twoNumbersOrTwoStrings)
  else if op.type == "SLASH" then withNums op lv rv (fun a b => .num (numDiv a b))
  else if op.type == "STAR" then withNums op lv rv (fun a b => .num (numMul a b))
  else if op.type == "GREATER" then withNums op lv rv (fun a b => .boolV (numLt b a))
  else if op.type == "GREATER_EQUAL" then withNums op lv rv (fun a b => .boolV (numLe b a))
  else if op.type == "LESS" then withNums op lv rv (fun a b => .boolV (numLt a b))
  else if op.type == "LESS_EQUAL" then withNums op lv rv (fun a b => .boolV (numLe a b))
  else if op.type == "BANG_EQUAL" then .ok (.boolV (!isEqual lv rv))
  else if op.type == "EQUAL_EQUAL" then .ok (.boolV (isEqual lv rv))
  else .ok .nil

/-- Sequencing helper for evaluator results. -/
def bindE {α β : Type} (x : (Except Sig α) × IState)
    (f : α → IState → (Except Sig β) × IState) : (Except Sig β) × IState :=
  match x with
  | (.ok a, s) => f a s
  | (.error e, s) => (.error e, s)

/-- The ghost observer of the agreement invariant: the side-table said
distance `d`, and the frame reached after exactly `d` enclosing hops
contains the name. -/
def resolvedHit (heap : List Frame) (e d : Nat) (name : String) : Bool :=
  match strictAncestor heap d e with
  | some a => ((getFrame heap a).vals.lookup name).isSome
  | none => false

/-- `Interpreter.lookUpVariable`: a side-table hit reads through
`getAt` (never raising), a miss reads the globals (which can raise
`Undefined variable`). The ghost flag records agreement failures. -/
def lookUpVariable (name : Token) (idn : Nat) (s : IState) : (Except Sig Value) × IState :=
  match s.locals.lookup idn with
  | some d =>
    let s' := if resolvedHit s.heap s.env d name.lexeme then s
              else { s with resolvedMiss := true }
    (.ok (getAtE s.heap s.env d name.lexeme), s')
  | none => (globalsGet s.heap name, s)

/-- The iteration space of the parameter-binding loop of
`LoxFunction.call`: the i-th loop iteration defines `params[i].lexeme`
to `args[i]` (`undefined` past the end of the argument list, which the
arity check of the call site rules out). -/
def zipPad : List Token → List Value → List (String × Value)
  | [], _ => []
  | p :: ps, [] => (p.lexeme, Value.undef) :: zipPad ps []
  | p :: ps, a :: rest => (p.lexeme, a) :: zipPad ps rest

/-- The parameter-binding loop of `LoxFunction.call`: sequential
`environment.define` calls on the fresh empty environment. -/
def bindParams (params : List Token) (args : List Value) : List (String × Value) :=
  (zipPad params args).foldl (fun acc q => upsertA q.1 q.2 acc) []

mutual

/-- `Interpreter.evaluate` (the expression visitors). -/
def evalExpr : Nat → Expr → IState → (Except Sig Value) × IState
  | 0, _, s => (.error .out, s)
  | n + 1, e, s =>
    match e with
    | .literal l => (.ok (litToValue l), s)
    | .grouping inner => evalExpr n inner s
    | .unary op right =>
      bindE (evalExpr n right s) fun v s1 =>
        if op.type == "MINUS" then
          match v with
          | .num m => (.ok (.num (numNeg m)), s1)
          | _ => (.error (.rte op .operandMustBeNumber), s1)
        else if op.type == "BANG" then (.ok (.boolV (!isTruthy v)), s1)
        else (.ok .nil, s1)
    | .binary l op r =>
      bindE (evalExpr n l s) fun lv s1 =>
        bindE (evalExpr n r s1) fun rv s2 =>
          (binaryOp op lv rv, s2)
    | .logical l op r =>
      bindE (evalExpr n l s) fun lv s1 =>
        if op.type == "OR" then
          if isTruthy lv then (.ok lv, s1) else evalExpr n r s1
        else if op.type == "AND" then
          if !isTruthy lv then (.ok lv, s1) else evalExpr n r s1
        else evalExpr n r s1
    | .variableE idn name => lookUpVariable name idn s
    | .assignE idn name value =>
      bindE (evalExpr n value s) fun v s1 =>
        match s1.locals.lookup idn with
        | some d => (.ok v, { s1 with heap := assignAtE s1.heap s1.env d name.lexeme v })
        | none =>
          match globalsAssign s1.heap name v with
          | .ok heap2 => (.ok v, { s1 with heap := heap2 })
          | .error sg => (.error sg, s1)
    | .call callee paren args =>
      bindE (evalExpr n callee s) fun cv s1 =>
        bindE (evalArgs n args s1) fun argv s2 =>
          if !isCallable cv then
            (.error (.rte paren .canOnlyCallFunctionsAndClasses), s2)
          else if argv.length != arityOf cv then
            (.error (.rte paren (.arityMismatch (arityOf cv) argv.length)), s2)
          else
            match cv with
            | .closure _ _ ps body closEnv => callLox n ps body closEnv argv s2
            | _ => (.ok (.num (.fin 0)), s2)

/-- Left-to-right evaluation of a call's argument list. -/
def evalArgs : Nat → List Expr → IState → (Except Sig (List Value)) × IState
  | 0, _, s => (.error .out, s)
  | _ + 1, [], s => (.ok [], s)
  | n + 1, a :: rest, s =>
    bindE (evalExpr n a s) fun v s1 =>
      bindE (evalArgs n rest s1) fun vs s2 => (.ok (v :: vs), s2)

/-- `Interpreter.execute` (the statement visitors). -/
def execStmt : Nat → Stmt → IState → (Except Sig Unit) × IState
  | 0, _, s => (.error .out, s)
  | n + 1, st, s =>
    match st with
    | .expression e => bindE (evalExpr n e s) fun _ s1 => (.ok (), s1)
    | .print e =>
      bindE (evalExpr n e s) fun v s1 =>
        (.ok (), { s1 with output := s1.output ++ [stringify v] })
    | .varDecl name ini =>
      bindE (match ini with
             | some e => evalExpr n e s
             | none => ((.ok Value.nil : Except Sig Value), s)) fun v s1 =>
        (.ok (), { s1 with heap := defineE s1.heap s1.env name.lexeme v })
    | .block sts =>
      let fid := s.heap.length
      let s1 := { s with heap := s.heap ++ [⟨some s.env, []⟩] }
      executeBlock n sts fid s1
    | .ifS c t e =>
      bindE (evalExpr n c s) fun cv s1 =>
        if isTruthy cv then execStmt n t s1
        else
          match e with
          | some els => execStmt n els s1
          | none => (.ok (), s1)
    | .whileS c b =>
      bindE (evalExpr n c s) fun cv s1 =>
        if isTruthy cv then
          bindE (execStmt n b s1) fun _ s2 => execStmt n (.whileS c b) s2
        else (.ok (), s1)
    | .funDecl name params body =>
      let v := Value.closure s.nextObj name params body s.env
      (.ok (), { s with nextObj := s.nextObj + 1,
                        heap := defineE s.heap s.env name.lexeme v })
    | .ret _ value =>
      bindE (match value with
             | some e => evalExpr n e s
             | none => ((.ok Value.nil : Except Sig Value), s)) fun v s1 =>
        (.error (.retSig v), s1)

/-- Execution of a statement list in order. -/
def execStmts : Nat → List Stmt → IState → (Except Sig Unit) × IState
  | 0, _, s => (.error .out, s)
  | _ + 1, [], s => (.ok (), s)
  | n + 1, st :: sts, s =>
    bindE (execStmt n st s) fun _ s1 => execStmts n sts s1

/-- `Interpreter.executeBlock`: switch to the given environment, run the
statements, and restore the previous environment on every exit path
(the `finally` of the source). -/
def executeBlock : Nat → List Stmt → Nat → IState → (Except Sig Unit) × IState
  | 0, _, _, s => (.error .out, s)
  | n + 1, stmts, envId, s =>
    let previous := s.env
    let (r, s1) := execStmts n stmts { s with env := envId }
    (r, { s1 with env := previous })

/-- `LoxFunction.call`: allocate a fresh environment whose parent is the
captured closure environment, bind the parameters, run the body through
`executeBlock`; a `ReturnException` yields its value, normal completion
yields `nil`, other signals propagate. -/
def callLox : Nat → List Token → List Stmt → Nat → List Value → IState → (Except Sig Value) × IState
  | 0, _, _, _, _, s => (.error .out, s)
  | n + 1, params, body, closEnv, args, s =>
    let fid := s.heap.length
    let s1 := { s with heap := s.heap ++ [⟨some closEnv, bindParams params args⟩] }
    let (r, s2) := executeBlock n body fid s1
    match r with
    | .error (.retSig v) => (.ok v, s2)
    | .error e => (.error e, s2)
    | .ok _ => (.ok Value.nil, s2)

end

/-- The initial interpreter state: one global frame pre-populated with
`clock`, current environment = globals, side-table from the resolver. -/
def initIState (locals : List (Nat × Nat)) : IState :=
  ⟨[⟨none, [("clock", Value.nativeClock)]⟩], 0, locals, [], 0, false⟩

/-- The `run` pipeline after parsing: resolve the program, then interpret
the statements against the produced side-table. -/
def runProgram (fuel : Nat) (stmts : List Stmt) : IState :=
  (execStmts fuel stmts (initIState (resolveProgram stmts).locals)).2

/-! ## Syntactic predicates used by the statements of the claims -/

/-- Whether a statement is a declaration (`var` or `fun`). The grammar of
the language produces `if`/`while` branches and bodies through the
`statement` production, which cannot yield declarations; a "program" in
the claims is a parser-producible statement list. -/
def isDecl : Stmt → Bool
  | .varDecl _ _ => true
  | .funDecl _ _ _ => true
  | _ => false

mutual

/-- Grammar well-formedness of a statement: branch and loop-body
positions hold non-declarations (as the `statement` production of the
parser guarantees). -/
def stmtWF : Stmt → Bool
  | .expression _ => true
  | .print _ => true
  | .varDecl _ _ => true
  | .block sts => stmtsWF sts
  | .ifS _ t e =>
    !isDecl t && stmtWF t &&
      (match e with
       | some s => !isDecl s && stmtWF s
       | none => true)
  | .whileS _ b => !isDecl b && stmtWF b
  | .funDecl _ _ body => stmtsWF body
  | .ret _ _ => true

/-- Grammar well-formedness of a statement list. -/
def stmtsWF : List Stmt → Bool
  | [] => true
  | s :: ss => stmtWF s && stmtsWF ss

end

mutual

/-- Node identities of the `Variable` and `Assign` nodes of an
expression, in resolution order. -/
def exprIds : Expr → List Nat
  | .literal _ => []
  | .unary _ r => exprIds r
  | .binary l _ r => exprIds l ++ exprIds r
  | .grouping e => exprIds e
  | .variableE i _ => [i]
  | .assignE i _ v => exprIds v ++ [i]
  | .logical l _ r => exprIds l ++ exprIds r
  | .call c _ args => exprIds c ++ exprsIds args

/-- Node identities of an expression list. -/
def exprsIds : List Expr → List Nat
  | [] => []
  | e :: es => exprIds e ++ exprsIds es

/-- Node identities of the `Variable` and `Assign` nodes of a statement. -/
def stmtIds : Stmt → List Nat
  | .expression e => exprIds e
  | .print e => exprIds e
  | .varDecl _ ini =>
    (match ini with
     | some e => exprIds e
     | none => [])
  | .block sts => stmtsIds sts
  | .ifS c t e =>
    exprIds c ++ stmtIds t ++
      (match e with
       | some s => stmtIds s
       | none => [])
  | .whileS c b => exprIds c ++ stmtIds b
  | .funDecl _ _ body => stmtsIds body
  | .ret _ v =>
    (match v with
     | some e => exprIds e
     | none => [])

/-- Node identities of a statement list. -/
def stmtsIds : List Stmt → List Nat
  | [] => []
  | s :: ss => stmtIds s ++ stmtsIds ss

end

/-! ## Predicates for the scanner reconstruction claim -/

/-- Whitespace characters of the scanner (skipped without a token). -/
def isWsC (c : Char) : Bool := c == ' ' || c == '\r' || c == '\t' || c == newlineChar

/-- Reconstruction of a character list from lexemes interleaved with
whitespace only: the literal reading of the claim. -/
inductive WsInterleave : List Char → List String → Prop where
  | nil : WsInterleave [] []
  | ws {c : Char} {cs : List Char} {ls : List String} :
      isWsC c = true → WsInterleave cs ls → WsInterleave (c :: cs) ls
  | tok {lex : String} {cs : List Char} {ls : List String} :
      WsInterleave cs ls → WsInterleave (lex.data ++ cs) (lex :: ls)

/-- Reconstruction of a character list from lexemes interleaved with
whitespace and line comments (`//` up to the next newline). -/
inductive Interleave : List Char → List String → Prop where
  | nil : Interleave [] []
  | ws {c : Char} {cs : List Char} {ls : List String} :
      isWsC c = true → Interleave cs ls → Interleave (c :: cs) ls
  | comment {body cs : List Char} {ls : List String} :
      body.all (fun x => x != newlineChar) = true → Interleave cs ls →
      Interleave ('/' :: '/' :: body ++ cs) ls
  | tok {lex : String} {cs : List Char} {ls : List String} :
      Interleave cs ls → Interleave (lex.data ++ cs) (lex :: ls)

/-- Lexemes of the non-`EOF` tokens of a token list. -/
def tokenLexemes (toks : List Token) : List String :=
  (toks.filter (fun t => t.type != "EOF")).map (fun t => t.lexeme)

/-- Modelled from the spec (§4.2, for-loop desugaring): the statement
tree of the equivalent while form `{ I; while (C?C:true) { B; U?; } }` —
the body wrapped in a block with `U` as a trailing expression statement
when `U` is present, the condition defaulting to the literal `true` when
`C` is omitted, a `While` node, and an outer block containing `I`
followed by the while exactly when `I` is present. -/
def forDesugarSpec (i : Option Stmt) (c : Option Expr) (u : Option Expr) (b : Stmt) : Stmt :=
  let loopBody : Stmt :=
    match u with
    | some u' => Stmt.block [b, Stmt.expression u']
    | none => b
  let loopCond : Expr :=
    match c with
    | some c' => c'
    | none => Expr.literal (.boolL true)
  let w : Stmt := Stmt.whileS loopCond loopBody
  match i with
  | some i' => Stmt.block [i', w]
  | none => w

/-! ## Static-dynamic agreement machinery (claim on resolver-evaluator
agreement)

`ResolEOK D S e` (and its statement forms) is the reification of an
error-free resolver run: resolving `e` under scope stack `S` reports no
diagnostic, and the final side-table `D` agrees with the distances
recorded for the nodes of `e`. The evaluator-side invariants relate the
scope stack under which code was resolved to the frame chain under which
it executes. -/

/-- The scope transformation of `declare` followed by `define` (both
no-ops on an empty stack). -/
def declDefine (name : String) : List Scope → List Scope
  | [] => []
  | sc :: rest => upsertA name true (upsertA name false sc) :: rest

/-- The error-freedom condition of `declare`: nothing to check at top
level, no duplicate in the innermost scope otherwise. -/
def declOK (name : String) : List Scope → Prop
  | [] => True
  | sc :: _ => sc.lookup name = none

/-- The scope stack under which a `var` initializer is resolved: the
name is `declared` (state `false`) in the innermost scope. -/
def declScope (name : String) : List Scope → List Scope
  | [] => []
  | sc :: rest => upsertA name false sc :: rest

/-- The parameter scope built by `resolveFunction`: each parameter
declared then defined, in order. -/
def paramScope (params : List Token) : Scope :=
  params.foldl (fun acc p => upsertA p.lexeme true (upsertA p.lexeme false acc)) []

/-- The scope-stack transformation performed by resolving one statement
(the resolver's scope evolution is independent of the side-table and of
any reported diagnostics). -/
def scopeAfter : Stmt → List Scope → List Scope
  | .expression _, S => S
  | .print _, S => S
  | .varDecl name _, S => declDefine name.lexeme S
  | .block _, S => S
  | .ifS _ t e, S =>
    match e with
    | some els => scopeAfter els (scopeAfter t S)
    | none => scopeAfter t S
  | .whileS _ b, S => scopeAfter b S
  | .funDecl name _ _, S => declDefine name.lexeme S
  | .ret _ _, S => S

/-- The scope-stack transformation of resolving a statement list. -/
def scopeAfterL : List Stmt → List Scope → List Scope
  | [], S => S
  | st :: sts, S => scopeAfterL sts (scopeAfter st S)

mutual

/-- Error-free resolution of an expression under scope stack `S`, with
side-table `D` (expressions do not change the scope stack). -/
inductive ResolEOK : (Nat → Option Nat) → List Scope → Expr → Prop where
  | literal {D S l} : ResolEOK D S (.literal l)
  | unary {D S op r} : ResolEOK D S r → ResolEOK D S (.unary op r)
  | binary {D S l op r} : ResolEOK D S l → ResolEOK D S r → ResolEOK D S (.binary l op r)
  | grouping {D S e} : ResolEOK D S e → ResolEOK D S (.grouping e)
  | variableE {D S idn name} :
      (∀ sc rest, S = sc :: rest → ¬ sc.lookup name.lexeme = some false) →
      D idn = resolveLocalDist S name.lexeme →
      ResolEOK D S (.variableE idn name)
  | assignE {D S idn name v} :
      ResolEOK D S v →
      D idn = resolveLocalDist S name.lexeme →
      ResolEOK D S (.assignE idn name v)
  | logical {D S l op r} : ResolEOK D S l → ResolEOK D S r → ResolEOK D S (.logical l op r)
  | call {D S c par args} : ResolEOK D S c → ResolEsOK D S args → ResolEOK D S (.call c par args)

/-- Error-free resolution of an expression list. -/
inductive ResolEsOK : (Nat → Option Nat) → List Scope → List Expr → Prop where
  | nil {D S} : ResolEsOK D S []
  | cons {D S e es} : ResolEOK D S e → ResolEsOK D S es → ResolEsOK D S (e :: es)

/-- Error-free resolution of a statement under scope stack `S` (the
resulting scope stack is the function `scopeAfter` of the statement). -/
inductive ResolSOK : (Nat → Option Nat) → List Scope → Stmt → Prop where
  | expression {D S e} : ResolEOK D S e → ResolSOK D S (.expression e)
  | print {D S e} : ResolEOK D S e → ResolSOK D S (.print e)
  | varDeclC {D S name ini} :
      declOK name.lexeme S →
      (∀ e, ini = some e → ResolEOK D (declScope name.lexeme S) e) →
      ResolSOK D S (.varDecl name ini)
  | blockS {D S sts} :
      ResolLOK D ([] :: S) sts →
      ResolSOK D S (.block sts)
  | ifNone {D S c t} :
      ResolEOK D S c → ResolSOK D S t → ResolSOK D S (.ifS c t none)
  | ifSome {D S c t els} :
      ResolEOK D S c → ResolSOK D S t → ResolSOK D (scopeAfter t S) els →
      ResolSOK D S (.ifS c t (some els))
  | whileS {D S c b} :
      ResolEOK D S c → ResolSOK D S b → ResolSOK D S (.whileS c b)
  | funDeclC {D S name params body} :
      declOK name.lexeme S →
      (params.map (fun t => t.lexeme)).Nodup →
      ResolLOK D (paramScope params :: declDefine name.lexeme S) body →
      ResolSOK D S (.funDecl name params body)
  | retNone {D S kw} : ResolSOK D S (.ret kw none)
  | retSome {D S kw e} : ResolEOK D S e → ResolSOK D S (.ret kw (some e))

/-- Error-free resolution of a statement list. -/
inductive ResolLOK : (Nat → Option Nat) → List Scope → List Stmt → Prop where
  | nil {D S} : ResolLOK D S []
  | cons {D S st sts} :
      ResolSOK D S st → ResolLOK D (scopeAfter st S) sts → ResolLOK D S (st :: sts)

end

/-- Well-formed heap: the globals frame exists and has no parent, and
parent references always point to older frames. -/
def heapWF (heap : List Frame) : Prop :=
  0 < heap.length ∧ parentOf heap 0 = none ∧
    ∀ i p, parentOf heap i = some p → p < i

/-- All scope entries are `defined` (`true`): the shape of every scope
stack at a statement boundary. -/
def allTrueS (S : List Scope) : Prop := ∀ sc ∈ S, ∀ p ∈ sc, p.2 = true

/-- All scope entries below the innermost scope are `defined`: the shape
of every scope stack under which an expression is resolved. -/
def tailTrueS (S : List Scope) : Prop := ∀ sc ∈ S.tail, ∀ p ∈ sc, p.2 = true

/-- The frame chain from `e` matches the scope stack `S` frame by frame:
every `defined` name of scope `i` is present in the `i`-th frame of the
chain, and the chain continues to the globals frame `0` after `S` is
exhausted. -/
def EnvMatch (heap : List Frame) : List Scope → Nat → Prop
  | [], e => e = 0
  | sc :: rest, e =>
    e < heap.length ∧
    (∀ x, sc.lookup x = some true → ((getFrame heap e).vals.lookup x).isSome = true) ∧
    ∃ p, parentOf heap e = some p ∧ EnvMatch heap rest p

/-- Heap evolution of the evaluator: frames are only added, parents never
change, and names are never removed from a frame. -/
def heapExtends (h h' : List Frame) : Prop :=
  h.length ≤ h'.length ∧
    ∀ i, i < h.length →
      parentOf h' i = parentOf h i ∧
      ∀ x, ((getFrame h i).vals.lookup x).isSome = true →
        ((getFrame h' i).vals.lookup x).isSome = true

/-- Closure invariant: the captured environment of every `LoxFunction`
value matches some all-`defined` scope stack under which its body was
resolved error-free; other values carry no invariant. -/
def ClosOK (D : Nat → Option Nat) (heap : List Frame) : Value → Prop
  | .closure _ _ params body closEnv =>
    ∃ S, EnvMatch heap S closEnv ∧ allTrueS S ∧ stmtsWF body = true ∧
      ResolLOK D (paramScope params :: S) body
  | _ => True

/-- Every value stored in every frame satisfies the closure invariant. -/
def ValuesOK (D : Nat → Option Nat) (heap : List Frame) : Prop :=
  ∀ fr ∈ heap, ∀ p ∈ fr.vals, ClosOK D heap p.2

/-- The standing state invariant of the simulation. -/
def StateInv (D : Nat → Option Nat) (s : IState) : Prop :=
  heapWF s.heap ∧ ValuesOK D s.heap ∧ ∀ idn, s.locals.lookup idn = D idn

/-- Value-payload part of the simulation postcondition. -/
def PostVal (D : Nat → Option Nat) (h' : List Frame) (r : Except Sig Value) : Prop :=
  (∀ v, r = .ok v → ClosOK D h' v) ∧ (∀ v, r = .error (.retSig v) → ClosOK D h' v)

/-- Common part of the simulation postcondition. -/
def PostC (D : Nat → Option Nat) (s s' : IState) : Prop :=
  s'.resolvedMiss = false ∧ StateInv D s' ∧ heapExtends s.heap s'.heap ∧ s'.env = s.env

/-- Simulation statement for expressions at fuel `n`. -/
def SimE (n : Nat) : Prop :=
  ∀ D e S s r s', ResolEOK D S e → StateInv D s → EnvMatch s.heap S s.env →
    tailTrueS S → s.resolvedMiss = false → evalExpr n e s = (r, s') →
    PostC D s s' ∧ PostVal D s'.heap r

/-- Simulation statement for argument lists at fuel `n`. -/
def SimArgs (n : Nat) : Prop :=
  ∀ D es S s r s', ResolEsOK D S es → StateInv D s → EnvMatch s.heap S s.env →
    tailTrueS S → s.resolvedMiss = false → evalArgs n es s = (r, s') →
    PostC D s s' ∧ (∀ vs, r = .ok vs → ∀ v ∈ vs, ClosOK D s'.heap v) ∧
      (∀ v, r = .error (.retSig v) → ClosOK D s'.heap v)

/-- Simulation statement for statements at fuel `n`. -/
def SimS (n : Nat) : Prop :=
  ∀ D st S s r s', ResolSOK D S st → stmtWF st = true → StateInv D s →
    EnvMatch s.heap S s.env → allTrueS S → s.resolvedMiss = false →
    execStmt n st s = (r, s') →
    PostC D s s' ∧ (r = .ok () → EnvMatch s'.heap (scopeAfter st S) s'.env) ∧
      (∀ v, r = .error (.retSig v) → ClosOK D s'.heap v)

/-- Simulation statement for statement lists at fuel `n`. -/
def SimL (n : Nat) : Prop :=
  ∀ D sts S s r s', ResolLOK D S sts → stmtsWF sts = true → StateInv D s →
    EnvMatch s.heap S s.env → allTrueS S → s.resolvedMiss = false →
    execStmts n sts s = (r, s') →
    PostC D s s' ∧ (r = .ok () → EnvMatch s'.heap (scopeAfterL sts S) s'.env) ∧
      (∀ v, r = .error (.retSig v) → ClosOK D s'.heap v)

/-- Simulation statement for `executeBlock` at fuel `n`. -/
def SimBlock (n : Nat) : Prop :=
  ∀ D sts S0 envId s r s', ResolLOK D S0 sts → stmtsWF sts = true →
    StateInv D s → EnvMatch s.heap S0 envId → allTrueS S0 → s.resolvedMiss = false →
    executeBlock n sts envId s = (r, s') →
    PostC D s s' ∧ (∀ v, r = .error (.retSig v) → ClosOK D s'.heap v)

/-- Simulation statement for `LoxFunction.call` at fuel `n`. -/
def SimCall (n : Nat) : Prop :=
  ∀ D params body closEnv args s r s' S,
    StateInv D s → EnvMatch s.heap S closEnv → allTrueS S → stmtsWF body = true →
    ResolLOK D (paramScope params :: S) body →
    (∀ v ∈ args, ClosOK D s.heap v) → s.resolvedMiss = false →
    callLox n params body closEnv args s = (r, s') →
    PostC D s s' ∧ PostVal D s'.heap r

/-- Conjunction of all simulation statements at fuel `n`. -/
def SimAll (n : Nat) : Prop :=
  SimE n ∧ SimArgs n ∧ SimS n ∧ SimL n ∧ SimBlock n ∧ SimCall n

/-- Discriminator: is this value the IEEE `NaN`? -/
def isNanV : Value → Bool
  | .num .nan => true
  | _ => false

/-- Discriminator: is this value `nil`? -/
def isNilV : Value → Bool
  | .nil => true
  | _ => false

/-- Variant tag of a value (for stating cross-variant equality rules). -/
def variantTag : Value → Nat
  | .nil => 0
  | .boolV _ => 1
  | .num _ => 2
  | .str _ => 3
  | .closure _ _ _ _ _ => 4
  | .nativeClock => 5
  | .undef => 6

/-! ## Theorems

Shared library lemmas first, then the per-claim theorems. -/

theorem lookup_upsertA_self {α β : Type} [BEq α] [LawfulBEq α] (k : α) (v : β)
    (l : List (α × β)) : (upsertA k v l).lookup k = some v := by
  induction l with
  | nil => simp [upsertA, List.lookup]
  | cons p t ih =>
    simp only [upsertA]
    split
    · simp [List.lookup]
    · rename_i h
      simp only [List.lookup]
      rw [show (k == p.1) = false by
        cases hb : k == p.1
        · rfl
        · exact absurd (by rw [eq_of_beq hb]; simp) h]
      exact ih

theorem lookup_upsertA_ne {α β : Type} [BEq α] [LawfulBEq α] {k k' : α} (v : β)
    (l : List (α × β)) (h : ¬ k' = k) : (upsertA k v l).lookup k' = l.lookup k' := by
  induction l with
  | nil =>
    simp only [upsertA, List.lookup]
    rw [show (k' == k) = false by
      cases hb : k' == k
      · rfl
      · exact absurd (eq_of_beq hb) h]
  | cons p t ih =>
    simp only [upsertA]
    split
    · rename_i hpk
      simp only [List.lookup]
      rw [show (k' == k) = false by
        cases hb : k' == k
        · rfl
        · exact absurd (eq_of_beq hb) h]
      rw [show (k' == p.1) = false by
        cases hb : k' == p.1
        · rfl
        · exact absurd (by rw [eq_of_beq hb, eq_of_beq hpk]) h]
    · simp only [List.lookup]
      cases hb : k' == p.1
      · exact ih
      · rfl

theorem mem_of_lookup_eq_some {α β : Type} [BEq α] [LawfulBEq α] {k : α} {v : β}
    {l : List (α × β)} (h : l.lookup k = some v) : (k, v) ∈ l := by
  induction l with
  | nil => simp [List.lookup] at h
  | cons p t ih =>
    simp only [List.lookup] at h
    cases hb : k == p.1 with
    | true =>
      rw [hb] at h
      simp at h
      have hk := eq_of_beq hb
      obtain ⟨pa, pb⟩ := p
      simp at hk h
      subst hk
      subst h
      exact List.mem_cons_self _ _
    | false =>
      rw [hb] at h
      simp at h ⊢
      right
      exact ih h

theorem isSome_lookup_upsertA {α β : Type} [BEq α] [LawfulBEq α] (k x : α) (v : β)
    (l : List (α × β)) :
    ((upsertA k v l).lookup x).isSome = true ↔ (x = k ∨ (l.lookup x).isSome = true) := by
  by_cases hx : x = k
  · subst hx
    simp [lookup_upsertA_self]
  · rw [lookup_upsertA_ne v l hx]
    simp [hx]

theorem getFrame_append_new (h : List Frame) (fr : Frame) :
    getFrame (h ++ [fr]) h.length = fr := by
  simp [getFrame, List.getD, List.get?_eq_getElem?]

theorem getFrame_append_lt (h : List Frame) (l : List Frame) (i : Nat) (hi : i < h.length) :
    getFrame (h ++ l) i = getFrame h i := by
  simp only [getFrame, List.getD, List.get?_eq_getElem?]
  rw [List.getElem?_append]
  simp [hi]

theorem length_modifyFrame (h : List Frame) (i : Nat) (f : Frame → Frame) :
    (modifyFrame h i f).length = h.length := by
  induction h generalizing i with
  | nil => rfl
  | cons fr t ih =>
    cases i with
    | zero => simp [modifyFrame]
    | succ j => simp [modifyFrame, ih]

theorem getFrame_modifyFrame_self (h : List Frame) (i : Nat) (f : Frame → Frame)
    (hi : i < h.length) : getFrame (modifyFrame h i f) i = f (getFrame h i) := by
  induction h generalizing i with
  | nil => simp at hi
  | cons fr t ih =>
    cases i with
    | zero => simp [modifyFrame, getFrame, List.getD]
    | succ j =>
      simp only [modifyFrame]
      have hj : j < t.length := by simpa using hi
      have := ih j hj
      simpa [getFrame, List.getD] using this

theorem getFrame_modifyFrame_ne (h : List Frame) (i j : Nat) (f : Frame → Frame)
    (hij : ¬ j = i) : getFrame (modifyFrame h i f) j = getFrame h j := by
  induction h generalizing i j with
  | nil => rfl
  | cons fr t ih =>
    cases i with
    | zero =>
      cases j with
      | zero => exact absurd rfl hij
      | succ j' => simp [modifyFrame, getFrame, List.getD]
    | succ i' =>
      cases j with
      | zero => simp [modifyFrame, getFrame, List.getD]
      | succ j' =>
        simp only [modifyFrame]
        have := ih i' j' (fun hh => hij (by rw [hh]))
        simpa [getFrame, List.getD] using this

theorem heapExtends_refl (h : List Frame) : heapExtends h h := by
  refine ⟨Nat.le_refl _, fun i _ => ⟨rfl, fun x hx => hx⟩⟩

theorem heapExtends_trans {h1 h2 h3 : List Frame}
    (a : heapExtends h1 h2) (b : heapExtends h2 h3) : heapExtends h1 h3 := by
  obtain ⟨al, af⟩ := a
  obtain ⟨bl, bf⟩ := b
  refine ⟨Nat.le_trans al bl, fun i hi => ?_⟩
  obtain ⟨ap, av⟩ := af i hi
  obtain ⟨bp, bv⟩ := bf i (Nat.lt_of_lt_of_le hi al)
  exact ⟨by rw [bp, ap], fun x hx => bv x (av x hx)⟩

theorem heapExtends_append (h : List Frame) (l : List Frame) : heapExtends h (h ++ l) := by
  refine ⟨by simp, fun i hi => ?_⟩
  rw [show parentOf (h ++ l) i = parentOf h i from by
    simp [parentOf, getFrame_append_lt h l i hi]]
  rw [getFrame_append_lt h l i hi]
  exact ⟨rfl, fun x hx => hx⟩

theorem parentOf_modifyFrame (h : List Frame) (i j : Nat) (g : Frame → Frame)
    (hg : ∀ fr, (g fr).parent = fr.parent) : parentOf (modifyFrame h i g) j = parentOf h j := by
  by_cases hj : j = i
  · subst hj
    by_cases hlt : j < h.length
    · simp [parentOf, getFrame_modifyFrame_self h j g hlt, hg]
    · have : getFrame (modifyFrame h j g) j = getFrame h j := by
        simp only [getFrame, List.getD]
        have h1 : (modifyFrame h j g).length ≤ j := by rw [length_modifyFrame]; omega
        have h2 : h.length ≤ j := by omega
        rw [List.get?_eq_none.2 h1, List.get?_eq_none.2 h2]
      simp [parentOf, this]
  · simp [parentOf, getFrame_modifyFrame_ne h i j g hj]

theorem heapExtends_defineE (h : List Frame) (i : Nat) (name : String) (v : Value) :
    heapExtends h (defineE h i name v) := by
  unfold defineE
  refine ⟨by rw [length_modifyFrame], fun j hj => ?_⟩
  constructor
  · exact parentOf_modifyFrame h i j _ (fun fr => rfl)
  · intro x hx
    by_cases hji : j = i
    · subst hji
      rw [getFrame_modifyFrame_self h j _ hj]
      simp only
      rw [(isSome_lookup_upsertA name x v _).2 (Or.inr hx)]
    · rw [getFrame_modifyFrame_ne h i j _ hji]
      exact hx

theorem envMatch_weaken {h h' : List Frame} {S : List Scope} {e : Nat}
    (ext : heapExtends h h') (m : EnvMatch h S e) : EnvMatch h' S e := by
  induction S generalizing e with
  | nil => exact m
  | cons sc rest ih =>
    obtain ⟨he, hnames, p, hp, hm⟩ := m
    obtain ⟨hpp, hvv⟩ := ext.2 e he
    exact ⟨Nat.lt_of_lt_of_le he ext.1, fun x hx => hvv x (hnames x hx),
      p, by rw [hpp, hp], ih hm⟩

theorem closOK_weaken {D : Nat → Option Nat} {h h' : List Frame} {v : Value}
    (ext : heapExtends h h') (c : ClosOK D h v) : ClosOK D h' v := by
  cases v with
  | closure oid name params body closEnv =>
    obtain ⟨S, hm, ht, hwf, hres⟩ := c
    exact ⟨S, envMatch_weaken ext hm, ht, hwf, hres⟩
  | nil => trivial
  | boolV b => trivial
  | num n => trivial
  | str s => trivial
  | nativeClock => trivial
  | undef => trivial

theorem executeBlock_restores_env (n : Nat) (sts : List Stmt) (envId : Nat) (s : IState) :
    ((executeBlock n sts envId s).2).env = s.env := by
  cases n with
  | zero => rfl
  | succ m =>
    simp only [executeBlock]

/-- C6: executing a `Block` statement runs its statements (via
`executeBlock`) in a freshly allocated child environment of the current
one (empty, with parent the current environment), and on every exit path
— normal completion, runtime error, return signal, and even fuel
exhaustion — the evaluator's current-environment pointer is restored to
the environment active before the block. -/
theorem blockScopingAndRestoration :
    ∀ fuel stmts (s : IState),
      (execStmt (fuel + 1) (Stmt.block stmts) s =
        executeBlock fuel stmts s.heap.length
          { s with heap := s.heap ++ [⟨some s.env, []⟩] }) ∧
      (getFrame (s.heap ++ [⟨some s.env, []⟩]) s.heap.length).parent = some s.env ∧
      (getFrame (s.heap ++ [⟨some s.env, []⟩]) s.heap.length).vals = [] ∧
      ((execStmt fuel (Stmt.block stmts) s).2).env = s.env := by
  intro fuel stmts s
  refine ⟨rfl, by rw [getFrame_append_new], by rw [getFrame_append_new], ?_⟩
  cases fuel with
  | zero => rfl
  | succ m =>
    show ((executeBlock m stmts s.heap.length _).2).env = s.env
    rw [executeBlock_restores_env]

/-- C4: short-circuit evaluation of `Logical` nodes. The left operand is
evaluated first; a truthy left of `or` and a non-truthy left of `and`
are returned with no evaluation of the right operand (the state after
the left evaluation is final); otherwise the right operand is evaluated
and returned. Consequently `false and E` and `true or E` evaluate to the
left value with the state unchanged — the side effects of `E` never
happen. -/
theorem logicalShortCircuit :
    ∀ fuel (l r E : Expr) (op andTok orTok : Token) (s : IState),
      (∀ lv s1, evalExpr fuel l s = (.ok lv, s1) →
        ((op.type = "OR" ∧ isTruthy lv = true) ∨ (op.type = "AND" ∧ isTruthy lv = false) →
          evalExpr (fuel + 1) (.logical l op r) s = (.ok lv, s1)) ∧
        ((op.type = "OR" ∧ isTruthy lv = false) ∨ (op.type = "AND" ∧ isTruthy lv = true) →
          evalExpr (fuel + 1) (.logical l op r) s = evalExpr fuel r s1)) ∧
      (andTok.type = "AND" →
        evalExpr (fuel + 2) (.logical (.literal (.boolL false)) andTok E) s =
          (.ok (Value.boolV false), s)) ∧
      (orTok.type = "OR" →
        evalExpr (fuel + 2) (.logical (.literal (.boolL true)) orTok E) s =
          (.ok (Value.boolV true), s)) := by
  intro fuel l r E op andTok orTok s
  refine ⟨?_, ?_, ?_⟩
  · intro lv s1 hl
    constructor
    · rintro (⟨hop, htr⟩ | ⟨hop, htr⟩) <;>
        simp [evalExpr, bindE, hl, hop, htr]
    · rintro (⟨hop, htr⟩ | ⟨hop, htr⟩) <;>
        simp [evalExpr, bindE, hl, hop, htr]
  · intro hop
    simp [evalExpr, bindE, hop, litToValue, isTruthy]
  · intro hop
    simp [evalExpr, bindE, hop, litToValue, isTruthy]

/-- C4 witness: with `AND`/`OR` tokens and a call expression standing
for an effectful `E`, `false and E` and `true or E` yield their left
values with the state unchanged. -/
theorem logicalShortCircuit_witness :
    evalExpr 2
        (.logical (.literal (.boolL false)) ⟨"AND", "and", .nilL, 1⟩
          (.call (.variableE 0 ⟨"IDENTIFIER", "f", .nilL, 1⟩) ⟨"RIGHT_PAREN", ")", .nilL, 1⟩ []))
        (initIState []) =
      (.ok (Value.boolV false), initIState []) ∧
    evalExpr 2
        (.logical (.literal (.boolL true)) ⟨"OR", "or", .nilL, 1⟩
          (.call (.variableE 0 ⟨"IDENTIFIER", "f", .nilL, 1⟩) ⟨"RIGHT_PAREN", ")", .nilL, 1⟩ []))
        (initIState []) =
      (.ok (Value.boolV true), initIState []) := by
  constructor
  · exact (logicalShortCircuit 0 (.literal (.boolL false)) (.literal .nilL)
      (.call (.variableE 0 ⟨"IDENTIFIER", "f", .nilL, 1⟩) ⟨"RIGHT_PAREN", ")", .nilL, 1⟩ [])
      ⟨"AND", "and", .nilL, 1⟩ ⟨"AND", "and", .nilL, 1⟩ ⟨"OR", "or", .nilL, 1⟩
      (initIState [])).2.1 rfl
  · exact (logicalShortCircuit 0 (.literal (.boolL false)) (.literal .nilL)
      (.call (.variableE 0 ⟨"IDENTIFIER", "f", .nilL, 1⟩) ⟨"RIGHT_PAREN", ")", .nilL, 1⟩ [])
      ⟨"AND", "and", .nilL, 1⟩ ⟨"AND", "and", .nilL, 1⟩ ⟨"OR", "or", .nilL, 1⟩
      (initIState [])).2.2 rfl

/-- C5: equality rules of `Interpreter.isEqual` and its use in
`visitBinaryExpr`. `a == a` is true for every value except the IEEE
`NaN`; two `nil`s compare equal; `nil` against anything else is false;
cross-variant comparison is false; `!=` is the negation; and for both
equality operators `binaryOp` always returns `ok` (equality never raises
a runtime error), so that once the two operands evaluate, the whole
binary expression evaluates to the boolean verdict. -/
theorem equalityRules :
    ∀ (a b : Value) (l r : Expr) (opE : Token) (fuel : Nat) (s s1 s2 : IState),
      (isEqual a a = !isNanV a) ∧
      (isEqual Value.nil Value.nil = true) ∧
      (isNilV a = false → isEqual Value.nil a = false ∧ isEqual a Value.nil = false) ∧
      (¬ variantTag a = variantTag b → isEqual a b = false) ∧
      (opE.type = "EQUAL_EQUAL" → binaryOp opE a b = .ok (.boolV (isEqual a b))) ∧
      (opE.type = "BANG_EQUAL" → binaryOp opE a b = .ok (.boolV (!isEqual a b))) ∧
      (opE.type = "EQUAL_EQUAL" → evalExpr fuel l s = (.ok a, s1) →
        evalExpr fuel r s1 = (.ok b, s2) →
        evalExpr (fuel + 1) (.binary l opE r) s = (.ok (.boolV (isEqual a b)), s2)) ∧
      (opE.type = "BANG_EQUAL" → evalExpr fuel l s = (.ok a, s1) →
        evalExpr fuel r s1 = (.ok b, s2) →
        evalExpr (fuel + 1) (.binary l opE r) s = (.ok (.boolV (!isEqual a b)), s2)) := by
  intro a b l r opE fuel s s1 s2
  refine ⟨?_, rfl, ?_, ?_, ?_, ?_, ?_, ?_⟩
  · cases a with
    | num n => cases n <;> simp [isEqual, jsStrictEq, numEq, isNanV]
    | _ => simp [isEqual, jsStrictEq, isNanV]
  · intro ha
    cases a <;> simp_all [isEqual, jsStrictEq, isNilV]
  · intro hab
    cases a <;> cases b <;> simp_all [isEqual, jsStrictEq, variantTag]
  · intro hop
    simp [binaryOp, hop]
  · intro hop
    simp [binaryOp, hop]
  · intro hop hl hr
    simp [evalExpr, bindE, hl, hr, binaryOp, hop]
  · intro hop hl hr
    simp [evalExpr, bindE, hl, hr, binaryOp, hop]

/-- C5 witness: concrete checks — `NaN == NaN` is false, `1 == 1` is
true, `nil` against `1` is false, cross-variant `"1" == 1` is false,
and evaluating `1 == 1` through the evaluator yields `true`. -/
theorem equalityRules_witness :
    (isEqual (Value.num .nan) (Value.num .nan) = !isNanV (Value.num .nan)) ∧
    (isEqual Value.nil (Value.num (.fin 1)) = false ∧
      isEqual (Value.num (.fin 1)) Value.nil = false) ∧
    (isEqual (Value.str "1") (Value.num (.fin 1)) = false) ∧
    (evalExpr 2 (.binary (.literal (.numL (.fin 1))) ⟨"EQUAL_EQUAL", "==", .nilL, 1⟩
        (.literal (.numL (.fin 1)))) (initIState []) =
      (.ok (.boolV (isEqual (Value.num (.fin 1)) (Value.num (.fin 1)))), initIState [])) := by
  have h := equalityRules (Value.num (.fin 1)) (Value.num (.fin 1))
    (.literal (.numL (.fin 1))) (.literal (.numL (.fin 1)))
    ⟨"EQUAL_EQUAL", "==", .nilL, 1⟩ 1 (initIState []) (initIState []) (initIState [])
  refine ⟨(equalityRules (Value.num .nan) (Value.num .nan) (.literal .nilL) (.literal .nilL)
      ⟨"EQUAL_EQUAL", "==", .nilL, 1⟩ 0 (initIState []) (initIState []) (initIState [])).1,
    ?_, ?_, ?_⟩
  · exact (equalityRules (Value.num (.fin 1)) Value.nil (.literal .nilL) (.literal .nilL)
      ⟨"EQUAL_EQUAL", "==", .nilL, 1⟩ 0 (initIState []) (initIState []) (initIState [])).2.2.1 rfl
  · exact (equalityRules (Value.str "1") (Value.num (.fin 1)) (.literal .nilL) (.literal .nilL)
      ⟨"EQUAL_EQUAL", "==", .nilL, 1⟩ 0 (initIState []) (initIState []) (initIState [])).2.2.2.1
      (by simp [variantTag])
  · exact h.2.2.2.2.2.2.1 rfl rfl rfl

theorem lookup_foldl_upsert_notmem (ds : List (String × Value)) (acc : List (String × Value))
    (x : String) (h : ∀ q ∈ ds, ¬ q.1 = x) :
    ((ds.foldl (fun m q => upsertA q.1 q.2 m) acc).lookup x) = acc.lookup x := by
  induction ds generalizing acc with
  | nil => rfl
  | cons d t ih =>
    simp only [List.foldl]
    rw [ih _ (fun q hq => h q (List.mem_cons_of_mem d hq))]
    exact lookup_upsertA_ne d.2 acc (fun hx => h d (List.mem_cons_self d t) hx.symm)

theorem foldl_upsert_lookup_unique (ds : List (String × Value)) (acc : List (String × Value))
    (x : String) (v : Value) (hn : (ds.map Prod.fst).Nodup) (hm : (x, v) ∈ ds) :
    ((ds.foldl (fun m q => upsertA q.1 q.2 m) acc).lookup x) = some v := by
  induction ds generalizing acc with
  | nil => cases hm
  | cons d t ih =>
    simp only [List.foldl]
    rcases List.mem_cons.1 hm with hd | ht
    · subst hd
      rw [lookup_foldl_upsert_notmem t _ x (fun q hq hqx => (List.nodup_cons.1 hn).1 (by
        have hmf : q.1 ∈ t.map Prod.fst := List.mem_map_of_mem Prod.fst hq
        rwa [hqx] at hmf))]
      exact lookup_upsertA_self x v acc
    · exact ih _ (List.nodup_cons.1 hn).2 ht

theorem zipPad_map_fst (params : List Token) (args : List Value) :
    (zipPad params args).map Prod.fst = params.map (fun t => t.lexeme) := by
  induction params generalizing args with
  | nil => rfl
  | cons p ps ih =>
    cases args with
    | nil => simp [zipPad, ih]
    | cons a rest => simp [zipPad, ih]

theorem zipPad_mem_of_get (params : List Token) (args : List Value)
    (hlen : args.length = params.length) (i : Nat) (hi : i < params.length) :
    ((params.getD i eofFallback).lexeme, args.getD i Value.undef) ∈ zipPad params args := by
  induction params generalizing args i with
  | nil => simp at hi
  | cons p ps ih =>
    cases args with
    | nil => simp at hlen
    | cons a rest =>
      cases i with
      | zero => simp [zipPad]
      | succ j =>
        have hj : j < ps.length := by simpa using hi
        have hr : rest.length = ps.length := by simpa using hlen
        simpa [zipPad] using Or.inr (ih rest hr j hj)

/-- C2: `LoxFunction.call` builds a fresh environment whose parent is the
captured closure environment and whose bindings are the sequential
parameter definitions, executes the body through `executeBlock` there,
yields the value of an escaping return signal, yields `nil` on normal
completion, and propagates other signals; and (for distinct parameter
names and matching argument count, which the arity check guarantees)
each parameter is bound by position to the corresponding argument. -/
theorem loxFunctionCallBehaviour :
    ∀ fuel params body closEnv args (s : IState),
      (callLox (fuel + 1) params body closEnv args s =
        (match executeBlock fuel body s.heap.length
            { s with heap := s.heap ++ [⟨some closEnv, bindParams params args⟩] } with
         | (.error (.retSig v), s2) => (.ok v, s2)
         | (.error e, s2) => (.error e, s2)
         | (.ok _, s2) => (.ok Value.nil, s2))) ∧
      ((getFrame (s.heap ++ [⟨some closEnv, bindParams params args⟩]) s.heap.length).parent =
        some closEnv) ∧
      ((params.map (fun t => t.lexeme)).Nodup → args.length = params.length →
        ∀ i, i < params.length →
          (bindParams params args).lookup ((params.getD i eofFallback).lexeme) =
            some (args.getD i Value.undef)) := by
  intro fuel params body closEnv args s
  refine ⟨?_, by rw [getFrame_append_new], ?_⟩
  · cases h : executeBlock fuel body s.heap.length
        { s with heap := s.heap ++ [⟨some closEnv, bindParams params args⟩] } with
    | mk r s2 =>
      simp only [callLox, h]
      cases r with
      | ok u => rfl
      | error e => cases e <;> rfl
  · intro hn hlen i hi
    exact foldl_upsert_lookup_unique _ _ _ _
      (by rw [zipPad_map_fst]; exact hn) (zipPad_mem_of_get params args hlen i hi)

/-- C2 witness: a two-parameter function binds `x` to `1` and `y` to
`2`; a body that returns `x` yields `1`, and an empty body yields
`nil`. -/
theorem loxFunctionCallBehaviour_witness :
    ((bindParams [⟨"IDENTIFIER", "x", .nilL, 1⟩, ⟨"IDENTIFIER", "y", .nilL, 1⟩]
        [Value.num (.fin 1), Value.num (.fin 2)]).lookup "x" = some (Value.num (.fin 1))) ∧
    ((bindParams [⟨"IDENTIFIER", "x", .nilL, 1⟩, ⟨"IDENTIFIER", "y", .nilL, 1⟩]
        [Value.num (.fin 1), Value.num (.fin 2)]).lookup "y" = some (Value.num (.fin 2))) ∧
    ((callLox 9 [⟨"IDENTIFIER", "x", .nilL, 1⟩] [Stmt.ret ⟨"RETURN", "return", .nilL, 1⟩
        (some (.variableE 0 ⟨"IDENTIFIER", "x", .nilL, 1⟩))] 0 [Value.num (.fin 7)]
        (initIState [(0, 0)])).1 = .ok (Value.num (.fin 7))) ∧
    ((callLox 9 [] [] 0 [] (initIState [])).1 = .ok Value.nil) := by
  have h1 := (loxFunctionCallBehaviour 8 [⟨"IDENTIFIER", "x", .nilL, 1⟩, ⟨"IDENTIFIER", "y", .nilL, 1⟩]
    [] 0 [Value.num (.fin 1), Value.num (.fin 2)] (initIState [])).2.2 (by decide) rfl
  refine ⟨?_, ?_, ?_, ?_⟩
  · simpa using h1 0 (by decide)
  · simpa using h1 1 (by decide)
  · rfl
  · rfl

theorem strictAncestor_ancestorE {heap : List Frame} {d e a : Nat}
    (h : strictAncestor heap d e = some a) : ancestorE heap d e = a := by
  induction d generalizing e with
  | zero => simpa [strictAncestor, ancestorE] using h
  | succ k ih =>
    simp only [strictAncestor, ancestorE] at h ⊢
    cases hp : parentOf heap e with
    | some p => rw [hp] at h; exact ih h
    | none => rw [hp] at h; cases h

theorem ancestorE_no_parent (heap : List Frame) (d e : Nat)
    (h : parentOf heap e = none) : ancestorE heap d e = e := by
  cases d with
  | zero => rfl
  | succ k => simp [ancestorE, h]

/-- C10: a `Variable` node with a side-table entry always evaluates to
`ok` — for any heap and environment whatsoever — because `ancestor`
stops at the end of the chain instead of failing and `getAt` reads the
frame map with no presence check, yielding `undefined` for an absent
name; an `Assign` node with a side-table entry adds no error beyond its
right-hand side (`assignAt` stores unconditionally, and an erroring
right-hand side propagates unchanged). Only the unresolved global path
(`globalsGet`/`globalsAssign`) can raise `Undefined variable`. -/
theorem resolvedLookupsNeverRaise :
    ∀ fuel idn (name : Token) (s : IState) d (value : Expr) v (s1 : IState) sg heap e a nm,
      (s.locals.lookup idn = some d →
        ∃ b, evalExpr (fuel + 1) (.variableE idn name) s =
          (.ok (getAtE s.heap s.env d name.lexeme), { s with resolvedMiss := b })) ∧
      (evalExpr fuel value s = (.ok v, s1) → s1.locals.lookup idn = some d →
        evalExpr (fuel + 1) (.assignE idn name value) s =
          (.ok v, { s1 with heap := assignAtE s1.heap s1.env d name.lexeme v })) ∧
      (evalExpr fuel value s = (.error sg, s1) →
        evalExpr (fuel + 1) (.assignE idn name value) s = (.error sg, s1)) ∧
      (strictAncestor heap d e = some a → ancestorE heap d e = a) ∧
      (parentOf heap e = none → ancestorE heap d e = e) ∧
      ((getFrame heap (ancestorE heap d e)).vals.lookup nm = none →
        getAtE heap e d nm = Value.undef) := by
  intro fuel idn name s d value v s1 sg heap e a nm
    
  refine ⟨?_, ?_, ?_, strictAncestor_ancestorE, ancestorE_no_parent heap d e, ?_⟩
  · intro hloc
    simp only [evalExpr, lookUpVariable, hloc]
    by_cases hhit : resolvedHit s.heap s.env d name.lexeme
    · exact ⟨s.resolvedMiss, by simp [hhit]⟩
    · exact ⟨true, by simp [hhit]⟩
  · intro hrhs hloc
    simp [evalExpr, bindE, hrhs, hloc]
  · intro hrhs
    simp [evalExpr, bindE, hrhs]
  · intro hnone
    simp [getAtE, hnone]

/-- C10 witness: with an empty heap chain and a recorded distance `5`
(far beyond the chain), the variable still evaluates to `ok undefined`;
a resolved assignment into the clamped frame succeeds; and the clamp
facts at concrete inputs. -/
theorem resolvedLookupsNeverRaise_witness :
    (∃ b, evalExpr 1 (.variableE 0 ⟨"IDENTIFIER", "x", .nilL, 1⟩) (initIState [(0, 5)]) =
      (.ok (getAtE (initIState [(0, 5)]).heap 0 5 "x"), { initIState [(0, 5)] with resolvedMiss := b })) ∧
    (evalExpr 2 (.assignE 0 ⟨"IDENTIFIER", "x", .nilL, 1⟩ (.literal (.numL (.fin 3))))
        (initIState [(0, 5)]) =
      (.ok (Value.num (.fin 3)),
        { initIState [(0, 5)] with
            heap := assignAtE (initIState [(0, 5)]).heap 0 5 "x" (Value.num (.fin 3)) })) ∧
    (ancestorE (initIState [(0, 5)]).heap 5 0 = 0) := by
  refine ⟨?_, ?_, ?_⟩
  · exact (resolvedLookupsNeverRaise 0 0 ⟨"IDENTIFIER", "x", .nilL, 1⟩ (initIState [(0, 5)]) 5
      (.literal .nilL) Value.nil (initIState [(0, 5)]) .out [] 0 0 "x").1 rfl
  · exact (resolvedLookupsNeverRaise 1 0 ⟨"IDENTIFIER", "x", .nilL, 1⟩ (initIState [(0, 5)]) 5
      (.literal (.numL (.fin 3))) (Value.num (.fin 3)) (initIState [(0, 5)]) .out [] 0 0 "x").2.1
      rfl rfl
  · exact (resolvedLookupsNeverRaise 0 0 ⟨"IDENTIFIER", "x", .nilL, 1⟩ (initIState [(0, 5)]) 5
      (.literal .nilL) Value.nil (initIState [(0, 5)]) .out (initIState [(0, 5)]).heap 0 0 "x").2.2.2.2.1
      rfl

theorem resolveLocalR_preserves_flags (idn : Nat) (name : Token) (r : RState) :
    (resolveLocalR idn name r).hadError = r.hadError ∧
    (resolveLocalR idn name r).errors = r.errors := by
  unfold resolveLocalR
  cases resolveLocalDist r.scopes name.lexeme <;> exact ⟨rfl, rfl⟩

/-- C8: when the resolver visits a `Variable` whose name is mapped to the
`declared` state (`false`) in the innermost scope of a non-empty scope
stack, it records "Can't read local variable in its own initializer." at
that name token and sets the sticky error flag. -/
theorem selfInitializerDetection :
    ∀ idn (name : Token) (r : RState) sc rest,
      r.scopes = sc :: rest → sc.lookup name.lexeme = some false →
      (resolveExpr (.variableE idn name) r).hadError = true ∧
      (name, RMsg.selfInitializer) ∈ (resolveExpr (.variableE idn name) r).errors := by
  intro idn name r sc rest hs hl
  have hstep : (match r.scopes with
      | sc :: _ =>
        if sc.lookup name.lexeme == some false then errorR name .selfInitializer r else r
      | [] => r) = errorR name .selfInitializer r := by
    rw [hs]
    simp [hl]
  show (resolveLocalR idn name _).hadError = true ∧ _ ∈ (resolveLocalR idn name _).errors
  rw [hstep]
  rw [(resolveLocalR_preserves_flags idn name _).1, (resolveLocalR_preserves_flags idn name _).2]
  exact ⟨rfl, by simp [errorR]⟩

/-- C8 witness: resolving the variable read of `a` while `a` is in the
`declared` state in the innermost scope (as during resolution of
`var a = a;`) records the self-initializer error and sets the flag. -/
theorem selfInitializerDetection_witness :
    (resolveExpr (.variableE 0 ⟨"IDENTIFIER", "a", .nilL, 1⟩)
        ⟨[[("a", false)]], [], false, [], "none"⟩).hadError = true ∧
    (⟨"IDENTIFIER", "a", .nilL, 1⟩, RMsg.selfInitializer) ∈
      (resolveExpr (.variableE 0 ⟨"IDENTIFIER", "a", .nilL, 1⟩)
        ⟨[[("a", false)]], [], false, [], "none"⟩).errors :=
  selfInitializerDetection 0 ⟨"IDENTIFIER", "a", .nilL, 1⟩
    ⟨[[("a", false)]], [], false, [], "none"⟩ [("a", false)] [] rfl rfl

theorem previousP_advTok (t : String) (p : PState) (h : checkP t p = true) :
    previousP (advTok p).2 = peekP p := by
  have hend : isAtEndP p = false := by
    unfold checkP at h
    by_cases he : isAtEndP p
    · rw [he] at h; simp at h
    · simpa using he
  simp [advTok, hend, previousP, peekP]

/-- C7: in `Parser.assignment`, once the LHS has parsed as an
`or`-expression and an `=` follows, the RHS is parsed right-associatively
as another `assignment`; if the LHS is a `Variable`, an `Assign` node
(with a fresh identity) is produced; otherwise the parser records
"Invalid assignment target." at the `=` token (the token `peekP` sees
before the match consumes it), sets the sticky error flag, and returns
the LHS expression without throwing the synchronization signal. -/
theorem invalidAssignmentTargetBehaviour :
    ∀ n (p : PState) (e v : Expr),
      (orP n p).1 = .ok e →
      checkP "EQUAL" (orP n p).2 = true →
      (assignmentP n (advTok (orP n p).2).2).1 = .ok v →
      (previousP (advTok (orP n p).2).2 = peekP (orP n p).2) ∧
      (∀ idn ntok, e = .variableE idn ntok →
        assignmentP (n + 1) p =
          (.ok (.assignE (assignmentP n (advTok (orP n p).2).2).2.nextId ntok v),
           { (assignmentP n (advTok (orP n p).2).2).2 with
               nextId := (assignmentP n (advTok (orP n p).2).2).2.nextId + 1 })) ∧
      ((∀ idn ntok, ¬ e = .variableE idn ntok) →
        assignmentP (n + 1) p =
          (.ok e, errorP (peekP (orP n p).2) .invalidAssignmentTarget
            (assignmentP n (advTok (orP n p).2).2).2) ∧
        (errorP (peekP (orP n p).2) .invalidAssignmentTarget
          (assignmentP n (advTok (orP n p).2).2).2).hadError = true ∧
        (peekP (orP n p).2, PMsg.invalidAssignmentTarget) ∈
          (errorP (peekP (orP n p).2) .invalidAssignmentTarget
            (assignmentP n (advTok (orP n p).2).2).2).errors) := by
  intro n p e v hor hcheck hrhs
  have hunf : assignmentP (n + 1) p = pbind (orP n p) fun expr p1 =>
      match matchP ["EQUAL"] p1 with
      | (false, p2) => (.ok expr, p2)
      | (true, p2) =>
        let equals := previousP p2
        pbind (assignmentP n p2) fun value p3 =>
          match expr with
          | .variableE _ nameTok =>
            let (idn, p4) := freshId p3
            (.ok (.assignE idn nameTok value), p4)
          | _ => (.ok expr, errorP equals .invalidAssignmentTarget p3) := rfl
  cases hq : orP n p with
  | mk r1 p1 =>
    rw [hq] at hor hcheck hrhs hunf
    dsimp only at hor hcheck hrhs hunf ⊢
    subst hor
    have hprev := previousP_advTok "EQUAL" p1 hcheck
    have hmatch : matchP ["EQUAL"] p1 = (true, (advTok p1).2) := by
      simp [matchP, hcheck]
    cases hq2 : assignmentP n (advTok p1).2 with
    | mk r2 p2 =>
      rw [hq2] at hrhs
      dsimp only at hrhs ⊢
      subst hrhs
      simp only [pbind] at hunf
      rw [hmatch] at hunf
      dsimp only at hunf
      rw [hq2] at hunf
      simp only [pbind] at hunf
      refine ⟨hprev, ?_, ?_⟩
      · intro idn ntok he
        subst he
        rw [hunf]
        rfl
      · intro hne
        have hbody : assignmentP (n + 1) p =
            (.ok e, errorP (peekP p1) .invalidAssignmentTarget p2) := by
          rw [hunf, hprev]
          cases e with
          | variableE idn ntok => exact absurd rfl (hne idn ntok)
          | literal l => rfl
          | unary a b => rfl
          | binary a b c => rfl
          | grouping a => rfl
          | assignE a b c => rfl
          | logical a b c => rfl
          | call a b c => rfl
        exact ⟨hbody, rfl, by simp [errorP]⟩

/-- C7 witness: on the token stream of `1 = 2;` the parser records the
invalid-target error at the `=` token, sets the flag, and returns the
literal `1` without throwing; on the token stream of `a = 2;` it
produces an `Assign` node. -/
theorem invalidAssignmentTargetBehaviour_witness :
    (assignmentP 11 (initPState [⟨"NUMBER", "1", .numL (.fin 1), 1⟩, ⟨"EQUAL", "=", .nilL, 1⟩, ⟨"NUMBER", "2", .numL (.fin 2), 1⟩, ⟨"SEMICOLON", ";", .nilL, 1⟩, ⟨"EOF", "", .nilL, 1⟩]) =
      (.ok (.literal (.numL (.fin 1))),
        errorP (peekP (orP 10 (initPState [⟨"NUMBER", "1", .numL (.fin 1), 1⟩, ⟨"EQUAL", "=", .nilL, 1⟩, ⟨"NUMBER", "2", .numL (.fin 2), 1⟩, ⟨"SEMICOLON", ";", .nilL, 1⟩, ⟨"EOF", "", .nilL, 1⟩])).2)
          .invalidAssignmentTarget
          (assignmentP 10 (advTok (orP 10 (initPState [⟨"NUMBER", "1", .numL (.fin 1), 1⟩, ⟨"EQUAL", "=", .nilL, 1⟩, ⟨"NUMBER", "2", .numL (.fin 2), 1⟩, ⟨"SEMICOLON", ";", .nilL, 1⟩, ⟨"EOF", "", .nilL, 1⟩])).2).2).2) ∧
      (errorP (peekP (orP 10 (initPState [⟨"NUMBER", "1", .numL (.fin 1), 1⟩, ⟨"EQUAL", "=", .nilL, 1⟩, ⟨"NUMBER", "2", .numL (.fin 2), 1⟩, ⟨"SEMICOLON", ";", .nilL, 1⟩, ⟨"EOF", "", .nilL, 1⟩])).2)
        .invalidAssignmentTarget
        (assignmentP 10 (advTok (orP 10 (initPState [⟨"NUMBER", "1", .numL (.fin 1), 1⟩, ⟨"EQUAL", "=", .nilL, 1⟩, ⟨"NUMBER", "2", .numL (.fin 2), 1⟩, ⟨"SEMICOLON", ";", .nilL, 1⟩, ⟨"EOF", "", .nilL, 1⟩])).2).2).2).hadError = true ∧
      (peekP (orP 10 (initPState [⟨"NUMBER", "1", .numL (.fin 1), 1⟩, ⟨"EQUAL", "=", .nilL, 1⟩, ⟨"NUMBER", "2", .numL (.fin 2), 1⟩, ⟨"SEMICOLON", ";", .nilL, 1⟩, ⟨"EOF", "", .nilL, 1⟩])).2, PMsg.invalidAssignmentTarget) ∈
        (errorP (peekP (orP 10 (initPState [⟨"NUMBER", "1", .numL (.fin 1), 1⟩, ⟨"EQUAL", "=", .nilL, 1⟩, ⟨"NUMBER", "2", .numL (.fin 2), 1⟩, ⟨"SEMICOLON", ";", .nilL, 1⟩, ⟨"EOF", "", .nilL, 1⟩])).2)
          .invalidAssignmentTarget
          (assignmentP 10 (advTok (orP 10 (initPState [⟨"NUMBER", "1", .numL (.fin 1), 1⟩, ⟨"EQUAL", "=", .nilL, 1⟩, ⟨"NUMBER", "2", .numL (.fin 2), 1⟩, ⟨"SEMICOLON", ";", .nilL, 1⟩, ⟨"EOF", "", .nilL, 1⟩])).2).2).2).errors) ∧
    (assignmentP 11 (initPState [⟨"IDENTIFIER", "a", .nilL, 1⟩, ⟨"EQUAL", "=", .nilL, 1⟩, ⟨"NUMBER", "2", .numL (.fin 2), 1⟩, ⟨"SEMICOLON", ";", .nilL, 1⟩, ⟨"EOF", "", .nilL, 1⟩]) =
      (.ok (.assignE (assignmentP 10 (advTok (orP 10 (initPState [⟨"IDENTIFIER", "a", .nilL, 1⟩, ⟨"EQUAL", "=", .nilL, 1⟩, ⟨"NUMBER", "2", .numL (.fin 2), 1⟩, ⟨"SEMICOLON", ";", .nilL, 1⟩, ⟨"EOF", "", .nilL, 1⟩])).2).2).2.nextId
          ⟨"IDENTIFIER", "a", .nilL, 1⟩ (.literal (.numL (.fin 2)))),
       { (assignmentP 10 (advTok (orP 10 (initPState [⟨"IDENTIFIER", "a", .nilL, 1⟩, ⟨"EQUAL", "=", .nilL, 1⟩, ⟨"NUMBER", "2", .numL (.fin 2), 1⟩, ⟨"SEMICOLON", ";", .nilL, 1⟩, ⟨"EOF", "", .nilL, 1⟩])).2).2).2 with
           nextId := (assignmentP 10 (advTok (orP 10 (initPState [⟨"IDENTIFIER", "a", .nilL, 1⟩, ⟨"EQUAL", "=", .nilL, 1⟩, ⟨"NUMBER", "2", .numL (.fin 2), 1⟩, ⟨"SEMICOLON", ";", .nilL, 1⟩, ⟨"EOF", "", .nilL, 1⟩])).2).2).2.nextId + 1 })) := by
  constructor
  · exact (invalidAssignmentTargetBehaviour 10 (initPState [⟨"NUMBER", "1", .numL (.fin 1), 1⟩, ⟨"EQUAL", "=", .nilL, 1⟩, ⟨"NUMBER", "2", .numL (.fin 2), 1⟩, ⟨"SEMICOLON", ";", .nilL, 1⟩, ⟨"EOF", "", .nilL, 1⟩])
      (.literal (.numL (.fin 1))) (.literal (.numL (.fin 2))) rfl rfl rfl).2.2
      (fun idn ntok h => Expr.noConfusion h)
  · exact (invalidAssignmentTargetBehaviour 10 (initPState [⟨"IDENTIFIER", "a", .nilL, 1⟩, ⟨"EQUAL", "=", .nilL, 1⟩, ⟨"NUMBER", "2", .numL (.fin 2), 1⟩, ⟨"SEMICOLON", ";", .nilL, 1⟩, ⟨"EOF", "", .nilL, 1⟩])
      (.variableE 0 ⟨"IDENTIFIER", "a", .nilL, 1⟩) (.literal (.numL (.fin 2))) rfl rfl rfl).2.1
      0 ⟨"IDENTIFIER", "a", .nilL, 1⟩ rfl

/-- C3: the statement tree built by `Parser.forStatement` (`forDesugar`,
the construction of lines 397–409 of the source) coincides, for every
combination of present and omitted initializer, condition and increment,
with the tree of the equivalent while form as the specification describes
it (`forDesugarSpec`); and parsing the token stream of
`for (;;) print x;` produces the very statement list that parsing
`while (true) print x;` produces. -/
theorem forLoopDesugaring :
    (∀ i c u b, forDesugar i c u b = forDesugarSpec i c u b) ∧
    (parseStatementsP 20 (initPState
        [⟨"FOR", "for", .nilL, 1⟩, ⟨"LEFT_PAREN", "(", .nilL, 1⟩, ⟨"SEMICOLON", ";", .nilL, 1⟩,
         ⟨"SEMICOLON", ";", .nilL, 1⟩, ⟨"RIGHT_PAREN", ")", .nilL, 1⟩,
         ⟨"PRINT", "print", .nilL, 1⟩, ⟨"IDENTIFIER", "x", .nilL, 1⟩, ⟨"SEMICOLON", ";", .nilL, 1⟩,
         ⟨"EOF", "", .nilL, 1⟩])).1 =
      (parseStatementsP 20 (initPState
        [⟨"WHILE", "while", .nilL, 1⟩, ⟨"LEFT_PAREN", "(", .nilL, 1⟩, ⟨"TRUE", "true", .boolL true, 1⟩,
         ⟨"RIGHT_PAREN", ")", .nilL, 1⟩,
         ⟨"PRINT", "print", .nilL, 1⟩, ⟨"IDENTIFIER", "x", .nilL, 1⟩, ⟨"SEMICOLON", ";", .nilL, 1⟩,
         ⟨"EOF", "", .nilL, 1⟩])).1 := by
  constructor
  · intro i c u b
    cases i <;> cases c <;> cases u <;> rfl
  · rfl

theorem scanGo_sticky (fuel : Nat) : ∀ (cs : List Char) (line : Nat),
    (scanGo fuel cs line true).2 = true := by
  induction fuel with
  | zero => intro cs line; cases cs <;> rfl
  | succ n ih =>
    intro cs line
    cases cs with
    | nil => rfl
    | cons c rest =>
      show (scanGo n _ _ (true || _)).2 = true
      rw [Bool.true_or]
      exact ih _ _

theorem scanGo_ne_nil (fuel : Nat) (cs : List Char) (line : Nat) (hadErr : Bool) :
    (scanGo fuel cs line hadErr).1 ≠ [] := by
  cases fuel with
  | zero => cases cs <;> simp [scanGo]
  | succ n =>
    cases cs with
    | nil => simp [scanGo]
    | cons c rest =>
      show (match (scanToken c rest line).tok with
        | some t => t :: (scanGo n _ _ _).1
        | none => (scanGo n _ _ _).1) ≠ []
      cases (scanToken c rest line).tok with
      | some t => simp
      | none => exact scanGo_ne_nil n _ _ _

theorem scanGo_last (fuel : Nat) : ∀ (cs : List Char) (line : Nat) (hadErr : Bool),
    ∃ l, (scanGo fuel cs line hadErr).1.getLast? = some ⟨"EOF", "", .nilL, l⟩ := by
  induction fuel with
  | zero => intro cs line hadErr; cases cs <;> exact ⟨line, rfl⟩
  | succ n ih =>
    intro cs line hadErr
    cases cs with
    | nil => exact ⟨line, rfl⟩
    | cons c rest =>
      obtain ⟨l, hl⟩ := ih (scanToken c rest line).rest (scanToken c rest line).line
        (hadErr || (scanToken c rest line).err.isSome)
      refine ⟨l, ?_⟩
      have hne := scanGo_ne_nil n (scanToken c rest line).rest (scanToken c rest line).line
        (hadErr || (scanToken c rest line).err.isSome)
      simp only [scanGo]
      cases hh : scanGo n (scanToken c rest line).rest (scanToken c rest line).line
          (hadErr || (scanToken c rest line).err.isSome) with
      | mk toks e =>
        rw [hh] at hl hne
        dsimp only at hl hne ⊢
        cases htok : (scanToken c rest line).tok with
        | some t =>
          dsimp only
          cases toks with
          | nil => exact absurd rfl hne
          | cons a b =>
            rw [List.getLast?_cons_cons]
            exact hl
        | none => exact hl
theorem dropWhile_head_not {α : Type} (p : α → Bool) (l : List α) (a : α) (t : List α)
    (h : l.dropWhile p = a :: t) : p a = false := by
  induction l with
  | nil => simp [List.dropWhile] at h
  | cons x xs ih =>
    simp only [List.dropWhile] at h
    cases hp : p x with
    | true => rw [hp] at h; exact ih h
    | false => rw [hp] at h; cases h; exact hp

theorem scanToken_consumed (c : Char) (rest : List Char) (line : Nat) :
    c :: rest = (scanToken c rest line).consumed ++ (scanToken c rest line).rest := by
  unfold scanToken
  split
  case h_19 r =>
    simp only [skipRes]
    have := List.takeWhile_append_dropWhile (p := fun x => x != newlineChar) (l := r)
    simp [this]
  case h_25 =>
    dsimp only
    split
    · rename_i hq
      have hq' : c = quoteChar := by simpa using hq
      split
      case isTrue.h_1 hdrop =>
        have := List.takeWhile_append_dropWhile (p := fun x => x != quoteChar) (l := rest)
        rw [hdrop, List.append_nil] at this
        simp [hq', this]
      case isTrue.h_2 x hd r2 hdrop =>
        have hhd : hd = quoteChar := by
          have := dropWhile_head_not (fun x => x != quoteChar) rest hd r2 hdrop
          simpa using this
        have := List.takeWhile_append_dropWhile (p := fun x => x != quoteChar) (l := rest)
        rw [hdrop, hhd] at this
        simp only [tokRes, hq', List.cons_append, List.append_assoc, List.singleton_append,
          List.nil_append]
        rw [this]
    · split
      · split
        case isTrue.h_1 x d r2 hdrop =>
          have hrest := List.takeWhile_append_dropWhile (p := isDigitC) (l := rest)
          rw [hdrop] at hrest
          split
          · have hfr := List.takeWhile_append_dropWhile (p := isDigitC) (l := d :: r2)
            simp only [tokRes, List.cons_append, List.append_assoc]
            rw [hfr, hrest]
          · simp only [tokRes, List.cons_append]
            rw [List.takeWhile_append_dropWhile]
        case isTrue.h_2 hdrop =>
          simp only [tokRes, List.cons_append]
          rw [List.takeWhile_append_dropWhile]
      · split
        · simp only [tokRes, List.cons_append]
          rw [List.takeWhile_append_dropWhile]
        · simp
  all_goals simp [tokRes, skipRes]

theorem keywords_lookup_ne_eof (s v : String) (h : keywords.lookup s = some v) :
    ¬ v = "EOF" := by
  intro hv
  subst hv
  have hm := mem_of_lookup_eq_some h
  simp [keywords, Prod.mk.injEq] at hm

theorem scanToken_lexeme (c : Char) (rest : List Char) (line : Nat) :
    ∀ t, (scanToken c rest line).tok = some t →
      t.lexeme = String.mk (scanToken c rest line).consumed ∧ ¬ t.type = "EOF" := by
  unfold scanToken
  split
  case h_19 r =>
    intro t h
    simp [skipRes] at h
  case h_25 =>
    dsimp only
    split
    · split
      case isTrue.h_1 hdrop =>
        intro t h
        simp [skipRes] at h
      case isTrue.h_2 x hd r2 hdrop =>
        intro t h
        simp only [tokRes, mkTok, Option.some.injEq] at h
        subst h
        exact ⟨rfl, by simp [mkTok]⟩
    · split
      · split
        case isTrue.h_1 x d r2 hdrop =>
          split <;>
            · intro t h
              simp only [tokRes, mkTok, Option.some.injEq] at h
              subst h
              exact ⟨rfl, by simp [mkTok]⟩
        case isTrue.h_2 hdrop =>
          intro t h
          simp only [tokRes, mkTok, Option.some.injEq] at h
          subst h
          exact ⟨rfl, by simp [mkTok]⟩
      · split
        · intro t h
          simp only [tokRes, mkTok, Option.some.injEq] at h
          subst h
          refine ⟨rfl, ?_⟩
          cases hk : keywords.lookup (String.mk (c :: List.takeWhile isAlphaNumericC rest)) with
          | some v => simpa using keywords_lookup_ne_eof _ v hk
          | none => simp
        · intro t h
          simp at h
  all_goals
    intro t h
    first
    | (injection h with h2
       subst h2
       exact ⟨rfl, by simp [mkTok]⟩)
    | injection h

theorem scanToken_skip (c : Char) (rest : List Char) (line : Nat) :
    (scanToken c rest line).tok = none → (scanToken c rest line).err = none →
    (isWsC c = true ∧ (scanToken c rest line).consumed = [c]) ∨
    (∃ body, (scanToken c rest line).consumed = '/' :: '/' :: body ∧
      body.all (fun x => x != newlineChar) = true) := by
  unfold scanToken
  split
  case h_19 r =>
    intro h1 h2
    right
    exact ⟨r.takeWhile (fun x => x != newlineChar), rfl, List.all_takeWhile⟩
  case h_25 =>
    dsimp only
    split
    · split
      case isTrue.h_1 hdrop =>
        intro h1 h2
        simp [skipRes] at h2
      case isTrue.h_2 x hd r2 hdrop =>
        intro h1 h2
        simp [tokRes] at h1
    · split
      · split
        case isTrue.h_1 x d r2 hdrop =>
          split <;>
            · intro h1 h2
              simp [tokRes] at h1
        case isTrue.h_2 hdrop =>
          intro h1 h2
          simp [tokRes] at h1
      · split
        · intro h1 h2
          simp [tokRes] at h1
        · intro h1 h2
          simp at h2
  all_goals
    intro h1 h2
    first
    | (left
       exact ⟨by decide, rfl⟩)
    | simp [tokRes] at h1

theorem tokenLexemes_cons_ne (t : Token) (l : List Token) (h : ¬ t.type = "EOF") :
    tokenLexemes (t :: l) = t.lexeme :: tokenLexemes l := by
  simp only [tokenLexemes, List.filter]
  rw [show (t.type != "EOF") = true from by simpa using h]
  simp

theorem scanGo_interleave (fuel : Nat) : ∀ (cs : List Char) (line : Nat) (hadErr : Bool),
    cs.length < fuel → (scanGo fuel cs line hadErr).2 = false →
    Interleave cs (tokenLexemes (scanGo fuel cs line hadErr).1) := by
  induction fuel with
  | zero =>
    intro cs line hadErr hlen
    exact absurd hlen (by omega)
  | succ n ih =>
    intro cs line hadErr hlen herr
    cases cs with
    | nil => exact Interleave.nil
    | cons c rest =>
      have hstep : scanGo (n + 1) (c :: rest) line hadErr =
          (match (scanToken c rest line).tok with
           | some t => t :: (scanGo n (scanToken c rest line).rest (scanToken c rest line).line
               (hadErr || (scanToken c rest line).err.isSome)).1
           | none => (scanGo n (scanToken c rest line).rest (scanToken c rest line).line
               (hadErr || (scanToken c rest line).err.isSome)).1,
           (scanGo n (scanToken c rest line).rest (scanToken c rest line).line
               (hadErr || (scanToken c rest line).err.isSome)).2) := by
        show (let r := scanToken c rest line
          let (toks, e) := scanGo n r.rest r.line (hadErr || r.err.isSome)
          ((match r.tok with | some t => t :: toks | none => toks), e)) = _
        cases hh : scanGo n (scanToken c rest line).rest (scanToken c rest line).line
            (hadErr || (scanToken c rest line).err.isSome) with
        | mk toks e => simp [hh]
      rw [hstep] at herr ⊢
      dsimp only at herr ⊢
      have hargF : (hadErr || (scanToken c rest line).err.isSome) = false := by
        by_cases hb : (hadErr || (scanToken c rest line).err.isSome) = true
        · rw [hb] at herr
          rw [scanGo_sticky] at herr
          cases herr
        · simpa using hb
      have herrNone : (scanToken c rest line).err = none := by
        have := hargF
        simp only [Bool.or_eq_false_iff] at this
        cases he : (scanToken c rest line).err with
        | none => rfl
        | some x => rw [he] at this; simp at this
      have hlen2 : (scanToken c rest line).rest.length < n := by
        have := scanToken_rest_le c rest line
        simp at hlen
        omega
      have hIH := ih (scanToken c rest line).rest (scanToken c rest line).line
        (hadErr || (scanToken c rest line).err.isSome) hlen2 herr
      have hcons := scanToken_consumed c rest line
      cases htok : (scanToken c rest line).tok with
      | some t =>
        obtain ⟨hlex, htype⟩ := scanToken_lexeme c rest line t htok
        rw [tokenLexemes_cons_ne t _ htype]
        rw [hcons]
        have hdata : t.lexeme.data = (scanToken c rest line).consumed := by
          rw [hlex]
        rw [← hdata]
        exact Interleave.tok hIH
      | none =>
        rcases scanToken_skip c rest line htok herrNone with ⟨hws, hc⟩ | ⟨body, hc, hbody⟩
        · rw [hcons, hc]
          exact Interleave.ws hws hIH
        · rw [hcons, hc]
          exact Interleave.comment hbody hIH

theorem wsInterleave_nil_all : ∀ (cs : List Char) (ls : List String),
    WsInterleave cs ls → ls = [] → cs.all isWsC = true := by
  intro cs ls h
  induction h with
  | nil => intro _; rfl
  | ws hw _ ih =>
    intro he
    simp only [List.all_cons, Bool.and_eq_true]
    exact ⟨hw, ih he⟩
  | tok _ _ =>
    intro he
    simp at he

/-- C9 counterexample: on the source `//x` the scanner reports no error
and produces only the `EOF` token, so the concatenated lexemes are empty
and cannot reconstruct the source up to whitespace — the comment is
dropped without a token. The claim as stated is therefore false. -/
theorem scannerReconstruction_cex :
    (scanTokens "//x").2 = false ∧
    tokenLexemes (scanTokens "//x").1 = [] ∧
    ¬ WsInterleave ("//x".data) (tokenLexemes (scanTokens "//x").1) := by
  refine ⟨rfl, rfl, ?_⟩
  rw [show tokenLexemes (scanTokens "//x").1 = [] from rfl]
  intro h
  have := wsInterleave_nil_all _ _ h rfl
  exact absurd this (by decide)

/-- C9 (amended): for every input string the scanner's token list ends
with an `EOF` token carrying the empty lexeme; and whenever the scan
reports no error, the source is reconstructed by the concatenated
lexemes of the non-`EOF` tokens interleaved with whitespace *and line
comments* (comments, though not whitespace, are likewise dropped without
a token; inputs with scan errors lose the offending characters). -/
theorem scannerReconstructionAmended :
    ∀ source : String,
      ((scanTokens source).2 = false →
        Interleave source.data (tokenLexemes (scanTokens source).1)) ∧
      ∃ l, (scanTokens source).1.getLast? = some ⟨"EOF", "", .nilL, l⟩ := by
  intro source
  constructor
  · intro herr
    exact scanGo_interleave (source.data.length + 1) source.data 1 false
      (by omega) herr
  · exact scanGo_last (source.data.length + 1) source.data 1 false

/-- C9 witness: the amended reconstruction applied to the concrete
error-free source `x //c`. -/
theorem scannerReconstructionAmended_witness :
    Interleave ("x //c".data) (tokenLexemes (scanTokens "x //c").1) ∧
    ∃ l, (scanTokens "x //c").1.getLast? = some ⟨"EOF", "", .nilL, l⟩ :=
  ⟨(scannerReconstructionAmended "x //c").1 rfl, (scannerReconstructionAmended "x //c").2⟩

theorem resolveLocalR_scopes (idn : Nat) (name : Token) (r : RState) :
    (resolveLocalR idn name r).scopes = r.scopes := by
  unfold resolveLocalR
  cases resolveLocalDist r.scopes name.lexeme <;> rfl

theorem declareR_locals (name : Token) (r : RState) :
    (declareR name r).locals = r.locals := by
  unfold declareR
  cases r.scopes with
  | nil => rfl
  | cons sc rest =>
    dsimp only
    split <;> rfl

theorem declareR_scopes_nil (name : Token) (r : RState) (hs : r.scopes = []) :
    (declareR name r).scopes = [] := by
  unfold declareR
  rw [hs]
  exact hs

theorem declareR_scopes_cons (name : Token) (r : RState) (sc : Scope) (rest : List Scope)
    (hs : r.scopes = sc :: rest) :
    (declareR name r).scopes = upsertA name.lexeme false sc :: rest := by
  unfold declareR
  rw [hs]

theorem declareR_sticky (name : Token) (r : RState) (h : r.hadError = true) :
    (declareR name r).hadError = true := by
  unfold declareR
  cases r.scopes with
  | nil => exact h
  | cons sc rest =>
    dsimp only
    split
    · simp [errorR]
    · exact h

theorem declareR_noerr (name : Token) (r : RState)
    (h : (declareR name r).hadError = false) : r.hadError = false := by
  by_cases hr : r.hadError = true
  · rw [declareR_sticky name r hr] at h
    cases h
  · simpa using hr

theorem declareR_fresh (name : Token) (r : RState) (sc : Scope) (rest : List Scope)
    (hs : r.scopes = sc :: rest) (h : (declareR name r).hadError = false) :
    sc.lookup name.lexeme = none ∧ (declareR name r).hadError = r.hadError := by
  unfold declareR at h ⊢
  rw [hs] at h ⊢
  dsimp only at h ⊢
  cases hl : sc.lookup name.lexeme with
  | some b =>
    rw [show (sc.lookup name.lexeme).isSome = true from by rw [hl]; rfl] at h
    simp only [if_pos rfl] at h
    simp [errorR] at h
  | none => simp

theorem declareR_errors_of_fresh (name : Token) (r : RState) (sc : Scope) (rest : List Scope)
    (hs : r.scopes = sc :: rest) (hl : sc.lookup name.lexeme = none) :
    (declareR name r).hadError = r.hadError := by
  unfold declareR
  rw [hs]
  dsimp only
  rw [show (sc.lookup name.lexeme).isSome = false from by rw [hl]; rfl]
  simp

theorem defineR_locals (name : Token) (r : RState) : (defineR name r).locals = r.locals := by
  unfold defineR
  cases r.scopes <;> rfl

theorem defineR_hadError (name : Token) (r : RState) :
    (defineR name r).hadError = r.hadError := by
  unfold defineR
  cases r.scopes <;> rfl

theorem defineR_scopes_nil (name : Token) (r : RState) (hs : r.scopes = []) :
    (defineR name r).scopes = [] := by
  unfold defineR
  rw [hs]
  exact hs

theorem defineR_scopes_cons (name : Token) (r : RState) (sc : Scope) (rest : List Scope)
    (hs : r.scopes = sc :: rest) :
    (defineR name r).scopes = upsertA name.lexeme true sc :: rest := by
  unfold defineR
  rw [hs]

mutual

theorem resolveExpr_scopes : ∀ (e : Expr) (R : RState), (resolveExpr e R).scopes = R.scopes
  | .literal _, R => rfl
  | .unary _ r, R => resolveExpr_scopes r R
  | .binary l op r, R => by
    rw [show resolveExpr (.binary l op r) R = resolveExpr r (resolveExpr l R) from rfl]
    rw [resolveExpr_scopes r, resolveExpr_scopes l]
  | .grouping e, R => resolveExpr_scopes e R
  | .variableE idn name, R => by
    show (resolveLocalR idn name _).scopes = R.scopes
    rw [resolveLocalR_scopes]
    cases hs : R.scopes with
    | nil => rw [hs]
    | cons sc rest =>
      dsimp only
      split
      · simp [errorR, hs]
      · rw [hs]
  | .assignE idn name v, R => by
    show (resolveLocalR idn name (resolveExpr v R)).scopes = R.scopes
    rw [resolveLocalR_scopes, resolveExpr_scopes v]
  | .logical l op r, R => by
    rw [show resolveExpr (.logical l op r) R = resolveExpr r (resolveExpr l R) from rfl]
    rw [resolveExpr_scopes r, resolveExpr_scopes l]
  | .call c par args, R => by
    rw [show resolveExpr (.call c par args) R = resolveExprs args (resolveExpr c R) from rfl]
    rw [resolveExprs_scopes args, resolveExpr_scopes c]

theorem resolveExprs_scopes : ∀ (es : List Expr) (R : RState), (resolveExprs es R).scopes = R.scopes
  | [], R => rfl
  | e :: es, R => by
    rw [show resolveExprs (e :: es) R = resolveExprs es (resolveExpr e R) from rfl]
    rw [resolveExprs_scopes es, resolveExpr_scopes e]

end

theorem resolveLocalR_hadError (idn : Nat) (name : Token) (r : RState) :
    (resolveLocalR idn name r).hadError = r.hadError :=
  (resolveLocalR_preserves_flags idn name r).1

theorem foldParams_sticky (ps : List Token) : ∀ (R : RState), R.hadError = true →
    (ps.foldl (fun acc p => defineR p (declareR p acc)) R).hadError = true := by
  induction ps with
  | nil => intro R h; exact h
  | cons p t ih =>
    intro R h
    exact ih _ (by rw [defineR_hadError]; exact declareR_sticky p R h)

theorem foldParams_locals (ps : List Token) : ∀ (R : RState),
    (ps.foldl (fun acc p => defineR p (declareR p acc)) R).locals = R.locals := by
  induction ps with
  | nil => intro R; rfl
  | cons p t ih =>
    intro R
    rw [show (p :: t).foldl (fun acc q => defineR q (declareR q acc)) R =
      t.foldl (fun acc q => defineR q (declareR q acc)) (defineR p (declareR p R)) from rfl]
    rw [ih, defineR_locals, declareR_locals]

theorem foldParams_scopes (ps : List Token) : ∀ (R : RState) (sc : Scope) (rest : List Scope),
    R.scopes = sc :: rest →
    (ps.foldl (fun acc p => defineR p (declareR p acc)) R).scopes =
      (ps.foldl (fun a p => upsertA p.lexeme true (upsertA p.lexeme false a)) sc) :: rest := by
  induction ps with
  | nil => intro R sc rest h; exact h
  | cons p t ih =>
    intro R sc rest h
    rw [show (p :: t).foldl (fun acc q => defineR q (declareR q acc)) R =
      t.foldl (fun acc q => defineR q (declareR q acc)) (defineR p (declareR p R)) from rfl]
    exact ih _ _ _ (defineR_scopes_cons p _ _ rest
      (declareR_scopes_cons p R sc rest h))

mutual

theorem resolveExpr_sticky : ∀ (e : Expr) (R : RState), R.hadError = true →
    (resolveExpr e R).hadError = true
  | .literal _, R, h => h
  | .unary _ r, R, h => resolveExpr_sticky r R h
  | .binary l op r, R, h => by
    rw [show resolveExpr (.binary l op r) R = resolveExpr r (resolveExpr l R) from rfl]
    exact resolveExpr_sticky r _ (resolveExpr_sticky l R h)
  | .grouping e, R, h => resolveExpr_sticky e R h
  | .variableE idn name, R, h => by
    show (resolveLocalR idn name _).hadError = true
    rw [resolveLocalR_hadError]
    cases hs : R.scopes with
    | nil => exact h
    | cons sc rest =>
      dsimp only
      split
      · rfl
      · exact h
  | .assignE idn name v, R, h => by
    show (resolveLocalR idn name (resolveExpr v R)).hadError = true
    rw [resolveLocalR_hadError]
    exact resolveExpr_sticky v R h
  | .logical l op r, R, h => by
    rw [show resolveExpr (.logical l op r) R = resolveExpr r (resolveExpr l R) from rfl]
    exact resolveExpr_sticky r _ (resolveExpr_sticky l R h)
  | .call c par args, R, h => by
    rw [show resolveExpr (.call c par args) R = resolveExprs args (resolveExpr c R) from rfl]
    exact resolveExprs_sticky args _ (resolveExpr_sticky c R h)

theorem resolveExprs_sticky : ∀ (es : List Expr) (R : RState), R.hadError = true →
    (resolveExprs es R).hadError = true
  | [], _, h => h
  | e :: es, R, h => by
    rw [show resolveExprs (e :: es) R = resolveExprs es (resolveExpr e R) from rfl]
    exact resolveExprs_sticky es _ (resolveExpr_sticky e R h)

theorem resolveStmt_sticky : ∀ (st : Stmt) (R : RState), R.hadError = true →
    (resolveStmt st R).hadError = true
  | .expression e, R, h => resolveExpr_sticky e R h
  | .print e, R, h => resolveExpr_sticky e R h
  | .varDecl name ini, R, h => by
    show (defineR name _).hadError = true
    rw [defineR_hadError]
    cases ini with
    | some e => exact resolveExpr_sticky e _ (declareR_sticky name R h)
    | none => exact declareR_sticky name R h
  | .block sts, R, h => by
    show (endScopeR (resolveStmts sts (beginScopeR R))).hadError = true
    exact resolveStmts_sticky sts _ h
  | .ifS c t e, R, h => by
    cases e with
    | some els =>
      show (resolveStmt els (resolveStmt t (resolveExpr c R))).hadError = true
      exact resolveStmt_sticky els _ (resolveStmt_sticky t _ (resolveExpr_sticky c R h))
    | none =>
      show (resolveStmt t (resolveExpr c R)).hadError = true
      exact resolveStmt_sticky t _ (resolveExpr_sticky c R h)
  | .whileS c b, R, h => by
    show (resolveStmt b (resolveExpr c R)).hadError = true
    exact resolveStmt_sticky b _ (resolveExpr_sticky c R h)
  | .funDecl name params body, R, h => by
    show (endScopeR (resolveStmts body _)).hadError = true
    exact resolveStmts_sticky body _
      (foldParams_sticky params _
        (by
          show (beginScopeR _).hadError = true
          show (defineR name (declareR name R)).hadError = true
          rw [defineR_hadError]
          exact declareR_sticky name R h))
  | .ret _ v, R, h => by
    cases v with
    | some e => exact resolveExpr_sticky e R h
    | none => exact h

theorem resolveStmts_sticky : ∀ (sts : List Stmt) (R : RState), R.hadError = true →
    (resolveStmts sts R).hadError = true
  | [], _, h => h
  | st :: sts, R, h => by
    rw [show resolveStmts (st :: sts) R = resolveStmts sts (resolveStmt st R) from rfl]
    exact resolveStmts_sticky sts _ (resolveStmt_sticky st R h)

end

theorem noerr_of (f : RState → RState)
    (hst : ∀ R, R.hadError = true → (f R).hadError = true) (R : RState)
    (h : (f R).hadError = false) : R.hadError = false := by
  by_cases hr : R.hadError = true
  · rw [hst R hr] at h
    cases h
  · simpa using hr

theorem declareR_scopes_declScope (name : Token) (r : RState) :
    (declareR name r).scopes = declScope name.lexeme r.scopes := by
  cases hs : r.scopes with
  | nil => rw [declareR_scopes_nil name r hs]; rfl
  | cons sc rest => rw [declareR_scopes_cons name r sc rest hs]; rfl

theorem declareDefine_scopes (name : Token) (r : RState) :
    (defineR name (declareR name r)).scopes = declDefine name.lexeme r.scopes := by
  cases hs : r.scopes with
  | nil =>
    rw [defineR_scopes_nil name _ (declareR_scopes_nil name r hs)]; rfl
  | cons sc rest =>
    rw [defineR_scopes_cons name _ _ rest (declareR_scopes_cons name r sc rest hs)]; rfl

theorem defineR_scopes_declDefine (name : Token) (r : RState) (S : List Scope)
    (hs : r.scopes = declScope name.lexeme S) :
    (defineR name r).scopes = declDefine name.lexeme S := by
  cases S with
  | nil => rw [defineR_scopes_nil name r hs]; rfl
  | cons sc rest => rw [defineR_scopes_cons name r _ rest hs]; rfl

theorem scopeAfter_shape : ∀ (st : Stmt) (sc : Scope) (rest : List Scope),
    ∃ sc2, scopeAfter st (sc :: rest) = sc2 :: rest
  | .expression _, sc, _ => ⟨sc, rfl⟩
  | .print _, sc, _ => ⟨sc, rfl⟩
  | .varDecl name _, sc, _ => ⟨upsertA name.lexeme true (upsertA name.lexeme false sc), rfl⟩
  | .block _, sc, _ => ⟨sc, rfl⟩
  | .ifS _ t none, sc, rest => scopeAfter_shape t sc rest
  | .ifS _ t (some els), sc, rest => by
    obtain ⟨sc1, h1⟩ := scopeAfter_shape t sc rest
    obtain ⟨sc2, h2⟩ := scopeAfter_shape els sc1 rest
    exact ⟨sc2, by show scopeAfter els (scopeAfter t (sc :: rest)) = sc2 :: rest; rw [h1, h2]⟩
  | .whileS _ b, sc, rest => scopeAfter_shape b sc rest
  | .funDecl name _ _, sc, _ => ⟨upsertA name.lexeme true (upsertA name.lexeme false sc), rfl⟩
  | .ret _ _, sc, _ => ⟨sc, rfl⟩

theorem scopeAfterL_shape : ∀ (sts : List Stmt) (sc : Scope) (rest : List Scope),
    ∃ sc2, scopeAfterL sts (sc :: rest) = sc2 :: rest
  | [], sc, _ => ⟨sc, rfl⟩
  | st :: sts, sc, rest => by
    obtain ⟨sc1, h1⟩ := scopeAfter_shape st sc rest
    obtain ⟨sc2, h2⟩ := scopeAfterL_shape sts sc1 rest
    exact ⟨sc2, by show scopeAfterL sts (scopeAfter st (sc :: rest)) = sc2 :: rest; rw [h1, h2]⟩

mutual

theorem resolveStmt_scopes_eq : ∀ (st : Stmt) (R : RState),
    (resolveStmt st R).scopes = scopeAfter st R.scopes
  | .expression e, R => by
    rw [show resolveStmt (.expression e) R = resolveExpr e R from rfl, resolveExpr_scopes]; rfl
  | .print e, R => by
    rw [show resolveStmt (.print e) R = resolveExpr e R from rfl, resolveExpr_scopes]; rfl
  | .varDecl name (some e), R => by
    show (defineR name (resolveExpr e (declareR name R))).scopes = declDefine name.lexeme R.scopes
    exact defineR_scopes_declDefine name _ R.scopes
      (by rw [resolveExpr_scopes, declareR_scopes_declScope])
  | .varDecl name none, R => by
    show (defineR name (declareR name R)).scopes = declDefine name.lexeme R.scopes
    exact declareDefine_scopes name R
  | .block sts, R => by
    show (resolveStmts sts (beginScopeR R)).scopes.tail = R.scopes
    rw [resolveStmts_scopes_eq sts]
    obtain ⟨sc2, h2⟩ := scopeAfterL_shape sts [] R.scopes
    rw [show (beginScopeR R).scopes = [] :: R.scopes from rfl, h2]
    rfl
  | .ifS c t none, R => by
    show (resolveStmt t (resolveExpr c R)).scopes = scopeAfter t R.scopes
    rw [resolveStmt_scopes_eq t, resolveExpr_scopes]
  | .ifS c t (some els), R => by
    show (resolveStmt els (resolveStmt t (resolveExpr c R))).scopes =
      scopeAfter els (scopeAfter t R.scopes)
    rw [resolveStmt_scopes_eq els, resolveStmt_scopes_eq t, resolveExpr_scopes]
  | .whileS c b, R => by
    show (resolveStmt b (resolveExpr c R)).scopes = scopeAfter b R.scopes
    rw [resolveStmt_scopes_eq b, resolveExpr_scopes]
  | .funDecl name params body, R => by
    show (resolveStmts body (params.foldl (fun acc p => defineR p (declareR p acc))
        (beginScopeR { defineR name (declareR name R) with
          currentFunction := "function" }))).scopes.tail = declDefine name.lexeme R.scopes
    have h2 : (beginScopeR { defineR name (declareR name R) with
        currentFunction := "function" }).scopes =
        ([] : Scope) :: (defineR name (declareR name R)).scopes := rfl
    rw [declareDefine_scopes] at h2
    have h3 := foldParams_scopes params _ [] (declDefine name.lexeme R.scopes) h2
    rw [resolveStmts_scopes_eq body, h3]
    obtain ⟨sc2, h5⟩ := scopeAfterL_shape body (paramScope params) (declDefine name.lexeme R.scopes)
    rw [show (params.foldl (fun a p => upsertA p.lexeme true (upsertA p.lexeme false a)) [] :
      Scope) = paramScope params from rfl, h5]
    rfl
  | .ret kw (some e), R => by
    rw [show resolveStmt (.ret kw (some e)) R = resolveExpr e R from rfl, resolveExpr_scopes]; rfl
  | .ret kw none, R => rfl

theorem resolveStmts_scopes_eq : ∀ (sts : List Stmt) (R : RState),
    (resolveStmts sts R).scopes = scopeAfterL sts R.scopes
  | [], _ => rfl
  | st :: sts, R => by
    rw [show resolveStmts (st :: sts) R = resolveStmts sts (resolveStmt st R) from rfl,
      resolveStmts_scopes_eq sts, resolveStmt_scopes_eq st]
    rfl

end

theorem scopeAfter_nondecl : ∀ (st : Stmt) (S : List Scope),
    stmtWF st = true → isDecl st = false → scopeAfter st S = S
  | .expression _, _, _, _ => rfl
  | .print _, _, _, _ => rfl
  | .varDecl _ _, _, _, hd => by simp [isDecl] at hd
  | .block _, _, _, _ => rfl
  | .ifS _ t none, S, hwf, _ => by
    have h2 : (!isDecl t && stmtWF t) = true := by
      rw [show stmtWF (.ifS _ t none) = (!isDecl t && stmtWF t && true) from rfl] at hwf
      simpa using hwf
    rw [Bool.and_eq_true, Bool.not_eq_true'] at h2
    show scopeAfter t S = S
    exact scopeAfter_nondecl t S h2.2 h2.1
  | .ifS _ t (some els), S, hwf, _ => by
    rw [show stmtWF (.ifS _ t (some els)) =
      (!isDecl t && stmtWF t && (!isDecl els && stmtWF els)) from rfl] at hwf
    rw [Bool.and_eq_true, Bool.and_eq_true, Bool.and_eq_true,
      Bool.not_eq_true', Bool.not_eq_true'] at hwf
    show scopeAfter els (scopeAfter t S) = S
    rw [scopeAfter_nondecl t S hwf.1.2 hwf.1.1, scopeAfter_nondecl els S hwf.2.2 hwf.2.1]
  | .whileS _ b, S, hwf, _ => by
    rw [show stmtWF (.whileS _ b) = (!isDecl b && stmtWF b) from rfl] at hwf
    rw [Bool.and_eq_true, Bool.not_eq_true'] at hwf
    exact scopeAfter_nondecl b S hwf.2 hwf.1
  | .funDecl _ _ _, _, _, hd => by simp [isDecl] at hd
  | .ret _ _, _, _, _ => rfl

theorem mem_upsertA {α β : Type} [BEq α] (k : α) (v : β) :
    ∀ (l : List (α × β)) (p : α × β), p ∈ upsertA k v l → p = (k, v) ∨ p ∈ l
  | [], p, h => .inl (by unfold upsertA at h; simpa using h)
  | (k', v') :: t, p, h => by
    unfold upsertA at h
    split at h
    · rcases List.mem_cons.mp h with h1 | h1
      · exact .inl h1
      · exact .inr (List.mem_cons_of_mem _ h1)
    · rcases List.mem_cons.mp h with h1 | h1
      · exact .inr (by rw [h1]; exact List.mem_cons_self _ _)
      · rcases mem_upsertA k v t p h1 with h2 | h2
        · exact .inl h2
        · exact .inr (List.mem_cons_of_mem _ h2)

theorem upsert_dd_true (k : String) : ∀ (sc : Scope), (∀ p ∈ sc, p.2 = true) →
    ∀ p ∈ upsertA k true (upsertA k false sc), p.2 = true := by
  intro sc
  induction sc with
  | nil =>
    intro _ p hp
    simp only [upsertA, beq_self_eq_true, if_true] at hp
    rcases List.mem_cons.mp hp with h1 | h1
    · rw [h1]
    · simp at h1
  | cons q t ih =>
    obtain ⟨k1, v1⟩ := q
    intro hsc p hp
    by_cases hk : (k1 == k) = true
    · rw [show upsertA k false ((k1, v1) :: t) = (k, false) :: t from by
        unfold upsertA; rw [if_pos hk]] at hp
      rw [show upsertA k true ((k, false) :: t) = (k, true) :: t from by
        unfold upsertA; rw [if_pos (by simp)]] at hp
      rcases List.mem_cons.mp hp with h1 | h1
      · rw [h1]
      · exact hsc p (List.mem_cons_of_mem _ h1)
    · rw [show upsertA k false ((k1, v1) :: t) = (k1, v1) :: upsertA k false t from by
        rw [upsertA, if_neg hk]] at hp
      rw [show upsertA k true ((k1, v1) :: upsertA k false t) =
          (k1, v1) :: upsertA k true (upsertA k false t)
        from by rw [upsertA, if_neg hk]] at hp
      rcases List.mem_cons.mp hp with h1 | h1
      · rw [h1]; exact hsc (k1, v1) (List.mem_cons_self _ _)
      · exact ih (fun q2 hq2 => hsc q2 (List.mem_cons_of_mem _ hq2)) p h1

theorem foldDD_all_true : ∀ (ps : List Token) (acc : Scope), (∀ p ∈ acc, p.2 = true) →
    ∀ p ∈ ps.foldl (fun a q => upsertA q.lexeme true (upsertA q.lexeme false a)) acc, p.2 = true
  | [], _, h => h
  | q :: t, acc, h => foldDD_all_true t _ (upsert_dd_true q.lexeme acc h)

theorem paramScope_all_true (ps : List Token) : ∀ p ∈ paramScope ps, p.2 = true :=
  foldDD_all_true ps [] (by simp)

theorem allTrueS_declDefine (name : String) (S : List Scope) (h : allTrueS S) :
    allTrueS (declDefine name S) := by
  cases S with
  | nil => exact h
  | cons sc rest =>
    intro sc2 hm p hp
    rcases List.mem_cons.mp hm with h1 | h1
    · rw [h1] at hp
      exact upsert_dd_true name sc (h sc (List.mem_cons_self _ _)) p hp
    · exact h sc2 (List.mem_cons_of_mem _ h1) p hp

theorem allTrueS_scopeAfter : ∀ (st : Stmt) (S : List Scope), allTrueS S →
    allTrueS (scopeAfter st S)
  | .expression _, _, h => h
  | .print _, _, h => h
  | .varDecl name _, S, h => allTrueS_declDefine name.lexeme S h
  | .block _, _, h => h
  | .ifS _ t none, S, h => allTrueS_scopeAfter t S h
  | .ifS _ t (some els), S, h =>
    allTrueS_scopeAfter els (scopeAfter t S) (allTrueS_scopeAfter t S h)
  | .whileS _ b, S, h => allTrueS_scopeAfter b S h
  | .funDecl name _ _, S, h => allTrueS_declDefine name.lexeme S h
  | .ret _ _, _, h => h

theorem allTrueS_scopeAfterL : ∀ (sts : List Stmt) (S : List Scope), allTrueS S →
    allTrueS (scopeAfterL sts S)
  | [], _, h => h
  | st :: sts, S, h => allTrueS_scopeAfterL sts (scopeAfter st S) (allTrueS_scopeAfter st S h)

theorem allTrueS_push (S : List Scope) (h : allTrueS S) : allTrueS ([] :: S) := by
  intro sc hm p hp
  rcases List.mem_cons.mp hm with h1 | h1
  · rw [h1] at hp; simp at hp
  · exact h sc h1 p hp

theorem allTrueS_cons_param (ps : List Token) (S : List Scope) (h : allTrueS S) :
    allTrueS (paramScope ps :: S) := by
  intro sc hm p hp
  rcases List.mem_cons.mp hm with h1 | h1
  · rw [h1] at hp; exact paramScope_all_true ps p hp
  · exact h sc h1 p hp

theorem tailTrue_of_allTrue (S : List Scope) (h : allTrueS S) : tailTrueS S :=
  fun sc hm => h sc (List.mem_of_mem_tail hm)

theorem tailTrue_declScope (name : String) (S : List Scope) (h : allTrueS S) :
    tailTrueS (declScope name S) := by
  cases S with
  | nil => intro sc hm; simp [declScope] at hm
  | cons sc0 rest =>
    intro sc hm p hp
    exact h sc (List.mem_cons_of_mem _ hm) p hp

theorem envMatch_declScope {heap : List Frame} {sc : Scope} {rest : List Scope} {e : Nat}
    (name : String) (m : EnvMatch heap (sc :: rest) e) :
    EnvMatch heap (upsertA name false sc :: rest) e := by
  obtain ⟨hlt, hpres, p, hp, hrest⟩ := m
  refine ⟨hlt, ?_, p, hp, hrest⟩
  intro x hx
  by_cases hxn : x = name
  · rw [hxn, lookup_upsertA_self] at hx
    cases hx
  · rw [lookup_upsertA_ne _ _ hxn] at hx
    exact hpres x hx

theorem resolveLocalR_locals_ne (idn : Nat) (name : Token) (r : RState) (j : Nat)
    (h : ¬ j = idn) : (resolveLocalR idn name r).locals.lookup j = r.locals.lookup j := by
  unfold resolveLocalR
  split
  · exact lookup_upsertA_ne _ _ h
  · rfl

mutual

theorem resolveExpr_locals_out : ∀ (e : Expr) (R : RState) (j : Nat), j ∉ exprIds e →
    (resolveExpr e R).locals.lookup j = R.locals.lookup j
  | .literal _, _, _, _ => rfl
  | .unary op r, R, j, h => resolveExpr_locals_out r R j h
  | .binary l op r, R, j, h => by
    have hl : j ∉ exprIds l := fun hm => h (List.mem_append_left _ hm)
    have hr : j ∉ exprIds r := fun hm => h (List.mem_append_right _ hm)
    rw [show resolveExpr (.binary l op r) R = resolveExpr r (resolveExpr l R) from rfl]
    rw [resolveExpr_locals_out r _ j hr, resolveExpr_locals_out l R j hl]
  | .grouping e, R, j, h => resolveExpr_locals_out e R j h
  | .variableE idn name, R, j, h => by
    have hj : ¬ j = idn := fun he => h (by rw [he]; exact List.mem_singleton.mpr rfl)
    show (resolveLocalR idn name _).locals.lookup j = _
    rw [resolveLocalR_locals_ne idn name _ j hj]
    cases hs : R.scopes with
    | nil => rfl
    | cons sc rest =>
      dsimp only
      split
      · rfl
      · rfl
  | .assignE idn name v, R, j, h => by
    have hj : ¬ j = idn := fun he =>
      h (List.mem_append_right _ (by rw [he]; exact List.mem_singleton.mpr rfl))
    have hv : j ∉ exprIds v := fun hm => h (List.mem_append_left _ hm)
    show (resolveLocalR idn name (resolveExpr v R)).locals.lookup j = _
    rw [resolveLocalR_locals_ne idn name _ j hj, resolveExpr_locals_out v R j hv]
  | .logical l op r, R, j, h => by
    have hl : j ∉ exprIds l := fun hm => h (List.mem_append_left _ hm)
    have hr : j ∉ exprIds r := fun hm => h (List.mem_append_right _ hm)
    rw [show resolveExpr (.logical l op r) R = resolveExpr r (resolveExpr l R) from rfl]
    rw [resolveExpr_locals_out r _ j hr, resolveExpr_locals_out l R j hl]
  | .call c par args, R, j, h => by
    have hc : j ∉ exprIds c := fun hm => h (List.mem_append_left _ hm)
    have ha : j ∉ exprsIds args := fun hm => h (List.mem_append_right _ hm)
    rw [show resolveExpr (.call c par args) R = resolveExprs args (resolveExpr c R) from rfl]
    rw [resolveExprs_locals_out args _ j ha, resolveExpr_locals_out c R j hc]

theorem resolveExprs_locals_out : ∀ (es : List Expr) (R : RState) (j : Nat), j ∉ exprsIds es →
    (resolveExprs es R).locals.lookup j = R.locals.lookup j
  | [], _, _, _ => rfl
  | e :: es, R, j, h => by
    have he : j ∉ exprIds e := fun hm => h (List.mem_append_left _ hm)
    have hs : j ∉ exprsIds es := fun hm => h (List.mem_append_right _ hm)
    rw [show resolveExprs (e :: es) R = resolveExprs es (resolveExpr e R) from rfl]
    rw [resolveExprs_locals_out es _ j hs, resolveExpr_locals_out e R j he]

theorem resolveStmt_locals_out : ∀ (st : Stmt) (R : RState) (j : Nat), j ∉ stmtIds st →
    (resolveStmt st R).locals.lookup j = R.locals.lookup j
  | .expression e, R, j, h => resolveExpr_locals_out e R j h
  | .print e, R, j, h => resolveExpr_locals_out e R j h
  | .varDecl name (some e), R, j, h => by
    show (defineR name (resolveExpr e (declareR name R))).locals.lookup j = _
    rw [defineR_locals, resolveExpr_locals_out e _ j h, declareR_locals]
  | .varDecl name none, R, j, h => by
    show (defineR name (declareR name R)).locals.lookup j = _
    rw [defineR_locals, declareR_locals]
  | .block sts, R, j, h => by
    show (resolveStmts sts (beginScopeR R)).locals.lookup j = _
    rw [resolveStmts_locals_out sts _ j h]
    rfl
  | .ifS c t none, R, j, h => by
    have hc : j ∉ exprIds c := fun hm => h (List.mem_append_left _ (List.mem_append_left _ hm))
    have ht : j ∉ stmtIds t := fun hm => h (List.mem_append_left _ (List.mem_append_right _ hm))
    show (resolveStmt t (resolveExpr c R)).locals.lookup j = _
    rw [resolveStmt_locals_out t _ j ht, resolveExpr_locals_out c R j hc]
  | .ifS c t (some els), R, j, h => by
    have hc : j ∉ exprIds c := fun hm => h (List.mem_append_left _ (List.mem_append_left _ hm))
    have ht : j ∉ stmtIds t := fun hm => h (List.mem_append_left _ (List.mem_append_right _ hm))
    have he : j ∉ stmtIds els := fun hm => h (List.mem_append_right _ hm)
    show (resolveStmt els (resolveStmt t (resolveExpr c R))).locals.lookup j = _
    rw [resolveStmt_locals_out els _ j he, resolveStmt_locals_out t _ j ht,
      resolveExpr_locals_out c R j hc]
  | .whileS c b, R, j, h => by
    have hc : j ∉ exprIds c := fun hm => h (List.mem_append_left _ hm)
    have hb : j ∉ stmtIds b := fun hm => h (List.mem_append_right _ hm)
    show (resolveStmt b (resolveExpr c R)).locals.lookup j = _
    rw [resolveStmt_locals_out b _ j hb, resolveExpr_locals_out c R j hc]
  | .funDecl name params body, R, j, h => by
    show (resolveStmts body (params.foldl (fun acc p => defineR p (declareR p acc))
        (beginScopeR { defineR name (declareR name R) with
          currentFunction := "function" }))).locals.lookup j = _
    rw [resolveStmts_locals_out body _ j h, foldParams_locals]
    show (defineR name (declareR name R)).locals.lookup j = _
    rw [defineR_locals, declareR_locals]
  | .ret kw (some e), R, j, h => resolveExpr_locals_out e R j h
  | .ret kw none, _, _, _ => rfl

theorem resolveStmts_locals_out : ∀ (sts : List Stmt) (R : RState) (j : Nat),
    j ∉ stmtsIds sts → (resolveStmts sts R).locals.lookup j = R.locals.lookup j
  | [], _, _, _ => rfl
  | st :: sts, R, j, h => by
    have h1 : j ∉ stmtIds st := fun hm => h (List.mem_append_left _ hm)
    have h2 : j ∉ stmtsIds sts := fun hm => h (List.mem_append_right _ hm)
    rw [show resolveStmts (st :: sts) R = resolveStmts sts (resolveStmt st R) from rfl]
    rw [resolveStmts_locals_out sts _ j h2, resolveStmt_locals_out st R j h1]

end

theorem paramFold_nodup : ∀ (ps : List Token) (R : RState) (sc : Scope) (rest : List Scope),
    R.scopes = sc :: rest →
    (ps.foldl (fun acc p => defineR p (declareR p acc)) R).hadError = false →
    (ps.map (fun t => t.lexeme)).Nodup ∧ ∀ p ∈ ps, sc.lookup p.lexeme = none
  | [], _, _, _, _, _ => ⟨List.nodup_nil, by intro p hp; cases hp⟩
  | p :: t, R, sc, rest, hs, he => by
    rw [show (p :: t).foldl (fun acc q => defineR q (declareR q acc)) R =
      t.foldl (fun acc q => defineR q (declareR q acc)) (defineR p (declareR p R)) from rfl] at he
    have hR2 : (defineR p (declareR p R)).hadError = false :=
      noerr_of (fun S => t.foldl (fun acc q => defineR q (declareR q acc)) S)
        (foldParams_sticky t) _ he
    have hdp : (declareR p R).hadError = false := by
      rw [defineR_hadError] at hR2; exact hR2
    have hfresh := (declareR_fresh p R sc rest hs hdp).1
    have hs2 : (defineR p (declareR p R)).scopes =
        upsertA p.lexeme true (upsertA p.lexeme false sc) :: rest :=
      defineR_scopes_cons p _ _ rest (declareR_scopes_cons p R sc rest hs)
    obtain ⟨hnd, hall⟩ := paramFold_nodup t (defineR p (declareR p R)) _ rest hs2 he
    have hne : ∀ q ∈ t, ¬ q.lexeme = p.lexeme := by
      intro q hq heq
      have h3 := hall q hq
      rw [heq, lookup_upsertA_self] at h3
      cases h3
    refine ⟨?_, ?_⟩
    · rw [List.map_cons]
      refine List.nodup_cons.mpr ⟨?_, hnd⟩
      intro hmem
      obtain ⟨q, hq, hlex⟩ := List.mem_map.mp hmem
      exact hne q hq hlex
    · intro q hq
      rcases List.mem_cons.mp hq with h1 | h1
      · rw [h1]; exact hfresh
      · have h3 := hall q h1
        rw [lookup_upsertA_ne _ _ (hne q h1), lookup_upsertA_ne _ _ (hne q h1)] at h3
        exact h3

theorem declOK_of_declare (name : Token) (R : RState)
    (h : (declareR name R).hadError = false) : declOK name.lexeme R.scopes := by
  cases hs : R.scopes with
  | nil => trivial
  | cons sc rest =>
    show sc.lookup name.lexeme = none
    exact (declareR_fresh name R sc rest hs h).1

mutual

theorem reifyE : ∀ (e : Expr) (R : RState) (D : Nat → Option Nat),
    (resolveExpr e R).hadError = false →
    (∀ j ∈ exprIds e, R.locals.lookup j = none) →
    (exprIds e).Nodup →
    (∀ j ∈ exprIds e, D j = (resolveExpr e R).locals.lookup j) →
    ResolEOK D R.scopes e
  | .literal l, _, _, _, _, _, _ => ResolEOK.literal
  | .unary op r, R, D, he, hf, hn, ha =>
    ResolEOK.unary (reifyE r R D he hf hn ha)
  | .grouping g, R, D, he, hf, hn, ha =>
    ResolEOK.grouping (reifyE g R D he hf hn ha)
  | .binary l op r, R, D, he, hf, hn, ha => by
    have he2 : (resolveExpr r (resolveExpr l R)).hadError = false := he
    have hl : (resolveExpr l R).hadError = false :=
      noerr_of (resolveExpr r) (resolveExpr_sticky r) _ he2
    have hn2 : (exprIds l ++ exprIds r).Nodup := hn
    obtain ⟨ndl, ndr, disj⟩ := List.nodup_append.mp hn2
    have dl : ResolEOK D R.scopes l := by
      refine reifyE l R D hl (fun j hj => hf j (List.mem_append_left _ hj)) ndl ?_
      intro j hj
      have h3 := ha j (List.mem_append_left _ hj)
      rw [show resolveExpr (.binary l op r) R = resolveExpr r (resolveExpr l R) from rfl,
        resolveExpr_locals_out r _ j (fun hm => disj hj hm)] at h3
      exact h3
    have dr : ResolEOK D (resolveExpr l R).scopes r := by
      refine reifyE r (resolveExpr l R) D he2 ?_ ndr ?_
      · intro j hj
        rw [resolveExpr_locals_out l R j (fun hm => disj hm hj)]
        exact hf j (List.mem_append_right _ hj)
      · intro j hj
        exact ha j (List.mem_append_right _ hj)
    rw [resolveExpr_scopes l R] at dr
    exact ResolEOK.binary dl dr
  | .logical l op r, R, D, he, hf, hn, ha => by
    have he2 : (resolveExpr r (resolveExpr l R)).hadError = false := he
    have hl : (resolveExpr l R).hadError = false :=
      noerr_of (resolveExpr r) (resolveExpr_sticky r) _ he2
    have hn2 : (exprIds l ++ exprIds r).Nodup := hn
    obtain ⟨ndl, ndr, disj⟩ := List.nodup_append.mp hn2
    have dl : ResolEOK D R.scopes l := by
      refine reifyE l R D hl (fun j hj => hf j (List.mem_append_left _ hj)) ndl ?_
      intro j hj
      have h3 := ha j (List.mem_append_left _ hj)
      rw [show resolveExpr (.logical l op r) R = resolveExpr r (resolveExpr l R) from rfl,
        resolveExpr_locals_out r _ j (fun hm => disj hj hm)] at h3
      exact h3
    have dr : ResolEOK D (resolveExpr l R).scopes r := by
      refine reifyE r (resolveExpr l R) D he2 ?_ ndr ?_
      · intro j hj
        rw [resolveExpr_locals_out l R j (fun hm => disj hm hj)]
        exact hf j (List.mem_append_right _ hj)
      · intro j hj
        exact ha j (List.mem_append_right _ hj)
    rw [resolveExpr_scopes l R] at dr
    exact ResolEOK.logical dl dr
  | .call c par args, R, D, he, hf, hn, ha => by
    have he2 : (resolveExprs args (resolveExpr c R)).hadError = false := he
    have hc : (resolveExpr c R).hadError = false :=
      noerr_of (resolveExprs args) (resolveExprs_sticky args) _ he2
    have hn2 : (exprIds c ++ exprsIds args).Nodup := hn
    obtain ⟨ndc, nda, disj⟩ := List.nodup_append.mp hn2
    have dc : ResolEOK D R.scopes c := by
      refine reifyE c R D hc (fun j hj => hf j (List.mem_append_left _ hj)) ndc ?_
      intro j hj
      have h3 := ha j (List.mem_append_left _ hj)
      rw [show resolveExpr (.call c par args) R = resolveExprs args (resolveExpr c R) from rfl,
        resolveExprs_locals_out args _ j (fun hm => disj hj hm)] at h3
      exact h3
    have da : ResolEsOK D (resolveExpr c R).scopes args := by
      refine reifyEs args (resolveExpr c R) D he2 ?_ nda ?_
      · intro j hj
        rw [resolveExpr_locals_out c R j (fun hm => disj hm hj)]
        exact hf j (List.mem_append_right _ hj)
      · intro j hj
        exact ha j (List.mem_append_right _ hj)
    rw [resolveExpr_scopes c R] at da
    exact ResolEOK.call dc da
  | .variableE idn name, R, D, he, hf, hn, ha => by
    have h1 : (resolveLocalR idn name (match R.scopes with
        | sc :: _ => if sc.lookup name.lexeme == some false
            then errorR name .selfInitializer R else R
        | [] => R)).hadError = false := he
    have h2 : D idn = (resolveLocalR idn name (match R.scopes with
        | sc :: _ => if sc.lookup name.lexeme == some false
            then errorR name .selfInitializer R else R
        | [] => R)).locals.lookup idn := ha idn (List.mem_singleton.mpr rfl)
    have hfr : R.locals.lookup idn = none := hf idn (List.mem_singleton.mpr rfl)
    rw [resolveLocalR_hadError] at h1
    refine ResolEOK.variableE ?_ ?_
    · intro sc rest hseq heq
      rw [hseq] at h1
      dsimp only at h1
      rw [heq] at h1
      simp [errorR] at h1
    · cases hs : R.scopes with
      | nil =>
        rw [hs] at h2
        dsimp only at h2
        unfold resolveLocalR at h2
        rw [hs] at h2
        simp only [resolveLocalDist] at h2
        rw [show resolveLocalDist ([] : List Scope) name.lexeme = none from rfl]
        rw [h2]
        exact hfr
      | cons sc rest =>
        rw [hs] at h1 h2
        dsimp only at h1 h2
        by_cases hcond : (sc.lookup name.lexeme == some false) = true
        · rw [if_pos hcond] at h1
          simp [errorR] at h1
        · rw [if_neg hcond] at h2
          unfold resolveLocalR at h2
          rw [hs] at h2
          cases hd : resolveLocalDist (sc :: rest) name.lexeme with
          | some d =>
            rw [hd] at h2
            dsimp only at h2
            rw [lookup_upsertA_self] at h2
            exact h2
          | none =>
            rw [hd] at h2
            dsimp only at h2
            rw [h2]
            exact hfr
  | .assignE idn name v, R, D, he, hf, hn, ha => by
    have h1 : (resolveLocalR idn name (resolveExpr v R)).hadError = false := he
    rw [resolveLocalR_hadError] at h1
    have hn2 : (exprIds v ++ [idn]).Nodup := hn
    obtain ⟨ndv, _, disj⟩ := List.nodup_append.mp hn2
    have hvne : ∀ j ∈ exprIds v, ¬ j = idn :=
      fun j hj heq => disj hj (by rw [heq]; exact List.mem_singleton.mpr rfl)
    have hidnv : idn ∉ exprIds v := fun hm => hvne idn hm rfl
    have dv : ResolEOK D R.scopes v := by
      refine reifyE v R D h1 (fun j hj => hf j (List.mem_append_left _ hj)) ndv ?_
      intro j hj
      have h3 := ha j (List.mem_append_left _ hj)
      rw [show resolveExpr (.assignE idn name v) R =
        resolveLocalR idn name (resolveExpr v R) from rfl,
        resolveLocalR_locals_ne idn name _ j (hvne j hj)] at h3
      exact h3
    refine ResolEOK.assignE dv ?_
    have h2 : D idn = (resolveLocalR idn name (resolveExpr v R)).locals.lookup idn :=
      ha idn (List.mem_append_right _ (List.mem_singleton.mpr rfl))
    have hfr : (resolveExpr v R).locals.lookup idn = none := by
      rw [resolveExpr_locals_out v R idn hidnv]
      exact hf idn (List.mem_append_right _ (List.mem_singleton.mpr rfl))
    unfold resolveLocalR at h2
    rw [resolveExpr_scopes v R] at h2
    cases hd : resolveLocalDist R.scopes name.lexeme with
    | some d =>
      rw [hd] at h2
      dsimp only at h2
      rw [lookup_upsertA_self] at h2
      exact h2
    | none =>
      rw [hd] at h2
      dsimp only at h2
      rw [h2]
      exact hfr

theorem reifyEs : ∀ (es : List Expr) (R : RState) (D : Nat → Option Nat),
    (resolveExprs es R).hadError = false →
    (∀ j ∈ exprsIds es, R.locals.lookup j = none) →
    (exprsIds es).Nodup →
    (∀ j ∈ exprsIds es, D j = (resolveExprs es R).locals.lookup j) →
    ResolEsOK D R.scopes es
  | [], _, _, _, _, _, _ => ResolEsOK.nil
  | e :: es, R, D, he, hf, hn, ha => by
    have he2 : (resolveExprs es (resolveExpr e R)).hadError = false := he
    have h1 : (resolveExpr e R).hadError = false :=
      noerr_of (resolveExprs es) (resolveExprs_sticky es) _ he2
    have hn2 : (exprIds e ++ exprsIds es).Nodup := hn
    obtain ⟨nde, ndes, disj⟩ := List.nodup_append.mp hn2
    have de : ResolEOK D R.scopes e := by
      refine reifyE e R D h1 (fun j hj => hf j (List.mem_append_left _ hj)) nde ?_
      intro j hj
      have h3 := ha j (List.mem_append_left _ hj)
      rw [show resolveExprs (e :: es) R = resolveExprs es (resolveExpr e R) from rfl,
        resolveExprs_locals_out es _ j (fun hm => disj hj hm)] at h3
      exact h3
    have des : ResolEsOK D (resolveExpr e R).scopes es := by
      refine reifyEs es (resolveExpr e R) D he2 ?_ ndes ?_
      · intro j hj
        rw [resolveExpr_locals_out e R j (fun hm => disj hm hj)]
        exact hf j (List.mem_append_right _ hj)
      · intro j hj
        exact ha j (List.mem_append_right _ hj)
    rw [resolveExpr_scopes e R] at des
    exact ResolEsOK.cons de des

end

mutual

theorem reifyS : ∀ (st : Stmt) (R : RState) (D : Nat → Option Nat),
    (resolveStmt st R).hadError = false →
    (∀ j ∈ stmtIds st, R.locals.lookup j = none) →
    (stmtIds st).Nodup →
    (∀ j ∈ stmtIds st, D j = (resolveStmt st R).locals.lookup j) →
    ResolSOK D R.scopes st
  | .expression e, R, D, he, hf, hn, ha =>
    ResolSOK.expression (reifyE e R D he hf hn ha)
  | .print e, R, D, he, hf, hn, ha =>
    ResolSOK.print (reifyE e R D he hf hn ha)
  | .varDecl name (some e), R, D, he, hf, hn, ha => by
    have h1 : (resolveExpr e (declareR name R)).hadError = false := by
      have h0 : (defineR name (resolveExpr e (declareR name R))).hadError = false := he
      rw [defineR_hadError] at h0
      exact h0
    have hdecl : (declareR name R).hadError = false :=
      noerr_of (resolveExpr e) (resolveExpr_sticky e) _ h1
    have der : ResolEOK D (declareR name R).scopes e := by
      refine reifyE e (declareR name R) D h1 ?_ hn ?_
      · intro j hj
        rw [declareR_locals]
        exact hf j hj
      · intro j hj
        have h3 := ha j hj
        rw [show resolveStmt (.varDecl name (some e)) R =
          defineR name (resolveExpr e (declareR name R)) from rfl, defineR_locals] at h3
        exact h3
    rw [declareR_scopes_declScope] at der
    refine ResolSOK.varDeclC (declOK_of_declare name R hdecl) ?_
    intro e2 heq
    cases heq
    exact der
  | .varDecl name none, R, D, he, hf, hn, ha => by
    have hdecl : (declareR name R).hadError = false := by
      have h0 : (defineR name (declareR name R)).hadError = false := he
      rw [defineR_hadError] at h0
      exact h0
    refine ResolSOK.varDeclC (declOK_of_declare name R hdecl) ?_
    intro e2 heq
    cases heq
  | .block sts, R, D, he, hf, hn, ha => by
    have h4 : (resolveStmts sts (beginScopeR R)).hadError = false := he
    exact ResolSOK.blockS (reifyL sts (beginScopeR R) D h4 hf hn ha)
  | .ifS c t none, R, D, he, hf, hn, ha => by
    have h1 : (resolveStmt t (resolveExpr c R)).hadError = false := he
    have h3 : (resolveExpr c R).hadError = false :=
      noerr_of (resolveStmt t) (resolveStmt_sticky t) _ h1
    have hn2 : ((exprIds c ++ stmtIds t) ++ []).Nodup := hn
    rw [List.append_nil] at hn2
    obtain ⟨ndc, ndt, disj⟩ := List.nodup_append.mp hn2
    have memc : ∀ j ∈ exprIds c, j ∈ stmtIds (.ifS c t none) :=
      fun j hj => List.mem_append_left _ (List.mem_append_left _ hj)
    have memt : ∀ j ∈ stmtIds t, j ∈ stmtIds (.ifS c t none) :=
      fun j hj => List.mem_append_left _ (List.mem_append_right _ hj)
    have dc : ResolEOK D R.scopes c := by
      refine reifyE c R D h3 (fun j hj => hf j (memc j hj)) ndc ?_
      intro j hj
      have h5 := ha j (memc j hj)
      rw [show resolveStmt (.ifS c t none) R = resolveStmt t (resolveExpr c R) from rfl,
        resolveStmt_locals_out t _ j (fun hm => disj hj hm)] at h5
      exact h5
    have dt : ResolSOK D (resolveExpr c R).scopes t := by
      refine reifyS t (resolveExpr c R) D h1 ?_ ndt ?_
      · intro j hj
        rw [resolveExpr_locals_out c R j (fun hm => disj hm hj)]
        exact hf j (memt j hj)
      · intro j hj
        exact ha j (memt j hj)
    rw [resolveExpr_scopes c R] at dt
    exact ResolSOK.ifNone dc dt
  | .ifS c t (some els), R, D, he, hf, hn, ha => by
    have h1 : (resolveStmt els (resolveStmt t (resolveExpr c R))).hadError = false := he
    have h2 : (resolveStmt t (resolveExpr c R)).hadError = false :=
      noerr_of (resolveStmt els) (resolveStmt_sticky els) _ h1
    have h3 : (resolveExpr c R).hadError = false :=
      noerr_of (resolveStmt t) (resolveStmt_sticky t) _ h2
    have hn2 : ((exprIds c ++ stmtIds t) ++ stmtIds els).Nodup := hn
    obtain ⟨hct, ndels, disj1⟩ := List.nodup_append.mp hn2
    obtain ⟨ndc, ndt, disj2⟩ := List.nodup_append.mp hct
    have memc : ∀ j ∈ exprIds c, j ∈ stmtIds (.ifS c t (some els)) :=
      fun j hj => List.mem_append_left _ (List.mem_append_left _ hj)
    have memt : ∀ j ∈ stmtIds t, j ∈ stmtIds (.ifS c t (some els)) :=
      fun j hj => List.mem_append_left _ (List.mem_append_right _ hj)
    have meme : ∀ j ∈ stmtIds els, j ∈ stmtIds (.ifS c t (some els)) :=
      fun j hj => List.mem_append_right _ hj
    have dc : ResolEOK D R.scopes c := by
      refine reifyE c R D h3 (fun j hj => hf j (memc j hj)) ndc ?_
      intro j hj
      have h5 := ha j (memc j hj)
      rw [show resolveStmt (.ifS c t (some els)) R =
        resolveStmt els (resolveStmt t (resolveExpr c R)) from rfl,
        resolveStmt_locals_out els _ j (fun hm => disj1 (List.mem_append_left _ hj) hm),
        resolveStmt_locals_out t _ j (fun hm => disj2 hj hm)] at h5
      exact h5
    have dt : ResolSOK D (resolveExpr c R).scopes t := by
      refine reifyS t (resolveExpr c R) D h2 ?_ ndt ?_
      · intro j hj
        rw [resolveExpr_locals_out c R j (fun hm => disj2 hm hj)]
        exact hf j (memt j hj)
      · intro j hj
        have h5 := ha j (memt j hj)
        rw [show resolveStmt (.ifS c t (some els)) R =
          resolveStmt els (resolveStmt t (resolveExpr c R)) from rfl,
          resolveStmt_locals_out els _ j
            (fun hm => disj1 (List.mem_append_right _ hj) hm)] at h5
        exact h5
    rw [resolveExpr_scopes c R] at dt
    have dels : ResolSOK D (resolveStmt t (resolveExpr c R)).scopes els := by
      refine reifyS els (resolveStmt t (resolveExpr c R)) D h1 ?_ ndels ?_
      · intro j hj
        have hnotct : j ∉ exprIds c ++ stmtIds t := fun hm => disj1 hm hj
        rw [resolveStmt_locals_out t _ j (fun hm => hnotct (List.mem_append_right _ hm)),
          resolveExpr_locals_out c R j (fun hm => hnotct (List.mem_append_left _ hm))]
        exact hf j (meme j hj)
      · intro j hj
        exact ha j (meme j hj)
    rw [resolveStmt_scopes_eq t, resolveExpr_scopes c R] at dels
    exact ResolSOK.ifSome dc dt dels
  | .whileS c b, R, D, he, hf, hn, ha => by
    have h1 : (resolveStmt b (resolveExpr c R)).hadError = false := he
    have h3 : (resolveExpr c R).hadError = false :=
      noerr_of (resolveStmt b) (resolveStmt_sticky b) _ h1
    have hn2 : (exprIds c ++ stmtIds b).Nodup := hn
    obtain ⟨ndc, ndb, disj⟩ := List.nodup_append.mp hn2
    have dc : ResolEOK D R.scopes c := by
      refine reifyE c R D h3 (fun j hj => hf j (List.mem_append_left _ hj)) ndc ?_
      intro j hj
      have h5 := ha j (List.mem_append_left _ hj)
      rw [show resolveStmt (.whileS c b) R = resolveStmt b (resolveExpr c R) from rfl,
        resolveStmt_locals_out b _ j (fun hm => disj hj hm)] at h5
      exact h5
    have db : ResolSOK D (resolveExpr c R).scopes b := by
      refine reifyS b (resolveExpr c R) D h1 ?_ ndb ?_
      · intro j hj
        rw [resolveExpr_locals_out c R j (fun hm => disj hm hj)]
        exact hf j (List.mem_append_right _ hj)
      · intro j hj
        exact ha j (List.mem_append_right _ hj)
    rw [resolveExpr_scopes c R] at db
    exact ResolSOK.whileS dc db
  | .funDecl name params body, R, D, he, hf, hn, ha => by
    have h4 : (resolveStmts body (params.foldl (fun acc p => defineR p (declareR p acc))
        (beginScopeR { defineR name (declareR name R) with
          currentFunction := "function" }))).hadError = false := he
    have h3 : (params.foldl (fun acc p => defineR p (declareR p acc))
        (beginScopeR { defineR name (declareR name R) with
          currentFunction := "function" })).hadError = false :=
      noerr_of (resolveStmts body) (resolveStmts_sticky body) _ h4
    have h2 : (beginScopeR { defineR name (declareR name R) with
        currentFunction := "function" }).hadError = false :=
      noerr_of (fun S => params.foldl (fun acc p => defineR p (declareR p acc)) S)
        (foldParams_sticky params) _ h3
    have h1 : (defineR name (declareR name R)).hadError = false := h2
    have hdecl : (declareR name R).hadError = false := by
      rw [defineR_hadError] at h1
      exact h1
    have hs2 : (beginScopeR { defineR name (declareR name R) with
        currentFunction := "function" }).scopes =
        ([] : Scope) :: declDefine name.lexeme R.scopes := by
      have h0 : (beginScopeR { defineR name (declareR name R) with
          currentFunction := "function" }).scopes =
          ([] : Scope) :: (defineR name (declareR name R)).scopes := rfl
      rw [declareDefine_scopes] at h0
      exact h0
    have hnod := (paramFold_nodup params _ [] (declDefine name.lexeme R.scopes) hs2 h3).1
    have dbody : ResolLOK D (params.foldl (fun acc p => defineR p (declareR p acc))
        (beginScopeR { defineR name (declareR name R) with
          currentFunction := "function" })).scopes body := by
      refine reifyL body _ D h4 ?_ hn ?_
      · intro j hj
        rw [foldParams_locals]
        have h0 : (beginScopeR { defineR name (declareR name R) with
            currentFunction := "function" }).locals = R.locals := by
          show (defineR name (declareR name R)).locals = R.locals
          rw [defineR_locals, declareR_locals]
        rw [h0]
        exact hf j hj
      · intro j hj
        have h5 := ha j hj
        rw [show (resolveStmt (.funDecl name params body) R).locals =
          (resolveStmts body (params.foldl (fun acc p => defineR p (declareR p acc))
            (beginScopeR { defineR name (declareR name R) with
              currentFunction := "function" }))).locals from rfl] at h5
        exact h5
    rw [foldParams_scopes params _ [] (declDefine name.lexeme R.scopes) hs2,
      show (params.foldl (fun a p => upsertA p.lexeme true (upsertA p.lexeme false a)) [] :
        Scope) = paramScope params from rfl] at dbody
    exact ResolSOK.funDeclC (declOK_of_declare name R hdecl) hnod dbody
  | .ret kw (some e), R, D, he, hf, hn, ha =>
    ResolSOK.retSome (reifyE e R D he hf hn ha)
  | .ret kw none, _, _, _, _, _, _ => ResolSOK.retNone

theorem reifyL : ∀ (sts : List Stmt) (R : RState) (D : Nat → Option Nat),
    (resolveStmts sts R).hadError = false →
    (∀ j ∈ stmtsIds sts, R.locals.lookup j = none) →
    (stmtsIds sts).Nodup →
    (∀ j ∈ stmtsIds sts, D j = (resolveStmts sts R).locals.lookup j) →
    ResolLOK D R.scopes sts
  | [], _, _, _, _, _, _ => ResolLOK.nil
  | st :: sts, R, D, he, hf, hn, ha => by
    have he2 : (resolveStmts sts (resolveStmt st R)).hadError = false := he
    have h1 : (resolveStmt st R).hadError = false :=
      noerr_of (resolveStmts sts) (resolveStmts_sticky sts) _ he2
    have hn2 : (stmtIds st ++ stmtsIds sts).Nodup := hn
    obtain ⟨nd1, nd2, disj⟩ := List.nodup_append.mp hn2
    have d1 : ResolSOK D R.scopes st := by
      refine reifyS st R D h1 (fun j hj => hf j (List.mem_append_left _ hj)) nd1 ?_
      intro j hj
      have h5 := ha j (List.mem_append_left _ hj)
      rw [show resolveStmts (st :: sts) R = resolveStmts sts (resolveStmt st R) from rfl,
        resolveStmts_locals_out sts _ j (fun hm => disj hj hm)] at h5
      exact h5
    have d2 : ResolLOK D (resolveStmt st R).scopes sts := by
      refine reifyL sts (resolveStmt st R) D he2 ?_ nd2 ?_
      · intro j hj
        rw [resolveStmt_locals_out st R j (fun hm => disj hm hj)]
        exact hf j (List.mem_append_right _ hj)
      · intro j hj
        exact ha j (List.mem_append_right _ hj)
    rw [resolveStmt_scopes_eq st] at d2
    exact ResolLOK.cons d1 d2

end

theorem getFrame_mem (heap : List Frame) (i : Nat) (h : i < heap.length) :
    getFrame heap i ∈ heap := by
  simp only [getFrame, List.getD, List.get?_eq_getElem?]
  rw [List.getElem?_eq_getElem h]
  simp only [Option.getD_some]
  exact List.getElem_mem h

theorem getFrame_out (heap : List Frame) (i : Nat) (h : heap.length ≤ i) :
    getFrame heap i = ⟨none, []⟩ := by
  simp only [getFrame, List.getD, List.get?_eq_getElem?]
  rw [List.getElem?_eq_none h]
  rfl

theorem closOK_getAtE (D : Nat → Option Nat) (heap : List Frame) (e d : Nat) (name : String)
    (hv : ValuesOK D heap) : ClosOK D heap (getAtE heap e d name) := by
  unfold getAtE
  by_cases ha : ancestorE heap d e < heap.length
  · cases hl : (getFrame heap (ancestorE heap d e)).vals.lookup name with
    | some v =>
      simp only [Option.getD_some]
      exact hv _ (getFrame_mem heap _ ha) _ (mem_of_lookup_eq_some hl)
    | none => simp only [Option.getD_none]; trivial
  · rw [getFrame_out heap _ (Nat.le_of_not_lt ha)]
    simp only [List.lookup_nil, Option.getD_none]
    trivial

theorem mem_modifyFrame : ∀ (h : List Frame) (i : Nat) (f : Frame → Frame) (fr : Frame),
    fr ∈ modifyFrame h i f → fr ∈ h ∨ ∃ fr0, fr0 ∈ h ∧ fr = f fr0
  | [], _, _, _, hm => by cases hm
  | fr1 :: t, 0, f, fr, hm => by
    rcases List.mem_cons.mp hm with h1 | h1
    · exact .inr ⟨fr1, List.mem_cons_self _ _, h1⟩
    · exact .inl (List.mem_cons_of_mem _ h1)
  | fr1 :: t, i + 1, f, fr, hm => by
    rcases List.mem_cons.mp hm with h1 | h1
    · exact .inl (by rw [h1]; exact List.mem_cons_self _ _)
    · rcases mem_modifyFrame t i f fr h1 with h2 | ⟨fr0, h3, h4⟩
      · exact .inl (List.mem_cons_of_mem _ h2)
      · exact .inr ⟨fr0, List.mem_cons_of_mem _ h3, h4⟩

theorem valuesOK_defineE (D : Nat → Option Nat) (h : List Frame) (i : Nat) (name : String)
    (v : Value) (hval : ValuesOK D h) (hcv : ClosOK D (defineE h i name v) v) :
    ValuesOK D (defineE h i name v) := by
  intro fr hfr p hp
  rcases mem_modifyFrame h i _ fr hfr with h1 | ⟨fr0, h2, h3⟩
  · exact closOK_weaken (heapExtends_defineE h i name v) (hval fr h1 p hp)
  · rw [h3] at hp
    rcases mem_upsertA name v fr0.vals p hp with h4 | h4
    · rw [h4]
      exact hcv
    · exact closOK_weaken (heapExtends_defineE h i name v) (hval fr0 h2 p h4)

theorem valuesOK_append (D : Nat → Option Nat) (h : List Frame) (fr : Frame)
    (hval : ValuesOK D h) (hnew : ∀ p ∈ fr.vals, ClosOK D (h ++ [fr]) p.2) :
    ValuesOK D (h ++ [fr]) := by
  intro fr2 hm p hp
  rcases List.mem_append.mp hm with h1 | h1
  · exact closOK_weaken (heapExtends_append h [fr]) (hval fr2 h1 p hp)
  · rw [List.mem_singleton.mp h1] at hp
    exact hnew p hp

theorem heapWF_defineE (h : List Frame) (i : Nat) (name : String) (v : Value)
    (hwf : heapWF h) : heapWF (defineE h i name v) := by
  obtain ⟨hlen, hroot, hpar⟩ := hwf
  refine ⟨?_, ?_, ?_⟩
  · rw [show (defineE h i name v).length = h.length from length_modifyFrame h i _]
    exact hlen
  · show parentOf (modifyFrame h i (fun fr => { fr with vals := upsertA name v fr.vals })) 0 = none
    rw [parentOf_modifyFrame h i 0 (fun fr => { fr with vals := upsertA name v fr.vals })
      (fun fr => rfl)]
    exact hroot
  · intro j p hp
    rw [show defineE h i name v =
      modifyFrame h i (fun fr => { fr with vals := upsertA name v fr.vals }) from rfl,
      parentOf_modifyFrame h i j (fun fr => { fr with vals := upsertA name v fr.vals })
      (fun fr => rfl)] at hp
    exact hpar j p hp

theorem heapWF_append (h : List Frame) (p0 : Nat) (vals : List (String × Value))
    (hwf : heapWF h) (hp0 : p0 < h.length) : heapWF (h ++ [⟨some p0, vals⟩]) := by
  obtain ⟨hlen, hroot, hpar⟩ := hwf
  refine ⟨by simp, ?_, ?_⟩
  · show (getFrame (h ++ [⟨some p0, vals⟩]) 0).parent = none
    rw [getFrame_append_lt h _ 0 hlen]
    exact hroot
  · intro i p hp
    by_cases hi : i < h.length
    · rw [show parentOf (h ++ [⟨some p0, vals⟩]) i = parentOf h i from by
        show (getFrame _ i).parent = (getFrame h i).parent
        rw [getFrame_append_lt h _ i hi]] at hp
      exact hpar i p hp
    · by_cases hieq : i = h.length
      · rw [hieq] at hp ⊢
        rw [show parentOf (h ++ [⟨some p0, vals⟩]) h.length = some p0 from by
          show (getFrame _ h.length).parent = some p0
          rw [getFrame_append_new h _]] at hp
        injection hp with hpp
        omega
      · rw [show parentOf (h ++ [⟨some p0, vals⟩]) i = none from by
          show (getFrame _ i).parent = none
          rw [getFrame_out _ i (by simp; omega)]] at hp
        cases hp

theorem envMatch_env_lt {heap : List Frame} {S : List Scope} {e : Nat}
    (hwf : heapWF heap) (m : EnvMatch heap S e) : e < heap.length := by
  cases S with
  | nil => rw [show e = 0 from m]; exact hwf.1
  | cons sc rest => exact m.1

theorem envMatch_push {heap : List Frame} {S : List Scope} {e : Nat} (sc : Scope)
    (fr : Frame) (m : EnvMatch heap S e) (hp : fr.parent = some e)
    (hsc : ∀ x, sc.lookup x = some true → (fr.vals.lookup x).isSome = true) :
    EnvMatch (heap ++ [fr]) (sc :: S) heap.length := by
  refine ⟨by simp, ?_, e, ?_, envMatch_weaken (heapExtends_append heap [fr]) m⟩
  · intro x hx
    rw [show getFrame (heap ++ [fr]) heap.length = fr from getFrame_append_new heap fr]
    exact hsc x hx
  · show (getFrame (heap ++ [fr]) heap.length).parent = some e
    rw [getFrame_append_new heap fr]
    exact hp

theorem defineE_lookup_self (heap : List Frame) (e : Nat) (name : String) (v : Value)
    (he : e < heap.length) :
    ((getFrame (defineE heap e name v) e).vals.lookup name).isSome = true := by
  unfold defineE
  rw [getFrame_modifyFrame_self heap e _ he]
  simp only [lookup_upsertA_self, Option.isSome_some]

theorem envMatch_define_head {heap : List Frame} {sc : Scope} {rest : List Scope} {e : Nat}
    (name : String) (m : EnvMatch heap (sc :: rest) e)
    (hpr : ((getFrame heap e).vals.lookup name).isSome = true) :
    EnvMatch heap (upsertA name true (upsertA name false sc) :: rest) e := by
  obtain ⟨hlt, hpres, p, hp, hrest⟩ := m
  refine ⟨hlt, ?_, p, hp, hrest⟩
  intro x hx
  by_cases hxn : x = name
  · rw [hxn]
    exact hpr
  · rw [lookup_upsertA_ne _ _ hxn, lookup_upsertA_ne _ _ hxn] at hx
    exact hpres x hx

theorem envMatch_hit : ∀ (S : List Scope) (heap : List Frame) (e : Nat) (name : String)
    (d : Nat), EnvMatch heap S e → tailTrueS S →
    (∀ sc rest, S = sc :: rest → ¬ sc.lookup name = some false) →
    resolveLocalDist S name = some d →
    resolvedHit heap e d name = true := by
  intro S
  induction S with
  | nil =>
    intro heap e name d _ _ _ hd
    simp [resolveLocalDist] at hd
  | cons sc rest ih =>
    intro heap e name d hm htail hhead hd
    obtain ⟨hlt, hpres, p, hp, hrest⟩ := hm
    rw [show resolveLocalDist (sc :: rest) name =
      (if (sc.lookup name).isSome then some 0
       else (resolveLocalDist rest name).map (fun d => d + 1)) from rfl] at hd
    by_cases hsome : (sc.lookup name).isSome = true
    · rw [if_pos hsome] at hd
      injection hd with hd0
      rw [← hd0]
      show resolvedHit heap e 0 name = true
      unfold resolvedHit
      rw [show strictAncestor heap 0 e = some e from rfl]
      obtain ⟨b, hb⟩ := Option.isSome_iff_exists.mp hsome
      cases b with
      | false => exact absurd hb (hhead sc rest rfl)
      | true => exact hpres name hb
    · rw [if_neg hsome] at hd
      cases hdr : resolveLocalDist rest name with
      | none => rw [hdr] at hd; cases hd
      | some d0 =>
        rw [hdr] at hd
        dsimp only [Option.map] at hd
        injection hd with hd1
        rw [← hd1]
        show resolvedHit heap e (d0 + 1) name = true
        unfold resolvedHit
        rw [show strictAncestor heap (d0 + 1) e =
          (match parentOf heap e with
           | some q => strictAncestor heap d0 q
           | none => none) from rfl, hp]
        have htail2 : tailTrueS rest :=
          fun sc2 hm2 => htail sc2 (List.mem_of_mem_tail hm2)
        have hhead2 : ∀ sc2 r2, rest = sc2 :: r2 → ¬ sc2.lookup name = some false := by
          intro sc2 r2 heq hfalse
          have hmem : (name, false) ∈ sc2 := mem_of_lookup_eq_some hfalse
          have := htail sc2 (by rw [heq]; exact List.mem_cons_self _ _) (name, false) hmem
          cases this
        have hrec := ih heap p name d0 hrest htail2 hhead2 hdr
        unfold resolvedHit at hrec
        exact hrec

theorem postC_trans {D : Nat → Option Nat} {s1 s2 s3 : IState}
    (a : PostC D s1 s2) (b : PostC D s2 s3) : PostC D s1 s3 :=
  ⟨b.1, b.2.1, heapExtends_trans a.2.2.1 b.2.2.1, by rw [b.2.2.2, a.2.2.2]⟩

theorem postC_refl {D : Nat → Option Nat} {s : IState}
    (hm : s.resolvedMiss = false) (hi : StateInv D s) : PostC D s s :=
  ⟨hm, hi, heapExtends_refl _, rfl⟩

theorem envMatch_after {D : Nat → Option Nat} {S : List Scope} {s s1 : IState}
    (m : EnvMatch s.heap S s.env) (p : PostC D s s1) : EnvMatch s1.heap S s1.env := by
  rw [p.2.2.2]
  exact envMatch_weaken p.2.2.1 m

theorem postVal_weaken {D : Nat → Option Nat} {h h2 : List Frame} {r : Except Sig Value}
    (ext : heapExtends h h2) (p : PostVal D h r) : PostVal D h2 r :=
  ⟨fun v hv => closOK_weaken ext (p.1 v hv), fun v hv => closOK_weaken ext (p.2 v hv)⟩

theorem lookup_isSome_foldDD : ∀ (ps : List Token) (acc : Scope) (x : String),
    (((ps.foldl (fun a p => upsertA p.lexeme true (upsertA p.lexeme false a)) acc).lookup
      x).isSome = true) ↔
    (x ∈ ps.map (fun t => t.lexeme) ∨ (acc.lookup x).isSome = true)
  | [], acc, x => by simp
  | p :: t, acc, x => by
    rw [show (p :: t).foldl (fun a q => upsertA q.lexeme true (upsertA q.lexeme false a)) acc =
      t.foldl (fun a q => upsertA q.lexeme true (upsertA q.lexeme false a))
        (upsertA p.lexeme true (upsertA p.lexeme false acc)) from rfl]
    rw [lookup_isSome_foldDD t _ x]
    rw [isSome_lookup_upsertA, isSome_lookup_upsertA]
    simp only [List.map_cons, List.mem_cons]
    constructor
    · rintro (h1 | h1 | h1 | h1)
      · exact .inl (.inr h1)
      · exact .inl (.inl h1)
      · exact .inl (.inl h1)
      · exact .inr h1
    · rintro (⟨h1 | h1⟩ | h1)
      · exact .inr (.inl h1)
      · exact .inl h1
      · exact .inr (.inr (.inr h1))

theorem lookup_isSome_foldPairs {β : Type} : ∀ (ds : List (String × β)) (acc : List (String × β))
    (x : String),
    (((ds.foldl (fun m q => upsertA q.1 q.2 m) acc).lookup x).isSome = true) ↔
    (x ∈ ds.map Prod.fst ∨ (acc.lookup x).isSome = true)
  | [], acc, x => by simp
  | q :: t, acc, x => by
    rw [show (q :: t).foldl (fun m p => upsertA p.1 p.2 m) acc =
      t.foldl (fun m p => upsertA p.1 p.2 m) (upsertA q.1 q.2 acc) from rfl]
    rw [lookup_isSome_foldPairs t _ x, isSome_lookup_upsertA]
    simp only [List.map_cons, List.mem_cons]
    constructor
    · rintro (h1 | h1 | h1)
      · exact .inl (.inr h1)
      · exact .inl (.inl h1)
      · exact .inr h1
    · rintro (⟨h1 | h1⟩ | h1)
      · exact .inr (.inl h1)
      · exact .inl h1
      · exact .inr (.inr h1)

theorem mem_foldl_upsert {β : Type} : ∀ (ds : List (String × β)) (acc : List (String × β))
    (p : String × β), p ∈ ds.foldl (fun m q => upsertA q.1 q.2 m) acc →
    p ∈ acc ∨ p.2 ∈ ds.map Prod.snd
  | [], acc, p, h => .inl h
  | q :: t, acc, p, h => by
    rw [show (q :: t).foldl (fun m d => upsertA d.1 d.2 m) acc =
      t.foldl (fun m d => upsertA d.1 d.2 m) (upsertA q.1 q.2 acc) from rfl] at h
    rcases mem_foldl_upsert t _ p h with h1 | h1
    · rcases mem_upsertA q.1 q.2 acc p h1 with h2 | h2
      · exact .inr (by rw [h2]; exact List.mem_map_of_mem _ (List.mem_cons_self _ _))
      · exact .inl h2
    · exact .inr (by simp only [List.map_cons]; exact List.mem_cons_of_mem _ h1)

theorem zipPad_snd : ∀ (params : List Token) (args : List Value) (q : String × Value),
    q ∈ zipPad params args → q.2 ∈ args ∨ q.2 = Value.undef
  | [], _, _, h => by cases h
  | p :: ps, [], q, h => by
    rcases List.mem_cons.mp h with h1 | h1
    · exact .inr (by rw [h1])
    · rcases zipPad_snd ps [] q h1 with h2 | h2
      · cases h2
      · exact .inr h2
  | p :: ps, a :: rest, q, h => by
    rcases List.mem_cons.mp h with h1 | h1
    · exact .inl (by rw [h1]; exact List.mem_cons_self _ _)
    · rcases zipPad_snd ps rest q h1 with h2 | h2
      · exact .inl (List.mem_cons_of_mem _ h2)
      · exact .inr h2

theorem envMatch_declScope2 {heap : List Frame} {S : List Scope} {e : Nat}
    (name : String) (m : EnvMatch heap S e) : EnvMatch heap (declScope name S) e := by
  cases S with
  | nil => exact m
  | cons sc rest => exact envMatch_declScope name m

theorem closOK_globalsGet (D : Nat → Option Nat) (heap : List Frame) (name : Token)
    (v : Value) (hwf : heapWF heap) (hv : ValuesOK D heap)
    (h : globalsGet heap name = .ok v) : ClosOK D heap v := by
  unfold globalsGet at h
  cases hl : (getFrame heap 0).vals.lookup name.lexeme with
  | some w =>
    rw [hl] at h
    injection h with h2
    rw [← h2]
    exact hv _ (getFrame_mem heap 0 hwf.1) _ (mem_of_lookup_eq_some hl)
  | none => rw [hl] at h; cases h

theorem postVal_ok (D : Nat → Option Nat) (h : List Frame) (v : Value)
    (hc : ClosOK D h v) : PostVal D h (.ok v) :=
  ⟨fun w hw => by injection hw with h2; rw [← h2]; exact hc,
   fun w hw => by cases hw⟩


theorem postVal_rte (D : Nat → Option Nat) (h : List Frame) (tok : Token) (msg : RtMsg) :
    PostVal D h (.error (.rte tok msg)) :=
  ⟨fun w hw => (by cases hw),
   fun w hw => by injection hw with h2; cases h2⟩

theorem postVal_out (D : Nat → Option Nat) (h : List Frame) : PostVal D h (.error .out) :=
  ⟨fun w hw => (by cases hw),
   fun w hw => by injection hw with h2; cases h2⟩

theorem postVal_ret (D : Nat → Option Nat) (h : List Frame) (v : Value)
    (hc : ClosOK D h v) : PostVal D h (.error (.retSig v)) :=
  ⟨fun w hw => (by cases hw),
   fun w hw => by
    injection hw with h2
    injection h2 with h3
    rw [← h3]
    exact hc⟩

theorem postVal_globalsGet (D : Nat → Option Nat) (heap : List Frame) (name : Token)
    (hwf : heapWF heap) (hv : ValuesOK D heap) : PostVal D heap (globalsGet heap name) := by
  unfold globalsGet
  cases hl : (getFrame heap 0).vals.lookup name.lexeme with
  | some w =>
    exact postVal_ok D heap w (hv _ (getFrame_mem heap 0 hwf.1) _ (mem_of_lookup_eq_some hl))
  | none => exact postVal_rte D heap name _

theorem postVal_binaryOp (D : Nat → Option Nat) (h : List Frame) (op : Token)
    (lv rv : Value) : PostVal D h (binaryOp op lv rv) := by
  unfold binaryOp withNums
  repeat' split
  all_goals first
    | exact postVal_ok D h _ trivial
    | exact postVal_rte D h _ _

theorem simAll_zero : SimAll 0 := by
  refine ⟨?_, ?_, ?_, ?_, ?_, ?_⟩
  · intro D e S s r s' _ hinv _ _ hmiss heval
    rw [show evalExpr 0 e s = (.error .out, s) from rfl] at heval
    injection heval with h1 h2
    rw [← h1, ← h2]
    exact ⟨postC_refl hmiss hinv, postVal_out D s.heap⟩
  · intro D es S s r s' _ hinv _ _ hmiss heval
    rw [show evalArgs 0 es s = (.error .out, s) from rfl] at heval
    injection heval with h1 h2
    rw [← h1, ← h2]
    refine ⟨postC_refl hmiss hinv, ?_, ?_⟩
    · intro vs hv; cases hv
    · intro v hv; injection hv with h3; cases h3
  · intro D st S s r s' _ _ hinv _ _ hmiss heval
    rw [show execStmt 0 st s = (.error .out, s) from rfl] at heval
    injection heval with h1 h2
    rw [← h1, ← h2]
    refine ⟨postC_refl hmiss hinv, ?_, ?_⟩
    · intro hv; cases hv
    · intro v hv; injection hv with h3; cases h3
  · intro D sts S s r s' _ _ hinv _ _ hmiss heval
    rw [show execStmts 0 sts s = (.error .out, s) from rfl] at heval
    injection heval with h1 h2
    rw [← h1, ← h2]
    refine ⟨postC_refl hmiss hinv, ?_, ?_⟩
    · intro hv; cases hv
    · intro v hv; injection hv with h3; cases h3
  · intro D sts S0 envId s r s' _ _ hinv _ _ hmiss heval
    rw [show executeBlock 0 sts envId s = (.error .out, s) from rfl] at heval
    injection heval with h1 h2
    rw [← h1, ← h2]
    refine ⟨postC_refl hmiss hinv, ?_⟩
    intro v hv; injection hv with h3; cases h3
  · intro D params body closEnv args s r s' S hinv _ _ _ _ _ hmiss heval
    rw [show callLox 0 params body closEnv args s = (.error .out, s) from rfl] at heval
    injection heval with h1 h2
    rw [← h1, ← h2]
    exact ⟨postC_refl hmiss hinv, postVal_out D s.heap⟩

theorem simE_succ (n : Nat) (ih : SimAll n) : SimE (n + 1) := by
  obtain ⟨ihE, ihArgs, ihS, ihL, ihBlock, ihCall⟩ := ih
  intro D e S s r s' hres hinv hmatch htail hmiss heval
  cases e with
  | literal l =>
    rw [show evalExpr (n + 1) (.literal l) s = (.ok (litToValue l), s) from rfl] at heval
    injection heval with h1 h2
    rw [← h1, ← h2]
    exact ⟨postC_refl hmiss hinv, postVal_ok D s.heap _ (by cases l <;> trivial)⟩
  | grouping g =>
    cases hres with
    | grouping dg =>
      unfold evalExpr at heval
      dsimp only at heval
      exact ihE D g S s r s' dg hinv hmatch htail hmiss heval
  | unary op rt =>
    cases hres with
    | unary dr =>
      unfold evalExpr at heval
      dsimp only at heval
      cases hsub : evalExpr n rt s with
      | mk rv s1 =>
        rw [hsub] at heval
        have hE := ihE D rt S s rv s1 dr hinv hmatch htail hmiss hsub
        cases rv with
        | error sg =>
          dsimp only [bindE] at heval
          injection heval with h1 h2
          rw [← h1, ← h2]
          exact ⟨hE.1, hE.2⟩
        | ok v =>
          dsimp only [bindE] at heval
          by_cases hm1 : (op.type == "MINUS") = true
          · rw [if_pos hm1] at heval
            cases v <;> dsimp only at heval <;>
              (injection heval with h1 h2; rw [← h1, ← h2]) <;>
              first
                | exact ⟨hE.1, postVal_ok D s1.heap _ trivial⟩
                | exact ⟨hE.1, postVal_rte D s1.heap op _⟩
          · rw [if_neg hm1] at heval
            by_cases hb1 : (op.type == "BANG") = true
            · rw [if_pos hb1] at heval
              injection heval with h1 h2
              rw [← h1, ← h2]
              exact ⟨hE.1, postVal_ok D s1.heap _ trivial⟩
            · rw [if_neg hb1] at heval
              injection heval with h1 h2
              rw [← h1, ← h2]
              exact ⟨hE.1, postVal_ok D s1.heap _ trivial⟩
  | binary l op rt =>
    cases hres with
    | binary dl dr =>
      unfold evalExpr at heval
      dsimp only at heval
      cases hsl : evalExpr n l s with
      | mk rl s1 =>
        rw [hsl] at heval
        have hEl := ihE D l S s rl s1 dl hinv hmatch htail hmiss hsl
        cases rl with
        | error sg =>
          dsimp only [bindE] at heval
          injection heval with h1 h2
          rw [← h1, ← h2]
          exact ⟨hEl.1, hEl.2⟩
        | ok lv =>
          dsimp only [bindE] at heval
          cases hsr : evalExpr n rt s1 with
          | mk rr s2 =>
            rw [hsr] at heval
            have hEr := ihE D rt S s1 rr s2 dr hEl.1.2.1
              (envMatch_after hmatch hEl.1) htail hEl.1.1 hsr
            cases rr with
            | error sg =>
              dsimp only [bindE] at heval
              injection heval with h1 h2
              rw [← h1, ← h2]
              exact ⟨postC_trans hEl.1 hEr.1, hEr.2⟩
            | ok rv =>
              dsimp only [bindE] at heval
              injection heval with h1 h2
              rw [← h1, ← h2]
              exact ⟨postC_trans hEl.1 hEr.1, postVal_binaryOp D s2.heap op lv rv⟩
  | logical l op rt =>
    cases hres with
    | logical dl dr =>
      unfold evalExpr at heval
      dsimp only at heval
      cases hsl : evalExpr n l s with
      | mk rl s1 =>
        rw [hsl] at heval
        have hEl := ihE D l S s rl s1 dl hinv hmatch htail hmiss hsl
        cases rl with
        | error sg =>
          dsimp only [bindE] at heval
          injection heval with h1 h2
          rw [← h1, ← h2]
          exact ⟨hEl.1, hEl.2⟩
        | ok lv =>
          dsimp only [bindE] at heval
          have hrec : evalExpr n rt s1 = (r, s') → PostC D s s' ∧ PostVal D s'.heap r := by
            intro hsub2
            have hEr := ihE D rt S s1 r s' dr hEl.1.2.1
              (envMatch_after hmatch hEl.1) htail hEl.1.1 hsub2
            exact ⟨postC_trans hEl.1 hEr.1, hEr.2⟩
          by_cases hor : (op.type == "OR") = true
          · rw [if_pos hor] at heval
            by_cases htr : isTruthy lv = true
            · rw [if_pos htr] at heval
              injection heval with h1 h2
              rw [← h1, ← h2]
              exact ⟨hEl.1, hEl.2⟩
            · rw [if_neg htr] at heval
              exact hrec heval
          · rw [if_neg hor] at heval
            by_cases hand : (op.type == "AND") = true
            · rw [if_pos hand] at heval
              by_cases htr : (!isTruthy lv) = true
              · rw [if_pos htr] at heval
                injection heval with h1 h2
                rw [← h1, ← h2]
                exact ⟨hEl.1, hEl.2⟩
              · rw [if_neg htr] at heval
                exact hrec heval
            · rw [if_neg hand] at heval
              exact hrec heval
  | variableE idn name =>
    cases hres with
    | variableE hnf hD =>
      unfold evalExpr at heval
      dsimp only at heval
      unfold lookUpVariable at heval
      rw [hinv.2.2 idn, hD] at heval
      cases hd : resolveLocalDist S name.lexeme with
      | some d =>
        rw [hd] at heval
        dsimp only at heval
        rw [if_pos (envMatch_hit S s.heap s.env name.lexeme d hmatch htail hnf hd)] at heval
        injection heval with h1 h2
        rw [← h1, ← h2]
        exact ⟨postC_refl hmiss hinv,
          postVal_ok D s.heap _ (closOK_getAtE D s.heap s.env d name.lexeme hinv.2.1)⟩
      | none =>
        rw [hd] at heval
        dsimp only at heval
        injection heval with h1 h2
        rw [← h1, ← h2]
        exact ⟨postC_refl hmiss hinv, postVal_globalsGet D s.heap name hinv.1 hinv.2.1⟩
  | assignE idn name v =>
    cases hres with
    | assignE dv hD =>
      unfold evalExpr at heval
      dsimp only at heval
      cases hsub : evalExpr n v s with
      | mk rv s1 =>
        rw [hsub] at heval
        have hE := ihE D v S s rv s1 dv hinv hmatch htail hmiss hsub
        cases rv with
        | error sg =>
          dsimp only [bindE] at heval
          injection heval with h1 h2
          rw [← h1, ← h2]
          exact ⟨hE.1, hE.2⟩
        | ok v2 =>
          dsimp only [bindE] at heval
          rw [hE.1.2.1.2.2 idn, hD] at heval
          have hcv : ClosOK D s1.heap v2 := hE.2.1 v2 rfl
          cases hd : resolveLocalDist S name.lexeme with
          | some d =>
            rw [hd] at heval
            dsimp only at heval
            injection heval with h1 h2
            rw [← h1, ← h2]
            have hext := heapExtends_defineE s1.heap (ancestorE s1.heap d s1.env)
              name.lexeme v2
            have hpc2 : PostC D s1
                { s1 with heap := assignAtE s1.heap s1.env d name.lexeme v2 } := by
              refine ⟨hE.1.1, ⟨?_, ?_, ?_⟩, hext, rfl⟩
              · exact heapWF_defineE s1.heap _ name.lexeme v2 hE.1.2.1.1
              · exact valuesOK_defineE D s1.heap _ name.lexeme v2 hE.1.2.1.2.1
                  (closOK_weaken hext hcv)
              · exact hE.1.2.1.2.2
            exact ⟨postC_trans hE.1 hpc2, postVal_ok D _ v2 (closOK_weaken hext hcv)⟩
          | none =>
            rw [hd] at heval
            dsimp only at heval
            unfold globalsAssign at heval
            by_cases hgl : ((getFrame s1.heap 0).vals.lookup name.lexeme).isSome = true
            · rw [if_pos hgl] at heval
              dsimp only at heval
              injection heval with h1 h2
              rw [← h1, ← h2]
              have hext := heapExtends_defineE s1.heap 0 name.lexeme v2
              have hpc2 : PostC D s1
                  { s1 with heap := defineE s1.heap 0 name.lexeme v2 } := by
                refine ⟨hE.1.1, ⟨?_, ?_, ?_⟩, hext, rfl⟩
                · exact heapWF_defineE s1.heap 0 name.lexeme v2 hE.1.2.1.1
                · exact valuesOK_defineE D s1.heap 0 name.lexeme v2 hE.1.2.1.2.1
                    (closOK_weaken hext hcv)
                · exact hE.1.2.1.2.2
              exact ⟨postC_trans hE.1 hpc2, postVal_ok D _ v2 (closOK_weaken hext hcv)⟩
            · rw [if_neg hgl] at heval
              dsimp only at heval
              injection heval with h1 h2
              rw [← h1, ← h2]
              exact ⟨hE.1, postVal_rte D s1.heap name _⟩
  | call c par args =>
    cases hres with
    | call dc dargs =>
      unfold evalExpr at heval
      dsimp only at heval
      cases hsc : evalExpr n c s with
      | mk rc s1 =>
        rw [hsc] at heval
        have hEc := ihE D c S s rc s1 dc hinv hmatch htail hmiss hsc
        cases rc with
        | error sg =>
          dsimp only [bindE] at heval
          injection heval with h1 h2
          rw [← h1, ← h2]
          exact ⟨hEc.1, hEc.2⟩
        | ok cv =>
          dsimp only [bindE] at heval
          cases hsa : evalArgs n args s1 with
          | mk ra s2 =>
            rw [hsa] at heval
            have hEa := ihArgs D args S s1 ra s2 dargs hEc.1.2.1
              (envMatch_after hmatch hEc.1) htail hEc.1.1 hsa
            cases ra with
            | error sg =>
              dsimp only [bindE] at heval
              injection heval with h1 h2
              rw [← h1, ← h2]
              refine ⟨postC_trans hEc.1 hEa.1, ?_, ?_⟩
              · intro w hw; cases hw
              · intro w hw
                injection hw with h3
                exact hEa.2.2 w (by rw [h3])
            | ok argv =>
              dsimp only [bindE] at heval
              by_cases hcall : (!isCallable cv) = true
              · rw [if_pos hcall] at heval
                injection heval with h1 h2
                rw [← h1, ← h2]
                exact ⟨postC_trans hEc.1 hEa.1, postVal_rte D s2.heap par _⟩
              · rw [if_neg hcall] at heval
                by_cases harity : (argv.length != arityOf cv) = true
                · rw [if_pos harity] at heval
                  injection heval with h1 h2
                  rw [← h1, ← h2]
                  exact ⟨postC_trans hEc.1 hEa.1, postVal_rte D s2.heap par _⟩
                · rw [if_neg harity] at heval
                  cases cv with
                  | closure oid nm ps body closEnv =>
                    dsimp only at heval
                    obtain ⟨S0, hm0, ht0, hwf0, hres0⟩ :=
                      closOK_weaken hEa.1.2.2.1 (hEc.2.1 _ rfl)
                    have hC := ihCall D ps body closEnv argv s2 r s' S0 hEa.1.2.1
                      hm0 ht0 hwf0 hres0 (hEa.2.1 argv rfl) hEa.1.1 heval
                    exact ⟨postC_trans (postC_trans hEc.1 hEa.1) hC.1, hC.2⟩
                  | nil =>
                    dsimp only at heval
                    injection heval with h1 h2
                    rw [← h1, ← h2]
                    exact ⟨postC_trans hEc.1 hEa.1, postVal_ok D s2.heap _ trivial⟩
                  | boolV b =>
                    dsimp only at heval
                    injection heval with h1 h2
                    rw [← h1, ← h2]
                    exact ⟨postC_trans hEc.1 hEa.1, postVal_ok D s2.heap _ trivial⟩
                  | num m =>
                    dsimp only at heval
                    injection heval with h1 h2
                    rw [← h1, ← h2]
                    exact ⟨postC_trans hEc.1 hEa.1, postVal_ok D s2.heap _ trivial⟩
                  | str st =>
                    dsimp only at heval
                    injection heval with h1 h2
                    rw [← h1, ← h2]
                    exact ⟨postC_trans hEc.1 hEa.1, postVal_ok D s2.heap _ trivial⟩
                  | nativeClock =>
                    dsimp only at heval
                    injection heval with h1 h2
                    rw [← h1, ← h2]
                    exact ⟨postC_trans hEc.1 hEa.1, postVal_ok D s2.heap _ trivial⟩
                  | undef =>
                    dsimp only at heval
                    injection heval with h1 h2
                    rw [← h1, ← h2]
                    exact ⟨postC_trans hEc.1 hEa.1, postVal_ok D s2.heap _ trivial⟩

theorem simArgs_succ (n : Nat) (ih : SimAll n) : SimArgs (n + 1) := by
  obtain ⟨ihE, ihArgs, ihS, ihL, ihBlock, ihCall⟩ := ih
  intro D es S s r s' hres hinv hmatch htail hmiss heval
  cases es with
  | nil =>
    rw [show evalArgs (n + 1) ([] : List Expr) s = (.ok [], s) from rfl] at heval
    injection heval with h1 h2
    rw [← h1, ← h2]
    refine ⟨postC_refl hmiss hinv, ?_, ?_⟩
    · intro vs hv
      injection hv with h3
      rw [← h3]
      intro w hw
      cases hw
    · intro w hw
      cases hw
  | cons a rest =>
    cases hres with
    | cons de des =>
      unfold evalArgs at heval
      cases hsub : evalExpr n a s with
      | mk rv s1 =>
        rw [hsub] at heval
        have hE := ihE D a S s rv s1 de hinv hmatch htail hmiss hsub
        cases rv with
        | error sg =>
          dsimp only [bindE] at heval
          injection heval with h1 h2
          rw [← h1, ← h2]
          refine ⟨hE.1, ?_, ?_⟩
          · intro vs hv; cases hv
          · intro w hw
            injection hw with h3
            exact hE.2.2 w (by rw [h3])
        | ok v =>
          dsimp only [bindE] at heval
          cases hsr : evalArgs n rest s1 with
          | mk ra s2 =>
            rw [hsr] at heval
            have hA := ihArgs D rest S s1 ra s2 des hE.1.2.1
              (envMatch_after hmatch hE.1) htail hE.1.1 hsr
            cases ra with
            | error sg =>
              dsimp only [bindE] at heval
              injection heval with h1 h2
              rw [← h1, ← h2]
              refine ⟨postC_trans hE.1 hA.1, ?_, ?_⟩
              · intro vs hv; cases hv
              · intro w hw
                injection hw with h3
                exact hA.2.2 w (by rw [h3])
            | ok vs =>
              dsimp only [bindE] at heval
              injection heval with h1 h2
              rw [← h1, ← h2]
              refine ⟨postC_trans hE.1 hA.1, ?_, ?_⟩
              · intro ws hw
                injection hw with h3
                rw [← h3]
                intro w hw2
                rcases List.mem_cons.mp hw2 with h4 | h4
                · rw [h4]
                  exact closOK_weaken hA.1.2.2.1 (hE.2.1 v rfl)
                · exact hA.2.1 vs rfl w h4
              · intro w hw
                cases hw

theorem simS_succ (n : Nat) (ih : SimAll n) : SimS (n + 1) := by
  obtain ⟨ihE, ihArgs, ihS, ihL, ihBlock, ihCall⟩ := ih
  intro D st S s r s' hres hwf hinv hmatch hall hmiss heval
  cases st with
  | expression e =>
    cases hres with
    | expression de =>
      unfold execStmt at heval
      dsimp only at heval
      cases hsub : evalExpr n e s with
      | mk rv s1 =>
        rw [hsub] at heval
        have hE := ihE D e S s rv s1 de hinv hmatch (tailTrue_of_allTrue S hall) hmiss hsub
        cases rv with
        | error sg =>
          dsimp only [bindE] at heval
          injection heval with h1 h2
          rw [← h1, ← h2]
          refine ⟨hE.1, ?_, ?_⟩
          · intro hv; cases hv
          · intro w hw
            injection hw with h3
            exact hE.2.2 w (by rw [h3])
        | ok v =>
          dsimp only [bindE] at heval
          injection heval with h1 h2
          rw [← h1, ← h2]
          refine ⟨hE.1, ?_, ?_⟩
          · intro _
            show EnvMatch s1.heap S s1.env
            exact envMatch_after hmatch hE.1
          · intro w hw; cases hw
  | print e =>
    cases hres with
    | print de =>
      unfold execStmt at heval
      dsimp only at heval
      cases hsub : evalExpr n e s with
      | mk rv s1 =>
        rw [hsub] at heval
        have hE := ihE D e S s rv s1 de hinv hmatch (tailTrue_of_allTrue S hall) hmiss hsub
        cases rv with
        | error sg =>
          dsimp only [bindE] at heval
          injection heval with h1 h2
          rw [← h1, ← h2]
          refine ⟨hE.1, ?_, ?_⟩
          · intro hv; cases hv
          · intro w hw
            injection hw with h3
            exact hE.2.2 w (by rw [h3])
        | ok v =>
          dsimp only [bindE] at heval
          injection heval with h1 h2
          rw [← h1, ← h2]
          refine ⟨hE.1, ?_, ?_⟩
          · intro _
            show EnvMatch s1.heap S s1.env
            exact envMatch_after hmatch hE.1
          · intro w hw; cases hw
  | varDecl name ini =>
    cases hres with
    | varDeclC hok hini =>
      cases ini with
      | some e =>
        unfold execStmt at heval
        dsimp only at heval
        cases hsub : evalExpr n e s with
        | mk rv s1 =>
          rw [hsub] at heval
          have hE := ihE D e (declScope name.lexeme S) s rv s1 (hini e rfl) hinv
            (envMatch_declScope2 name.lexeme hmatch)
            (tailTrue_declScope name.lexeme S hall) hmiss hsub
          cases rv with
          | error sg =>
            dsimp only [bindE] at heval
            injection heval with h1 h2
            rw [← h1, ← h2]
            refine ⟨hE.1, ?_, ?_⟩
            · intro hv; cases hv
            · intro w hw
              injection hw with h3
              exact hE.2.2 w (by rw [h3])
          | ok v =>
            dsimp only [bindE] at heval
            injection heval with h1 h2
            rw [← h1, ← h2]
            have hcv : ClosOK D s1.heap v := hE.2.1 v rfl
            have hlt : s1.env < s1.heap.length :=
              envMatch_env_lt hE.1.2.1.1 (envMatch_after hmatch hE.1)
            have hext := heapExtends_defineE s1.heap s1.env name.lexeme v
            have hpc2 : PostC D s1 { s1 with
                heap := defineE s1.heap s1.env name.lexeme v } := by
              refine ⟨hE.1.1, ⟨?_, ?_, ?_⟩, hext, rfl⟩
              · exact heapWF_defineE s1.heap s1.env name.lexeme v hE.1.2.1.1
              · exact valuesOK_defineE D s1.heap s1.env name.lexeme v hE.1.2.1.2.1
                  (closOK_weaken hext hcv)
              · exact hE.1.2.1.2.2
            refine ⟨postC_trans hE.1 hpc2, ?_, ?_⟩
            · intro _
              show EnvMatch (defineE s1.heap s1.env name.lexeme v)
                (declDefine name.lexeme S) s1.env
              cases S with
              | nil =>
                show s1.env = 0
                rw [hE.1.2.2.2]
                exact hmatch
              | cons sc rest =>
                exact envMatch_define_head name.lexeme
                  (envMatch_weaken hext (envMatch_after hmatch hE.1))
                  (defineE_lookup_self s1.heap s1.env name.lexeme v hlt)
            · intro w hw; cases hw
      | none =>
        unfold execStmt at heval
        dsimp only [bindE] at heval
        injection heval with h1 h2
        rw [← h1, ← h2]
        have hlt : s.env < s.heap.length := envMatch_env_lt hinv.1 hmatch
        have hext := heapExtends_defineE s.heap s.env name.lexeme Value.nil
        have hpc2 : PostC D s { s with
            heap := defineE s.heap s.env name.lexeme Value.nil } := by
          refine ⟨hmiss, ⟨?_, ?_, ?_⟩, hext, rfl⟩
          · exact heapWF_defineE s.heap s.env name.lexeme Value.nil hinv.1
          · exact valuesOK_defineE D s.heap s.env name.lexeme Value.nil hinv.2.1 trivial
          · exact hinv.2.2
        refine ⟨hpc2, ?_, ?_⟩
        · intro _
          show EnvMatch (defineE s.heap s.env name.lexeme Value.nil)
            (declDefine name.lexeme S) s.env
          cases S with
          | nil => exact hmatch
          | cons sc rest =>
            exact envMatch_define_head name.lexeme
              (envMatch_weaken hext hmatch)
              (defineE_lookup_self s.heap s.env name.lexeme Value.nil hlt)
        · intro w hw; cases hw
  | block sts =>
    cases hres with
    | blockS dl =>
      unfold execStmt at heval
      dsimp only at heval
      have hlt : s.env < s.heap.length := envMatch_env_lt hinv.1 hmatch
      have hinv1 : StateInv D { s with heap := s.heap ++ [⟨some s.env, []⟩] } := by
        refine ⟨heapWF_append s.heap s.env [] hinv.1 hlt, ?_, hinv.2.2⟩
        exact valuesOK_append D s.heap _ hinv.2.1 (by intro p hp; cases hp)
      have hm1 : EnvMatch (s.heap ++ [⟨some s.env, []⟩]) ([] :: S) s.heap.length :=
        envMatch_push [] ⟨some s.env, []⟩ hmatch rfl (by intro x hx; cases hx)
      have hB := ihBlock D sts ([] :: S) s.heap.length
        { s with heap := s.heap ++ [⟨some s.env, []⟩] } r s' dl hwf hinv1 hm1
        (allTrueS_push S hall) hmiss heval
      have hpc1 : PostC D s { s with heap := s.heap ++ [⟨some s.env, []⟩] } :=
        ⟨hmiss, hinv1, heapExtends_append s.heap _, rfl⟩
      refine ⟨postC_trans hpc1 hB.1, ?_, hB.2⟩
      intro _
      show EnvMatch s'.heap S s'.env
      exact envMatch_after hmatch (postC_trans hpc1 hB.1)
  | ifS c t e =>
    cases e with
    | none =>
      cases hres with
      | ifNone dc dt =>
        unfold execStmt at heval
        dsimp only at heval
        cases hsc : evalExpr n c s with
        | mk rc s1 =>
          rw [hsc] at heval
          have hEc := ihE D c S s rc s1 dc hinv hmatch (tailTrue_of_allTrue S hall) hmiss hsc
          cases rc with
          | error sg =>
            dsimp only [bindE] at heval
            injection heval with h1 h2
            rw [← h1, ← h2]
            refine ⟨hEc.1, ?_, ?_⟩
            · intro hv; cases hv
            · intro w hw
              injection hw with h3
              exact hEc.2.2 w (by rw [h3])
          | ok cv =>
            dsimp only [bindE] at heval
            have hwf2 : (!isDecl t && stmtWF t && true) = true := hwf
            rw [Bool.and_true, Bool.and_eq_true, Bool.not_eq_true'] at hwf2
            have hSAt : scopeAfter t S = S := scopeAfter_nondecl t S hwf2.2 hwf2.1
            by_cases htr : isTruthy cv = true
            · rw [if_pos htr] at heval
              have hSt := ihS D t S s1 r s' dt hwf2.2 hEc.1.2.1
                (envMatch_after hmatch hEc.1) hall hEc.1.1 heval
              refine ⟨postC_trans hEc.1 hSt.1, ?_, hSt.2.2⟩
              intro hok
              have h3 := hSt.2.1 hok
              rw [hSAt] at h3
              show EnvMatch s'.heap (scopeAfter t S) s'.env
              rw [hSAt]
              exact h3
            · rw [if_neg htr] at heval
              injection heval with h1 h2
              rw [← h1, ← h2]
              refine ⟨hEc.1, ?_, ?_⟩
              · intro _
                show EnvMatch s1.heap (scopeAfter t S) s1.env
                rw [hSAt]
                exact envMatch_after hmatch hEc.1
              · intro w hw; cases hw
    | some els =>
      cases hres with
      | ifSome dc dt dels =>
        unfold execStmt at heval
        dsimp only at heval
        cases hsc : evalExpr n c s with
        | mk rc s1 =>
          rw [hsc] at heval
          have hEc := ihE D c S s rc s1 dc hinv hmatch (tailTrue_of_allTrue S hall) hmiss hsc
          cases rc with
          | error sg =>
            dsimp only [bindE] at heval
            injection heval with h1 h2
            rw [← h1, ← h2]
            refine ⟨hEc.1, ?_, ?_⟩
            · intro hv; cases hv
            · intro w hw
              injection hw with h3
              exact hEc.2.2 w (by rw [h3])
          | ok cv =>
            dsimp only [bindE] at heval
            have hwf2 : (!isDecl t && stmtWF t && (!isDecl els && stmtWF els)) = true := hwf
            rw [Bool.and_eq_true, Bool.and_eq_true, Bool.and_eq_true,
              Bool.not_eq_true', Bool.not_eq_true'] at hwf2
            have hSAt : scopeAfter t S = S := scopeAfter_nondecl t S hwf2.1.2 hwf2.1.1
            have hSAe : scopeAfter els S = S := scopeAfter_nondecl els S hwf2.2.2 hwf2.2.1
            rw [hSAt] at dels
            by_cases htr : isTruthy cv = true
            · rw [if_pos htr] at heval
              have hSt := ihS D t S s1 r s' dt hwf2.1.2 hEc.1.2.1
                (envMatch_after hmatch hEc.1) hall hEc.1.1 heval
              refine ⟨postC_trans hEc.1 hSt.1, ?_, hSt.2.2⟩
              intro hok
              have h3 := hSt.2.1 hok
              rw [hSAt] at h3
              show EnvMatch s'.heap (scopeAfter els (scopeAfter t S)) s'.env
              rw [hSAt, hSAe]
              exact h3
            · rw [if_neg htr] at heval
              have hSe := ihS D els S s1 r s' dels hwf2.2.2 hEc.1.2.1
                (envMatch_after hmatch hEc.1) hall hEc.1.1 heval
              refine ⟨postC_trans hEc.1 hSe.1, ?_, hSe.2.2⟩
              intro hok
              have h3 := hSe.2.1 hok
              rw [hSAe] at h3
              show EnvMatch s'.heap (scopeAfter els (scopeAfter t S)) s'.env
              rw [hSAt, hSAe]
              exact h3
  | whileS c b =>
    cases hres with
    | whileS dc db =>
      unfold execStmt at heval
      dsimp only at heval
      have hwf2 : (!isDecl b && stmtWF b) = true := hwf
      rw [Bool.and_eq_true, Bool.not_eq_true'] at hwf2
      have hSAb : scopeAfter b S = S := scopeAfter_nondecl b S hwf2.2 hwf2.1
      cases hsc : evalExpr n c s with
      | mk rc s1 =>
        rw [hsc] at heval
        have hEc := ihE D c S s rc s1 dc hinv hmatch (tailTrue_of_allTrue S hall) hmiss hsc
        cases rc with
        | error sg =>
          dsimp only [bindE] at heval
          injection heval with h1 h2
          rw [← h1, ← h2]
          refine ⟨hEc.1, ?_, ?_⟩
          · intro hv; cases hv
          · intro w hw
            injection hw with h3
            exact hEc.2.2 w (by rw [h3])
        | ok cv =>
          dsimp only [bindE] at heval
          by_cases htr : isTruthy cv = true
          · rw [if_pos htr] at heval
            cases hsb : execStmt n b s1 with
            | mk rb s2 =>
              rw [hsb] at heval
              have hSb := ihS D b S s1 rb s2 db hwf2.2 hEc.1.2.1
                (envMatch_after hmatch hEc.1) hall hEc.1.1 hsb
              cases rb with
              | error sg =>
                dsimp only [bindE] at heval
                injection heval with h1 h2
                rw [← h1, ← h2]
                refine ⟨postC_trans hEc.1 hSb.1, ?_, hSb.2.2⟩
                intro hv; cases hv
              | ok u =>
                dsimp only [bindE] at heval
                have hm2 : EnvMatch s2.heap S s2.env := by
                  have h3 := hSb.2.1 rfl
                  rw [hSAb] at h3
                  exact h3
                have hSw := ihS D (.whileS c b) S s2 r s' (ResolSOK.whileS dc db)
                  hwf hSb.1.2.1 hm2 hall hSb.1.1 heval
                exact ⟨postC_trans (postC_trans hEc.1 hSb.1) hSw.1, hSw.2.1, hSw.2.2⟩
          · rw [if_neg htr] at heval
            injection heval with h1 h2
            rw [← h1, ← h2]
            refine ⟨hEc.1, ?_, ?_⟩
            · intro _
              show EnvMatch s1.heap (scopeAfter b S) s1.env
              rw [hSAb]
              exact envMatch_after hmatch hEc.1
            · intro w hw; cases hw
  | funDecl name params body =>
    cases hres with
    | funDeclC hok hnodup dbody =>
      unfold execStmt at heval
      dsimp only at heval
      injection heval with h1 h2
      rw [← h1, ← h2]
      have hlt : s.env < s.heap.length := envMatch_env_lt hinv.1 hmatch
      have hext := heapExtends_defineE s.heap s.env name.lexeme
        (Value.closure s.nextObj name params body s.env)
      have hm2 : EnvMatch (defineE s.heap s.env name.lexeme
          (Value.closure s.nextObj name params body s.env))
          (declDefine name.lexeme S) s.env := by
        cases S with
        | nil => exact hmatch
        | cons sc rest =>
          exact envMatch_define_head name.lexeme (envMatch_weaken hext hmatch)
            (defineE_lookup_self s.heap s.env name.lexeme _ hlt)
      have hclos : ClosOK D (defineE s.heap s.env name.lexeme
          (Value.closure s.nextObj name params body s.env))
          (Value.closure s.nextObj name params body s.env) :=
        ⟨declDefine name.lexeme S, hm2, allTrueS_declDefine name.lexeme S hall, hwf, dbody⟩
      have hpc : PostC D s
          { s with
            nextObj := s.nextObj + 1,
            heap := defineE s.heap s.env name.lexeme
              (Value.closure s.nextObj name params body s.env) } := by
        refine ⟨hmiss, ⟨?_, ?_, ?_⟩, hext, rfl⟩
        · exact heapWF_defineE s.heap s.env name.lexeme _ hinv.1
        · exact valuesOK_defineE D s.heap s.env name.lexeme _ hinv.2.1 hclos
        · exact hinv.2.2
      refine ⟨hpc, ?_, ?_⟩
      · intro _
        exact hm2
      · intro w hw; cases hw
  | ret kw value =>
    cases value with
    | some e =>
      cases hres with
      | retSome de =>
        unfold execStmt at heval
        dsimp only at heval
        cases hsub : evalExpr n e s with
        | mk rv s1 =>
          rw [hsub] at heval
          have hE := ihE D e S s rv s1 de hinv hmatch (tailTrue_of_allTrue S hall) hmiss hsub
          cases rv with
          | error sg =>
            dsimp only [bindE] at heval
            injection heval with h1 h2
            rw [← h1, ← h2]
            refine ⟨hE.1, ?_, ?_⟩
            · intro hv; cases hv
            · intro w hw
              injection hw with h3
              exact hE.2.2 w (by rw [h3])
          | ok v =>
            dsimp only [bindE] at heval
            injection heval with h1 h2
            rw [← h1, ← h2]
            refine ⟨hE.1, ?_, ?_⟩
            · intro hv; cases hv
            · intro w hw
              injection hw with h3
              injection h3 with h4
              rw [← h4]
              exact hE.2.1 v rfl
    | none =>
      cases hres with
      | retNone =>
        unfold execStmt at heval
        dsimp only [bindE] at heval
        injection heval with h1 h2
        rw [← h1, ← h2]
        refine ⟨postC_refl hmiss hinv, ?_, ?_⟩
        · intro hv; cases hv
        · intro w hw
          injection hw with h3
          injection h3 with h4
          rw [← h4]
          trivial

theorem simL_succ (n : Nat) (ih : SimAll n) : SimL (n + 1) := by
  obtain ⟨ihE, ihArgs, ihS, ihL, ihBlock, ihCall⟩ := ih
  intro D sts S s r s' hres hwf hinv hmatch hall hmiss heval
  cases sts with
  | nil =>
    rw [show execStmts (n + 1) ([] : List Stmt) s = (.ok (), s) from rfl] at heval
    injection heval with h1 h2
    rw [← h1, ← h2]
    refine ⟨postC_refl hmiss hinv, ?_, ?_⟩
    · intro _
      exact hmatch
    · intro w hw; cases hw
  | cons st sts =>
    cases hres with
    | cons d1 d2 =>
      have hwf2 : (stmtWF st && stmtsWF sts) = true := hwf
      rw [Bool.and_eq_true] at hwf2
      unfold execStmts at heval
      cases hs1 : execStmt n st s with
      | mk r1 s1 =>
        rw [hs1] at heval
        have hS1 := ihS D st S s r1 s1 d1 hwf2.1 hinv hmatch hall hmiss hs1
        cases r1 with
        | error sg =>
          dsimp only [bindE] at heval
          injection heval with h1 h2
          rw [← h1, ← h2]
          refine ⟨hS1.1, ?_, hS1.2.2⟩
          intro hv; cases hv
        | ok u =>
          dsimp only [bindE] at heval
          have hm1 : EnvMatch s1.heap (scopeAfter st S) s1.env := hS1.2.1 rfl
          have hL := ihL D sts (scopeAfter st S) s1 r s' d2 hwf2.2 hS1.1.2.1 hm1
            (allTrueS_scopeAfter st S hall) hS1.1.1 heval
          refine ⟨postC_trans hS1.1 hL.1, ?_, hL.2.2⟩
          intro hok
          exact hL.2.1 hok

theorem simBlock_succ (n : Nat) (ih : SimAll n) : SimBlock (n + 1) := by
  obtain ⟨ihE, ihArgs, ihS, ihL, ihBlock, ihCall⟩ := ih
  intro D sts S0 envId s r s' hres hwf hinv hm hat hmiss heval
  unfold executeBlock at heval
  dsimp only at heval
  cases hrun : execStmts n sts { s with env := envId } with
  | mk r0 s1 =>
    rw [hrun] at heval
    dsimp only at heval
    injection heval with h1 h2
    rw [← h1, ← h2]
    have hL := ihL D sts S0 { s with env := envId } r0 s1 hres hwf hinv hm hat hmiss hrun
    refine ⟨⟨hL.1.1, hL.1.2.1, hL.1.2.2.1, rfl⟩, ?_⟩
    intro w hw
    exact hL.2.2 w hw

theorem simCall_succ (n : Nat) (ih : SimAll n) : SimCall (n + 1) := by
  obtain ⟨ihE, ihArgs, ihS, ihL, ihBlock, ihCall⟩ := ih
  intro D params body closEnv args s r s' S hinv hm hat hwfb hbody hargs hmiss heval
  unfold callLox at heval
  dsimp only at heval
  have hlt : closEnv < s.heap.length := envMatch_env_lt hinv.1 hm
  have hext1 : heapExtends s.heap
      (s.heap ++ [⟨some closEnv, bindParams params args⟩]) :=
    heapExtends_append s.heap _
  have hinv1 : StateInv D
      { s with heap := s.heap ++ [⟨some closEnv, bindParams params args⟩] } := by
    refine ⟨heapWF_append s.heap closEnv _ hinv.1 hlt, ?_, hinv.2.2⟩
    refine valuesOK_append D s.heap _ hinv.2.1 ?_
    intro p hp
    rcases mem_foldl_upsert (zipPad params args) [] p hp with h1 | h1
    · cases h1
    · obtain ⟨q, hq, hq2⟩ := List.mem_map.mp h1
      rcases zipPad_snd params args q hq with h2 | h2
      · rw [← hq2]
        exact closOK_weaken hext1 (hargs q.2 h2)
      · rw [← hq2, h2]
        trivial
  have hm1 : EnvMatch (s.heap ++ [⟨some closEnv, bindParams params args⟩])
      (paramScope params :: S) s.heap.length := by
    refine envMatch_push (paramScope params) _ hm rfl ?_
    intro x hx
    have hx2 : ((paramScope params).lookup x).isSome = true := by rw [hx]; rfl
    have hx3 := (lookup_isSome_foldDD params [] x).mp hx2
    rcases hx3 with h1 | h1
    · refine (lookup_isSome_foldPairs (zipPad params args) [] x).mpr ?_
      rw [zipPad_map_fst]
      exact .inl h1
    · cases h1
  have hpc1 : PostC D s
      { s with heap := s.heap ++ [⟨some closEnv, bindParams params args⟩] } :=
    ⟨hmiss, hinv1, hext1, rfl⟩
  cases hrun : executeBlock n body s.heap.length
      { s with heap := s.heap ++ [⟨some closEnv, bindParams params args⟩] } with
  | mk r0 s2 =>
    rw [hrun] at heval
    have hB2 := ihBlock D body (paramScope params :: S) s.heap.length
      { s with heap := s.heap ++ [⟨some closEnv, bindParams params args⟩] } r0 s2 hbody hwfb
      hinv1 hm1 (allTrueS_cons_param params S hat) hmiss hrun
    cases r0 with
    | ok u =>
      dsimp only at heval
      injection heval with h1 h2
      rw [← h1, ← h2]
      exact ⟨postC_trans hpc1 hB2.1, postVal_ok D s2.heap Value.nil trivial⟩
    | error sg =>
      cases sg with
      | retSig v =>
        dsimp only at heval
        injection heval with h1 h2
        rw [← h1, ← h2]
        exact ⟨postC_trans hpc1 hB2.1, postVal_ok D s2.heap v (hB2.2 v rfl)⟩
      | rte tok msg =>
        dsimp only at heval
        injection heval with h1 h2
        rw [← h1, ← h2]
        exact ⟨postC_trans hpc1 hB2.1, postVal_rte D s2.heap tok msg⟩
      | out =>
        dsimp only at heval
        injection heval with h1 h2
        rw [← h1, ← h2]
        exact ⟨postC_trans hpc1 hB2.1, postVal_out D s2.heap⟩

theorem simAll : ∀ n, SimAll n
  | 0 => simAll_zero
  | n + 1 =>
    ⟨simE_succ n (simAll n), simArgs_succ n (simAll n), simS_succ n (simAll n),
     simL_succ n (simAll n), simBlock_succ n (simAll n), simCall_succ n (simAll n)⟩

/-- Claim C1 (resolver-evaluator agreement): for every grammar-producible
program (no declarations in branch position, distinct node identities)
that passes the resolver without error, every evaluation of a `Variable`
node whose distance `d` was recorded in the side-table finds the name in
the frame reached after exactly `d` enclosing hops — the ghost observer
`resolvedMiss`, which records any violation of this property during the
whole run, stays `false` for every fuel. -/
theorem resolverEvaluatorAgreement :
    ∀ (stmts : List Stmt) (fuel : Nat),
      stmtsWF stmts = true →
      (stmtsIds stmts).Nodup →
      (resolveProgram stmts).hadError = false →
      (runProgram fuel stmts).resolvedMiss = false := by
  intro stmts fuel hwf hnd herr
  have hres : ResolLOK (fun idn => (resolveProgram stmts).locals.lookup idn)
      ([] : List Scope) stmts := by
    refine reifyL stmts ⟨[], [], false, [], "none"⟩
      (fun idn => (resolveProgram stmts).locals.lookup idn) herr ?_ hnd ?_
    · intro j hj
      rfl
    · intro j hj
      rfl
  have hinv0 : StateInv (fun idn => (resolveProgram stmts).locals.lookup idn)
      (initIState (resolveProgram stmts).locals) := by
    refine ⟨⟨Nat.one_pos, rfl, ?_⟩, ?_, ?_⟩
    · intro i p hp
      have hnone : parentOf (initIState (resolveProgram stmts).locals).heap i = none := by
        cases i with
        | zero => rfl
        | succ j => rfl
      rw [hnone] at hp
      cases hp
    · intro fr hfr p hp
      rw [List.mem_singleton.mp hfr] at hp
      rw [List.mem_singleton.mp hp]
      trivial
    · intro idn
      rfl
  cases hrun : execStmts fuel stmts (initIState (resolveProgram stmts).locals) with
  | mk rr ss =>
    have hL := (simAll fuel).2.2.2.1 (fun idn => (resolveProgram stmts).locals.lookup idn)
      stmts [] (initIState (resolveProgram stmts).locals) rr ss hres hwf hinv0 rfl
      (by intro sc hsc; cases hsc) rfl hrun
    rw [show runProgram fuel stmts =
      (execStmts fuel stmts (initIState (resolveProgram stmts).locals)).2 from rfl, hrun]
    exact hL.1.1

theorem resolverEvaluatorAgreement_witness :
    stmtsWF
        [Stmt.funDecl ⟨"IDENTIFIER", "f", .nilL, 1⟩ [⟨"IDENTIFIER", "x", .nilL, 1⟩]
          [Stmt.ret ⟨"RETURN", "return", .nilL, 1⟩
            (some (Expr.variableE 0 ⟨"IDENTIFIER", "x", .nilL, 1⟩))],
         Stmt.print (Expr.call (Expr.variableE 1 ⟨"IDENTIFIER", "f", .nilL, 2⟩)
          ⟨"RIGHT_PAREN", ")", .nilL, 2⟩ [Expr.literal (.numL (.fin 1))])] = true ∧
    (stmtsIds
        [Stmt.funDecl ⟨"IDENTIFIER", "f", .nilL, 1⟩ [⟨"IDENTIFIER", "x", .nilL, 1⟩]
          [Stmt.ret ⟨"RETURN", "return", .nilL, 1⟩
            (some (Expr.variableE 0 ⟨"IDENTIFIER", "x", .nilL, 1⟩))],
         Stmt.print (Expr.call (Expr.variableE 1 ⟨"IDENTIFIER", "f", .nilL, 2⟩)
          ⟨"RIGHT_PAREN", ")", .nilL, 2⟩ [Expr.literal (.numL (.fin 1))])]).Nodup ∧
    (resolveProgram
        [Stmt.funDecl ⟨"IDENTIFIER", "f", .nilL, 1⟩ [⟨"IDENTIFIER", "x", .nilL, 1⟩]
          [Stmt.ret ⟨"RETURN", "return", .nilL, 1⟩
            (some (Expr.variableE 0 ⟨"IDENTIFIER", "x", .nilL, 1⟩))],
         Stmt.print (Expr.call (Expr.variableE 1 ⟨"IDENTIFIER", "f", .nilL, 2⟩)
          ⟨"RIGHT_PAREN", ")", .nilL, 2⟩ [Expr.literal (.numL (.fin 1))])]).hadError = false ∧
    (runProgram 10
        [Stmt.funDecl ⟨"IDENTIFIER", "f", .nilL, 1⟩ [⟨"IDENTIFIER", "x", .nilL, 1⟩]
          [Stmt.ret ⟨"RETURN", "return", .nilL, 1⟩
            (some (Expr.variableE 0 ⟨"IDENTIFIER", "x", .nilL, 1⟩))],
         Stmt.print (Expr.call (Expr.variableE 1 ⟨"IDENTIFIER", "f", .nilL, 2⟩)
          ⟨"RIGHT_PAREN", ")", .nilL, 2⟩ [Expr.literal (.numL (.fin 1))])]).resolvedMiss =
      false :=
  ⟨rfl, by decide, rfl,
   resolverEvaluatorAgreement
     [Stmt.funDecl ⟨"IDENTIFIER", "f", .nilL, 1⟩ [⟨"IDENTIFIER", "x", .nilL, 1⟩]
        [Stmt.ret ⟨"RETURN", "return", .nilL, 1⟩
          (some (Expr.variableE 0 ⟨"IDENTIFIER", "x", .nilL, 1⟩))],
      Stmt.print (Expr.call (Expr.variableE 1 ⟨"IDENTIFIER", "f", .nilL, 2⟩)
        ⟨"RIGHT_PAREN", ")", .nilL, 2⟩ [Expr.literal (.numL (.fin 1))])]
     10 rfl (by decide) rfl⟩
